import Mathlib

/-!
# Verification of the bitboard chess engine

A shallow embedding, in Lean 4, of the TypeScript bitboard chess engine
(bitboard.ts, attacks.ts, magic.ts, move.ts, movegen.ts, position.ts,
makemove.ts, zobrist.ts, gamestate.ts, evaluation.ts, transposition.ts,
search.ts), together with theorems settling the frozen claims about it.

Modelling conventions:
* JavaScript `bigint` bitboards are `Nat`; the source masks to 64 bits
  (`& 0xFFFFFFFFFFFFFFFFn`) exactly where `&&& MASK64` appears here.
* `Number(someBigint)` — conversion of a bigint to an IEEE-754 double —
  is modelled exactly by `jsNumber` (round to nearest, ties to even,
  53-bit significand).  This conversion is lossy for values ≥ 2^53 and is
  load-bearing for several claims.
* JavaScript sparse arrays written at huge `Number` indices behave as
  maps from index to the last value written there; `magicAttacksAt`
  models that with a highest-index-first search over the write sequence.
* Mutation is explicit state passing: functions that mutate a `Position`
  take and return a `Position`.  `Array.push`/`pop` at the end of a JS
  array is modelled with list `cons`/`head?`/`tail` (top of stack at the
  head); only the stack discipline matters to the code.
* Loops with a data-dependent bound carry explicit fuel chosen at least
  as large as any possible trip count, so every definition is a
  computable structural recursion the kernel can evaluate.
-/

set_option maxRecDepth 200000
set_option maxHeartbeats 4000000

namespace Chess

/-- 64-bit mask, `FULL` in bitboard.ts. -/
def MASK64 : Nat := 0xFFFFFFFFFFFFFFFF

/-- `fileOf` from bitboard.ts: `square & 7`. -/
def fileOf (sq : Nat) : Nat := sq &&& 7

/-- `rankOf` from bitboard.ts: `square >> 3`. -/
def rankOf (sq : Nat) : Nat := sq >>> 3

/-- `makeSquare` from bitboard.ts: `rank * 8 + file`. -/
def makeSquare (file rank : Nat) : Nat := rank * 8 + file

/-- `squareBB` from bitboard.ts: `1n << BigInt(square)`. -/
def squareBB (sq : Nat) : Nat := 1 <<< sq

/-- `testBit` from bitboard.ts: `(bb & squareBB(square)) !== 0n`. -/
def testBit (bb sq : Nat) : Bool := bb &&& squareBB sq != 0

/-- `setBit` from bitboard.ts: `bb | squareBB(square)`. -/
def setBit (bb sq : Nat) : Nat := bb ||| squareBB sq

/-- `clearBit` from bitboard.ts: `bb & ~squareBB(square)`.  On
arbitrary-precision integers, and-with-complement clears exactly that
bit, which on `Nat` is subtraction of the isolated bit. -/
def clearBit (bb sq : Nat) : Nat := bb - (bb &&& squareBB sq)

/-- Loop body count of `popCount` from bitboard.ts: clears the least
significant bit until the board is empty.  Fuel 64 suffices for any
64-bit board (one iteration per set bit). -/
def popCountGo : Nat → Nat → Nat
  | 0, _ => 0
  | fuel + 1, bb => if bb = 0 then 0 else popCountGo fuel (bb &&& (bb - 1)) + 1

/-- `popCount` from bitboard.ts. -/
def popCount (bb : Nat) : Nat := popCountGo 64 bb

/-- Smallest `e` with `n >>> e < 2^53`, i.e. `max 0 (bitlength n - 53)`
(fuel-bounded loop so it evaluates in the kernel). -/
def ulpExpGo : Nat → Nat → Nat → Nat
  | 0, _, e => e
  | fuel + 1, n, e => if n >>> e < 2 ^ 53 then e else ulpExpGo fuel n (e + 1)

/-- The JavaScript `Number(bigint)` conversion: round the integer to the
nearest IEEE-754 double (53-bit significand, ties to even).  All values
this development feeds it are far below the overflow threshold. -/
def jsNumber (n : Nat) : Nat :=
  if n < 2 ^ 53 then n else
    let e := ulpExpGo 200 n 0
    let q := n >>> e
    let r := n - (q <<< e)
    let half := 1 <<< (e - 1)
    let q2 := if half < r ∨ (r = half ∧ q % 2 = 1) then q + 1 else q
    q2 <<< e

/-- De Bruijn constant of `bitScanForward` in bitboard.ts. -/
def debruijn64 : Nat := 0x03f79d71b4cb0a89

/-- The `index64` lookup table of `bitScanForward` in bitboard.ts. -/
def index64 : List Nat :=
  [0, 1, 48, 2, 57, 49, 28, 3, 61, 58, 50, 42, 38, 29, 17, 4,
   62, 55, 59, 36, 53, 51, 43, 22, 45, 39, 33, 30, 24, 18, 12, 5,
   63, 47, 56, 27, 60, 41, 37, 16, 54, 35, 52, 21, 44, 32, 23, 11,
   46, 26, 40, 15, 34, 20, 31, 10, 25, 14, 19, 9, 13, 8, 7, 6]

/-- `bitScanForward` from bitboard.ts (the identical private copy in
zobrist.ts is this same function).  `bb & (-bb)` on a two's-complement
arbitrary-precision integer isolates the lowest set bit, which for
`bb < 2^64` equals `bb &&& (2^64 - bb)`.  The source converts
`(isolated * debruijn64) >> 58n` — a value of up to 64 bits — to a
`Number` WITHOUT first masking the product to 64 bits, so the
conversion rounds away low bits whenever the result exceeds 2^53; the
following `& 63` (ToInt32 then mask) is `% 64` of the rounded value. -/
def bitScanForward (bb : Nat) : Int :=
  if bb = 0 then -1 else
    let isolated := bb &&& (2 ^ 64 - bb)
    let idx := jsNumber ((isolated * debruijn64) >>> 58) % 64
    Int.ofNat (index64.getD idx 0)

/-- Loop of `getSquares` from bitboard.ts: list the squares of a board,
least significant bit first, via `bitScanForward` and clear-lowest-bit.
Fuel 64 covers any 64-bit board. -/
def getSquaresGo : Nat → Nat → List Nat
  | 0, _ => []
  | fuel + 1, copy =>
    if copy = 0 then []
    else (bitScanForward copy).toNat :: getSquaresGo fuel (copy &&& (copy - 1))

/-- `getSquares` from bitboard.ts. -/
def getSquares (bb : Nat) : List Nat := getSquaresGo 64 bb

/-- File and not-file masks from bitboard.ts. -/
def FILE_A : Nat := 0x0101010101010101

def FILE_B : Nat := 0x0202020202020202

def FILE_G : Nat := 0x4040404040404040

def FILE_H : Nat := 0x8080808080808080

/-- `~FILE_A & FULL` from bitboard.ts (complement restricted to 64 bits). -/
def NOT_FILE_A : Nat := MASK64 ^^^ FILE_A

def NOT_FILE_H : Nat := MASK64 ^^^ FILE_H

def NOT_FILE_AB : Nat := MASK64 ^^^ (FILE_A ||| FILE_B)

def NOT_FILE_GH : Nat := MASK64 ^^^ (FILE_G ||| FILE_H)

/-- And-with-complement `bb & ~mask` on arbitrary-precision integers:
remove the bits of `mask` from `bb` (no 64-bit truncation). -/
def andNot (bb mask : Nat) : Nat := bb - (bb &&& mask)

/-- Rank masks from bitboard.ts. -/
def RANK_1 : Nat := 0x00000000000000FF

def RANK_2 : Nat := 0x000000000000FF00

def RANK_4 : Nat := 0x00000000FF000000

def RANK_5 : Nat := 0x000000FF00000000

def RANK_7 : Nat := 0x00FF000000000000

def RANK_8 : Nat := 0xFF00000000000000

/-- `shiftNorth` from bitboard.ts. -/
def shiftNorth (bb : Nat) : Nat := (bb <<< 8) &&& MASK64

/-- `shiftSouth` from bitboard.ts. -/
def shiftSouth (bb : Nat) : Nat := bb >>> 8

/-- `shiftEast` from bitboard.ts: `(bb << 1n) & ~0x0101..n` (note: the
source does NOT truncate this one to 64 bits). -/
def shiftEast (bb : Nat) : Nat := andNot (bb <<< 1) FILE_A

/-- `shiftWest` from bitboard.ts: `(bb >> 1n) & ~0x8080..n`. -/
def shiftWest (bb : Nat) : Nat := andNot (bb >>> 1) FILE_H

/-- `shiftNorthEast` from bitboard.ts: `(bb << 9n) & ~FILE_A & FULL`. -/
def shiftNorthEast (bb : Nat) : Nat := andNot (bb <<< 9) FILE_A &&& MASK64

/-- `shiftNorthWest` from bitboard.ts: `(bb << 7n) & ~FILE_H & FULL`. -/
def shiftNorthWest (bb : Nat) : Nat := andNot (bb <<< 7) FILE_H &&& MASK64

/-- `shiftSouthEast` from bitboard.ts: `(bb >> 7n) & ~FILE_A`. -/
def shiftSouthEast (bb : Nat) : Nat := andNot (bb >>> 7) FILE_A

/-- `shiftSouthWest` from bitboard.ts: `(bb >> 9n) & ~FILE_H`. -/
def shiftSouthWest (bb : Nat) : Nat := andNot (bb >>> 9) FILE_H

/-! ## Attack tables (attacks.ts)

The source builds `KNIGHT_ATTACKS`, `KING_ATTACKS` and the two pawn
tables once at start-up, one entry per square, from the loop bodies
below; we model each table as the function of the square the build
computes. -/

/-- Body of the `initializeKnightAttacks` loop in attacks.ts. -/
def knightAttacksTable (sq : Nat) : Nat :=
  let bb := squareBB sq
  ((bb <<< 15) &&& NOT_FILE_H) |||
  ((bb <<< 17) &&& NOT_FILE_A) |||
  ((bb <<< 6) &&& NOT_FILE_GH) |||
  ((bb <<< 10) &&& NOT_FILE_AB) |||
  ((bb >>> 17) &&& NOT_FILE_H) |||
  ((bb >>> 15) &&& NOT_FILE_A) |||
  ((bb >>> 10) &&& NOT_FILE_GH) |||
  ((bb >>> 6) &&& NOT_FILE_AB)

/-- Body of the `initializeKingAttacks` loop in attacks.ts. -/
def kingAttacksTable (sq : Nat) : Nat :=
  let bb := squareBB sq
  shiftNorth bb ||| shiftSouth bb ||| shiftEast bb ||| shiftWest bb |||
  shiftNorthEast bb ||| shiftNorthWest bb ||| shiftSouthEast bb ||| shiftSouthWest bb

/-- White pawn attack table from `initializePawnAttacks` in attacks.ts. -/
def whitePawnAttacksTable (sq : Nat) : Nat :=
  shiftNorthEast (squareBB sq) ||| shiftNorthWest (squareBB sq)

/-- Black pawn attack table from `initializePawnAttacks` in attacks.ts. -/
def blackPawnAttacksTable (sq : Nat) : Nat :=
  shiftSouthEast (squareBB sq) ||| shiftSouthWest (squareBB sq)

/-- `getKnightAttacks` from attacks.ts. -/
def getKnightAttacks (sq : Nat) : Nat := knightAttacksTable sq

/-- `getKingAttacks` from attacks.ts. -/
def getKingAttacks (sq : Nat) : Nat := kingAttacksTable sq

/-- `getPawnAttacks` from attacks.ts. -/
def getPawnAttacks (sq : Nat) (isWhite : Bool) : Nat :=
  if isWhite then whitePawnAttacksTable sq else blackPawnAttacksTable sq

/-! ## Magic bitboards (magic.ts) -/

/-- `ROOK_MAGIC_NUMBERS` from magic.ts. -/
def ROOK_MAGIC_NUMBERS : List Nat :=
  [0x8a80104000800020, 0x140002000100040, 0x2801880a0017001, 0x100081001000420,
   0x200020010080420, 0x3001c0002010008, 0x8480008002000100, 0x2080088004402900,
   0x800098204000, 0x2024401000200040, 0x100802000801000, 0x120800800801000,
   0x208808088000400, 0x2802200800400, 0x2200800100020080, 0x801000060821100,
   0x80044006422000, 0x100808020004000, 0x12108a0010204200, 0x140848010000802,
   0x481828014002800, 0x8094004002004100, 0x4010040010010802, 0x20008806104,
   0x100400080208000, 0x2040002120081000, 0x21200680100081, 0x20100080080080,
   0x2000a00200410, 0x20080800400, 0x80088400100102, 0x80004600042881,
   0x4040008040800020, 0x440003000200801, 0x4200011004500, 0x188020010100100,
   0x14800401802800, 0x2080040080800200, 0x124080204001001, 0x200046502000484,
   0x480400080088020, 0x1000422010034000, 0x30200100110040, 0x100021010009,
   0x2002080100110004, 0x202008004008002, 0x20020004010100, 0x2048440040820001,
   0x101002200408200, 0x40802000401080, 0x4008142004410100, 0x2060820c0120200,
   0x1001004080100, 0x20c020080040080, 0x2935610830022400, 0x44440041009200,
   0x280001040802101, 0x2100190040002085, 0x80c0084100102001, 0x4024081001000421,
   0x20030a0244872, 0x12001008414402, 0x2006104900a0804, 0x1004081002402]

/-- `BISHOP_MAGIC_NUMBERS` from magic.ts. -/
def BISHOP_MAGIC_NUMBERS : List Nat :=
  [0x40040844404084, 0x2004208a004208, 0x10190041080202, 0x108060845042010,
   0x581104180800210, 0x2112080446200010, 0x1080820820060210, 0x3c0808410220200,
   0x4050404440404, 0x21001420088, 0x24d0080801082102, 0x1020a0a020400,
   0x40308200402, 0x4011002100800, 0x401484104104005, 0x801010402020200,
   0x400210c3880100, 0x404022024108200, 0x810018200204102, 0x4002801a02003,
   0x85040820080400, 0x810102c808880400, 0xe900410884800, 0x8002020480840102,
   0x220200865090201, 0x2010100a02021202, 0x152048408022401, 0x20080002081110,
   0x4001001021004000, 0x800040400a011002, 0xe4004081011002, 0x1c004001012080,
   0x8004200962a00220, 0x8422100208500202, 0x2000402200300c08, 0x8646020080080080,
   0x80020a0200100808, 0x2010004880111000, 0x623000a080011400, 0x42008c0340209202,
   0x209188240001000, 0x400408a884001800, 0x110400a6080400, 0x1840060a44020800,
   0x90080104000041, 0x201011000808101, 0x1a2208080504f080, 0x8012020600211212,
   0x500861011240000, 0x180806108200800, 0x4000020e01040044, 0x300000261044000a,
   0x802241102020002, 0x20906061210001, 0x5a84841004010310, 0x4010801011c04,
   0xa010109502200, 0x4a02012000, 0x500201010098b028, 0x8040002811040900,
   0x28000010020204, 0x6000020202d0240, 0x8918844842082200, 0x4010011029020020]

/-- `BISHOP_BITS` from magic.ts. -/
def BISHOP_BITS : List Nat :=
  [6, 5, 5, 5, 5, 5, 5, 6,
   5, 5, 5, 5, 5, 5, 5, 5,
   5, 5, 7, 7, 7, 7, 5, 5,
   5, 5, 7, 9, 9, 7, 5, 5,
   5, 5, 7, 9, 9, 7, 5, 5,
   5, 5, 7, 7, 7, 7, 5, 5,
   5, 5, 5, 5, 5, 5, 5, 5,
   6, 5, 5, 5, 5, 5, 5, 6]

/-- `ROOK_BITS` from magic.ts. -/
def ROOK_BITS : List Nat :=
  [12, 11, 11, 11, 11, 11, 11, 12,
   11, 10, 10, 10, 10, 10, 10, 11,
   11, 10, 10, 10, 10, 10, 10, 11,
   11, 10, 10, 10, 10, 10, 10, 11,
   11, 10, 10, 10, 10, 10, 10, 11,
   11, 10, 10, 10, 10, 10, 10, 11,
   11, 10, 10, 10, 10, 10, 10, 11,
   12, 11, 11, 11, 11, 11, 11, 12]

/-- `generateRookMask` from magic.ts: relevant-occupancy mask of a rook
(ray squares short of the board edge).  The four bounded `for` loops are
folds over the same index ranges. -/
def generateRookMask (sq : Nat) : Nat :=
  let f := fileOf sq
  let r := rankOf sq
  let north := (List.range' (r + 1) (7 - (r + 1))).foldl
    (fun m rr => m ||| squareBB (rr * 8 + f)) 0
  let south := (List.range' 1 (r - 1)).foldl
    (fun m rr => m ||| squareBB (rr * 8 + f)) 0
  let east := (List.range' (f + 1) (7 - (f + 1))).foldl
    (fun m ff => m ||| squareBB (r * 8 + ff)) 0
  let west := (List.range' 1 (f - 1)).foldl
    (fun m ff => m ||| squareBB (r * 8 + ff)) 0
  north ||| south ||| east ||| west

/-- One diagonal loop of `generateBishopMask` from magic.ts: walk from
`(r, f)` by `(dr, df)` while strictly inside the edge ring. -/
def bishopMaskRay : Nat → Int → Int → Int → Int → Nat
  | 0, _, _, _, _ => 0
  | fuel + 1, r, f, dr, df =>
    if 0 < r ∧ r < 7 ∧ 0 < f ∧ f < 7 then
      squareBB (r * 8 + f).toNat ||| bishopMaskRay fuel (r + dr) (f + df) dr df
    else 0

/-- `generateBishopMask` from magic.ts. -/
def generateBishopMask (sq : Nat) : Nat :=
  let f : Int := Int.ofNat (fileOf sq)
  let r : Int := Int.ofNat (rankOf sq)
  bishopMaskRay 8 (r + 1) (f + 1) 1 1 ||| bishopMaskRay 8 (r + 1) (f - 1) 1 (-1) |||
  bishopMaskRay 8 (r - 1) (f + 1) (-1) 1 ||| bishopMaskRay 8 (r - 1) (f - 1) (-1) (-1)

/-- One directional loop of `generateRookAttacks`/`generateBishopAttacks`
from magic.ts: accumulate ray squares from `(r, f)` stepping by
`(dr, df)` until leaving the board or hitting (and including) the first
blocker. -/
def castRay : Nat → Int → Int → Int → Int → Nat → Nat
  | 0, _, _, _, _, _ => 0
  | fuel + 1, r, f, dr, df, blockers =>
    if 0 ≤ r ∧ r < 8 ∧ 0 ≤ f ∧ f < 8 then
      let s := (r * 8 + f).toNat
      squareBB s |||
        (if testBit blockers s then 0 else castRay fuel (r + dr) (f + df) dr df blockers)
    else 0

/-- `generateRookAttacks` from magic.ts: ray-cast to the first blocker
(inclusive) or the board edge, in the four rook directions. -/
def generateRookAttacks (sq blockers : Nat) : Nat :=
  let f : Int := Int.ofNat (fileOf sq)
  let r : Int := Int.ofNat (rankOf sq)
  castRay 8 (r + 1) f 1 0 blockers ||| castRay 8 (r - 1) f (-1) 0 blockers |||
  castRay 8 r (f + 1) 0 1 blockers ||| castRay 8 r (f - 1) 0 (-1) blockers

/-- `generateBishopAttacks` from magic.ts. -/
def generateBishopAttacks (sq blockers : Nat) : Nat :=
  let f : Int := Int.ofNat (fileOf sq)
  let r : Int := Int.ofNat (rankOf sq)
  castRay 8 (r + 1) (f + 1) 1 1 blockers ||| castRay 8 (r + 1) (f - 1) 1 (-1) blockers |||
  castRay 8 (r - 1) (f + 1) (-1) 1 blockers ||| castRay 8 (r - 1) (f - 1) (-1) (-1) blockers

/-- The `bits` list collected by `generateOccupancies` in magic.ts:
repeatedly push `bitScanForward` of the remaining mask and clear its
lowest set bit (so the broken scan above is faithfully used here too). -/
def maskBitsGo : Nat → Nat → List Nat
  | 0, _ => []
  | fuel + 1, m =>
    if m = 0 then []
    else (bitScanForward m).toNat :: maskBitsGo fuel (m &&& (m - 1))

/-- The `i`-th occupancy subset built by `generateOccupancies` in
magic.ts: bit `j` of the index selects `bits[j]`. -/
def occFromIndex (bits : List Nat) : Nat → Nat
  | 0 => 0
  | i =>
    match bits with
    | [] => 0
    | b :: rest => (if i % 2 = 1 then squareBB b else 0) ||| occFromIndex rest (i / 2)

/-- Highest-index-first search: among `n` indices starting at `lo`, find
the largest `i` with `keyOf i = target`.  Binary splitting keeps the
recursion depth logarithmic; `fuel ≥ log2 n + 1` suffices. -/
def searchDesc (keyOf : Nat → Nat) (target : Nat) : Nat → Nat → Nat → Option Nat
  | 0, _, _ => none
  | fuel + 1, lo, n =>
    if n = 0 then none
    else if n = 1 then (if keyOf lo = target then some lo else none)
    else
      let h := n / 2
      (searchDesc keyOf target fuel (lo + h) (n - h)).orElse
        (fun _ => searchDesc keyOf target fuel lo h)

/-- One `MagicEntry` of magic.ts (mask, magic multiplier, shift). -/
structure MagicEntry where
  mask : Nat
  magic : Nat
  shift : Nat

/-- The mask/magic/shift part of `initializeMagicForSquare` from magic.ts. -/
def magicEntryFor (sq : Nat) (isRook : Bool) : MagicEntry :=
  let mask := if isRook then generateRookMask sq else generateBishopMask sq
  let magic := if isRook then ROOK_MAGIC_NUMBERS.getD sq 0 else BISHOP_MAGIC_NUMBERS.getD sq 0
  let bits := if isRook then ROOK_BITS.getD sq 0 else BISHOP_BITS.getD sq 0
  { mask := mask, magic := magic, shift := 64 - bits }

/-- The `attacks` store of `initializeMagicForSquare`: the build loop
writes, for each occupancy subset in index order, the ray-cast attack
set at JavaScript array index `Number((occ * magic) >> shift)` — a
(possibly rounded, possibly colliding) huge float key.  A read at `key`
therefore sees the attack set of the LAST enumerated subset whose
computed key equals `key`, and `undefined` (`none`) when no write hit
that key. -/
def magicAttacksAt (sq : Nat) (isRook : Bool) (key : Nat) : Option Nat :=
  let e := magicEntryFor sq isRook
  let bits := if isRook then ROOK_BITS.getD sq 0 else BISHOP_BITS.getD sq 0
  let blist := maskBitsGo 64 e.mask
  let keyOf := fun i => jsNumber ((occFromIndex blist i * e.magic) >>> e.shift)
  match searchDesc keyOf key 16 0 (2 ^ bits) with
  | some i =>
      some (if isRook then generateRookAttacks sq (occFromIndex blist i)
            else generateBishopAttacks sq (occFromIndex blist i))
  | none => none

/-- `getRookAttacks` from magic.ts: magic-index table lookup, with the
`?? 0n` fallback for an index never written. -/
def getRookAttacks (sq occupancy : Nat) : Nat :=
  let e := magicEntryFor sq true
  let key := jsNumber (((occupancy &&& e.mask) * e.magic) >>> e.shift)
  match magicAttacksAt sq true key with
  | some a => a
  | none => 0

/-- `getBishopAttacks` from magic.ts. -/
def getBishopAttacks (sq occupancy : Nat) : Nat :=
  let e := magicEntryFor sq false
  let key := jsNumber (((occupancy &&& e.mask) * e.magic) >>> e.shift)
  match magicAttacksAt sq false key with
  | some a => a
  | none => 0

/-- `getQueenAttacks` from magic.ts. -/
def getQueenAttacks (sq occupancy : Nat) : Nat :=
  getRookAttacks sq occupancy ||| getBishopAttacks sq occupancy

/-! ## Move encoding (move.ts, types/chess.ts)

A move is a 16-bit integer: bits 0–5 origin, 6–11 destination, 12–15
flags.  Flag values (`MOVE_FLAGS`): 0 quiet, 1 double pawn push,
2 king castle, 3 queen castle, 4 capture, 5 en passant,
8–11 knight/bishop/rook/queen promotion, 12–15 the capture variants. -/

/-- `createMove` from move.ts. -/
def createMove (fromSq toSq flags : Nat) : Nat :=
  fromSq ||| (toSq <<< 6) ||| (flags <<< 12)

/-- `createMove` applied to a possibly negative from-square.  The pawn
generator computes the from-square as `to - 8`, which in JS can be
negative when the overflowing `bitScanForward` mislabels a promotion
square as 0; `|` then coerces it to a 32-bit two's-complement value
whose sign bits bleed over the whole move word.  Every accessor reads
only the low 16 bits, so the move is represented by those: for
`fromI ≥ 0` this agrees with `createMove`, and for `fromI = -8` it
yields the word the JS accessors decode as from 56, to 63, flags 15. -/
def createMoveI (fromI : Int) (toSq flags : Nat) : Nat :=
  ((fromI.emod 65536).toNat ||| (toSq <<< 6) ||| (flags <<< 12)) &&& 0xFFFF

/-- `getFromSquare` from move.ts. -/
def getFromSquare (move : Nat) : Nat := move &&& 0x3F

/-- `getToSquare` from move.ts. -/
def getToSquare (move : Nat) : Nat := (move &&& 0xFC0) >>> 6

/-- `getMoveFlags` from move.ts. -/
def getMoveFlags (move : Nat) : Nat := (move &&& 0xF000) >>> 12

/-- `isCapture` from move.ts: flag bit 2. -/
def isCapture (move : Nat) : Bool := getMoveFlags move &&& 0x4 != 0

/-- `isPromotion` from move.ts: flag bit 3. -/
def isPromotion (move : Nat) : Bool := getMoveFlags move &&& 0x8 != 0

/-- `getPromotionPiece` from move.ts: 0 knight, 1 bishop, 2 rook, 3 queen. -/
def getPromotionPiece (move : Nat) : Nat := getMoveFlags move &&& 0x3

/-- `isEnPassant` from move.ts. -/
def isEnPassant (move : Nat) : Bool := getMoveFlags move = 5

/-- `isKingsideCastle` from move.ts. -/
def isKingsideCastle (move : Nat) : Bool := getMoveFlags move = 2

/-- `isQueensideCastle` from move.ts. -/
def isQueensideCastle (move : Nat) : Bool := getMoveFlags move = 3

/-- `isDoublePawnPush` from move.ts. -/
def isDoublePawnPush (move : Nat) : Bool := getMoveFlags move = 1

/-! ## Position (position.ts, types/chess.ts)

Piece indices (`PIECE_INDEX`): 0–5 white pawn/knight/bishop/rook/queen/
king, 6–11 the same for black.  Castling-right bits (`CASTLING`):
1 white kingside, 2 white queenside, 4 black kingside, 8 black
queenside. -/

/-- The two colours. -/
inductive Color where
  | white
  | black
deriving DecidableEq

/-- `PositionState` from position.ts: the undo record saved by
`makeMove`.  `capturedPiece` is −1 when nothing was captured. -/
structure PositionState where
  castlingRights : Nat
  enPassantSquare : Int
  halfmoveClock : Nat
  capturedPiece : Int
  zobristHash : Nat
deriving DecidableEq

/-- The `Position` class of position.ts.  `bitboards` has length 12;
`enPassantSquare` is −1 when unset; `stateHistory` and
`positionHistory` are stacks with the most recent entry at the head
(the source pushes/pops at the array end). -/
structure Position where
  bitboards : List Nat
  whitePieces : Nat
  blackPieces : Nat
  allPieces : Nat
  sideToMove : Color
  castlingRights : Nat
  enPassantSquare : Int
  halfmoveClock : Nat
  fullmoveNumber : Int
  zobristHash : Nat
  stateHistory : List PositionState
  positionHistory : List Nat
deriving DecidableEq

/-- `bitboards[p]` (always in range in the source). -/
def bbAt (pos : Position) (p : Nat) : Nat := pos.bitboards.getD p 0

/-- `updateAggregateBitboards` from position.ts. -/
def updateAggregateBitboards (pos : Position) : Position :=
  let w := bbAt pos 0 ||| bbAt pos 1 ||| bbAt pos 2 ||| bbAt pos 3 ||| bbAt pos 4 ||| bbAt pos 5
  let b := bbAt pos 6 ||| bbAt pos 7 ||| bbAt pos 8 ||| bbAt pos 9 ||| bbAt pos 10 ||| bbAt pos 11
  { pos with whitePieces := w, blackPieces := b, allPieces := w ||| b }

/-- `pieceAt` from position.ts: index of the first of the 12 boards
with a piece on the square, −1 when empty. -/
def pieceAt (pos : Position) (sq : Nat) : Int :=
  match (List.range 12).find? (fun p => testBit (bbAt pos p) sq) with
  | some p => Int.ofNat p
  | none => -1

/-- `addPiece` from position.ts. -/
def addPiece (pos : Position) (p sq : Nat) : Position :=
  updateAggregateBitboards
    { pos with bitboards := pos.bitboards.set p (setBit (bbAt pos p) sq) }

/-- `removePiece` from position.ts. -/
def removePiece (pos : Position) (p sq : Nat) : Position :=
  updateAggregateBitboards
    { pos with bitboards := pos.bitboards.set p (clearBit (bbAt pos p) sq) }

/-- `movePiece` from position.ts: clear the origin bit, set the
destination bit, on the one board of the moving piece. -/
def movePiece (pos : Position) (p fromSq toSq : Nat) : Position :=
  updateAggregateBitboards
    { pos with bitboards := pos.bitboards.set p (setBit (clearBit (bbAt pos p) fromSq) toSq) }

/-- `kingSquare` from position.ts: scan squares 0–63 for the king of
the colour, −1 when absent. -/
def kingSquare (pos : Position) (c : Color) : Int :=
  let kingBB := bbAt pos (if c = Color.white then 5 else 11)
  match (List.range 64).find? (fun s => testBit kingBB s) with
  | some s => Int.ofNat s
  | none => -1

/-- `oppositeColor` from position.ts. -/
def oppositeColor (c : Color) : Color :=
  if c = Color.white then Color.black else Color.white

/-! ## FEN parsing (`Position.fromFEN`)

The thrown `Error`s of the source become `Except.error`. -/

/-- `charToPieceIndex` from position.ts. -/
def charToPieceIndex (c : Char) : Int :=
  if c = 'P' then 0 else if c = 'N' then 1 else if c = 'B' then 2
  else if c = 'R' then 3 else if c = 'Q' then 4 else if c = 'K' then 5
  else if c = 'p' then 6 else if c = 'n' then 7 else if c = 'b' then 8
  else if c = 'r' then 9 else if c = 'q' then 10 else if c = 'k' then 11
  else -1

/-- Character loop for `fen.trim().split(/\s+/)`: collect maximal runs
of non-whitespace characters. -/
def splitWsGo : List Char → List Char → List String
  | [], acc => if acc = [] then [] else [String.mk acc.reverse]
  | c :: rest, acc =>
    if c.isWhitespace then
      if acc = [] then splitWsGo rest []
      else String.mk acc.reverse :: splitWsGo rest []
    else splitWsGo rest (c :: acc)

/-- `fen.trim().split(/\s+/)`: the whitespace-separated tokens.
(Trimming plus splitting on whitespace runs yields exactly the maximal
non-whitespace runs.) -/
def splitWs (s : String) : List String := splitWsGo s.toList []

/-- Character loop for `parts[0].split('/')` (empty pieces are kept,
exactly as `String.prototype.split` with a plain separator). -/
def splitSlashGo : List Char → List Char → List String
  | [], acc => [String.mk acc.reverse]
  | c :: rest, acc =>
    if c = '/' then String.mk acc.reverse :: splitSlashGo rest []
    else splitSlashGo rest (c :: acc)

/-- `s.split('/')`. -/
def splitSlash (s : String) : List String := splitSlashGo s.toList []

/-- The per-rank placement loop of `fromFEN`: walk the characters of a
rank, advancing the file by the digit value or placing a piece;
`if (file > 7) break` stops silently, and unknown characters still
advance the file. -/
def fenRowGo (bbs : List Nat) (rank : Nat) : Nat → List Char → List Nat
  | _, [] => bbs
  | file, c :: rest =>
    if 7 < file then bbs
    else if '1' ≤ c ∧ c ≤ '8' then fenRowGo bbs rank (file + (c.toNat - 48)) rest
    else
      let square := makeSquare file rank
      let pi := charToPieceIndex c
      let bbs2 := if 0 ≤ pi then bbs.set pi.toNat (setBit (bbs.getD pi.toNat 0) square) else bbs
      fenRowGo bbs2 rank (file + 1) rest

/-- The castling-rights loop of `fromFEN`. -/
def fenCastling (s : String) : Nat :=
  if s = "-" then 0 else
    s.toList.foldl (fun acc c =>
      if c = 'K' then acc ||| 1 else if c = 'Q' then acc ||| 2
      else if c = 'k' then acc ||| 4 else if c = 'q' then acc ||| 8 else acc) 0

/-- JavaScript `parseInt` on the decimal fields of a FEN: value of the
leading digit run.  (On a field with no leading digit `parseInt` gives
`NaN`, which this model maps to 0; no claim depends on that case.) -/
def jsParseNatGo : List Char → Nat → Nat
  | [], acc => acc
  | c :: rest, acc =>
    if '0' ≤ c ∧ c ≤ '9' then jsParseNatGo rest (acc * 10 + (c.toNat - 48)) else acc

def jsParseNat (s : String) : Nat := jsParseNatGo s.toList 0

/-- The en-passant field of `fromFEN`: `-` means none, otherwise
`makeSquare(charCodeAt(0) - 97, parseInt(s[1]) - 1)`.  A malformed
field (missing or non-digit second character) yields `NaN` in the
source; this model uses a large negative sentinel, which behaves the
same in every later `>= 0` test. -/
def fenEnPassant (s : String) : Int :=
  if s = "-" then -1 else
    let file : Int := Int.ofNat (s.toList.getD 0 ' ').toNat - 97
    match s.toList.getD 1 '?' with
    | c => if '0' ≤ c ∧ c ≤ '9' then (Int.ofNat (c.toNat - 48) - 1) * 8 + file else -1000000

/-- `STARTING_FEN` from types/chess.ts. -/
def STARTING_FEN : String := "rnbqkbnr/pppppppp/8/8/8/8/PPPPPPPP/RNBQKBNR w KQkq - 0 1"

/-- `Position.fromFEN` from position.ts.  Throws (here: `Except.error`)
when there are fewer than four space-separated fields or the placement
field does not split into exactly 8 ranks; every other input is
accepted. -/
def fromFEN (fen : String) : Except String Position :=
  let parts := splitWs fen
  if parts.length < 4 then Except.error "Invalid FEN: not enough parts"
  else
    let rows := splitSlash (parts.getD 0 "")
    if rows.length ≠ 8 then Except.error "Invalid FEN: piece placement must have 8 rows"
    else
      let bbs := (List.range 8).foldl
        (fun bbs i => fenRowGo bbs (7 - i) 0 (rows.getD i "").toList)
        (List.replicate 12 0)
      let base : Position :=
        { bitboards := bbs
          whitePieces := 0, blackPieces := 0, allPieces := 0
          sideToMove := if parts.getD 1 "" = "w" then Color.white else Color.black
          castlingRights := fenCastling (parts.getD 2 "")
          enPassantSquare := fenEnPassant (parts.getD 3 "")
          halfmoveClock := if 4 < parts.length then jsParseNat (parts.getD 4 "") else 0
          fullmoveNumber := if 5 < parts.length then Int.ofNat (jsParseNat (parts.getD 5 "")) else 1
          zobristHash := 0
          stateHistory := [], positionHistory := [] }
      Except.ok (updateAggregateBitboards base)

/-! ## Zobrist hashing (zobrist.ts)

The table values come from a seeded xorshift64 generator; the build
consumes 768 piece values, one side value, 4 castling values and 8
en-passant values, in that order. -/

/-- One step of the `PRNG.next` xorshift64 from zobrist.ts (the source
masks to 64 bits only after the last xor). -/
def prngNext (x : Nat) : Nat :=
  let x1 := x ^^^ (x <<< 13)
  let x2 := x1 ^^^ (x1 >>> 7)
  (x2 ^^^ (x2 <<< 17)) &&& MASK64

/-- The first `n` outputs of the PRNG seeded with 1070372. -/
def prngOutputs : Nat → Nat → List Nat
  | 0, _ => []
  | n + 1, x =>
    let y := prngNext x
    y :: prngOutputs n y

/-- All 781 random values `initializeZobrist` draws, in draw order. -/
def zobristValues : List Nat := prngOutputs 781 1070372

/-- `ZOBRIST_PIECES[piece][square]`: draw number `piece * 64 + square`. -/
def ZOBRIST_PIECES (piece square : Nat) : Nat := zobristValues.getD (piece * 64 + square) 0

/-- `ZOBRIST_SIDE`: draw number 768. -/
def ZOBRIST_SIDE : Nat := zobristValues.getD 768 0

/-- `ZOBRIST_CASTLING[i]`: draw number 769 + i. -/
def ZOBRIST_CASTLING (i : Nat) : Nat := zobristValues.getD (769 + i) 0

/-- `ZOBRIST_EN_PASSANT[f]`: draw number 773 + f. -/
def ZOBRIST_EN_PASSANT (f : Nat) : Nat := zobristValues.getD (773 + f) 0

/-- The piece loop of `computeZobristHash`: xor the piece-square value
of every listed square of the board, where the square is produced by
the (broken, see `bitScanForward`) De Bruijn scan that zobrist.ts
duplicates verbatim. -/
def hashPiecesGo (piece : Nat) : Nat → Nat → Nat → Nat
  | 0, _, acc => acc
  | fuel + 1, bb, acc =>
    if bb = 0 then acc
    else hashPiecesGo piece fuel (bb &&& (bb - 1))
      (acc ^^^ ZOBRIST_PIECES piece (bitScanForward bb).toNat)

/-- `computeZobristHash` from zobrist.ts. -/
def computeZobristHash (bitboards : List Nat) (sideToMove : Color)
    (castlingRights : Nat) (enPassantSquare : Int) : Nat :=
  let pieces := (List.range 12).foldl
    (fun acc p => hashPiecesGo p 64 (bitboards.getD p 0) acc) 0
  let side := if sideToMove = Color.black then ZOBRIST_SIDE else 0
  let c0 := if castlingRights &&& 1 ≠ 0 then ZOBRIST_CASTLING 0 else 0
  let c1 := if castlingRights &&& 2 ≠ 0 then ZOBRIST_CASTLING 1 else 0
  let c2 := if castlingRights &&& 4 ≠ 0 then ZOBRIST_CASTLING 2 else 0
  let c3 := if castlingRights &&& 8 ≠ 0 then ZOBRIST_CASTLING 3 else 0
  let ep := if 0 ≤ enPassantSquare then ZOBRIST_EN_PASSANT (enPassantSquare.toNat &&& 7) else 0
  pieces ^^^ side ^^^ c0 ^^^ c1 ^^^ c2 ^^^ c3 ^^^ ep

/-- `hashMovePiece` from zobrist.ts. -/
def hashMovePiece (hash piece fromSq toSq : Nat) : Nat :=
  hash ^^^ ZOBRIST_PIECES piece fromSq ^^^ ZOBRIST_PIECES piece toSq

/-- `hashAddPiece` from zobrist.ts. -/
def hashAddPiece (hash piece square : Nat) : Nat :=
  hash ^^^ ZOBRIST_PIECES piece square

/-- `hashRemovePiece` from zobrist.ts. -/
def hashRemovePiece (hash piece square : Nat) : Nat :=
  hash ^^^ ZOBRIST_PIECES piece square

/-- `hashSideToMove` from zobrist.ts. -/
def hashSideToMove (hash : Nat) : Nat := hash ^^^ ZOBRIST_SIDE

/-- `hashCastling` from zobrist.ts. -/
def hashCastling (hash oldRights newRights : Nat) : Nat :=
  let changed := oldRights ^^^ newRights
  let h0 := if changed &&& 1 ≠ 0 then hash ^^^ ZOBRIST_CASTLING 0 else hash
  let h1 := if changed &&& 2 ≠ 0 then h0 ^^^ ZOBRIST_CASTLING 1 else h0
  let h2 := if changed &&& 4 ≠ 0 then h1 ^^^ ZOBRIST_CASTLING 2 else h1
  if changed &&& 8 ≠ 0 then h2 ^^^ ZOBRIST_CASTLING 3 else h2

/-- `hashEnPassant` from zobrist.ts. -/
def hashEnPassant (hash : Nat) (oldSquare newSquare : Int) : Nat :=
  let h0 := if 0 ≤ oldSquare then hash ^^^ ZOBRIST_EN_PASSANT (oldSquare.toNat &&& 7) else hash
  if 0 ≤ newSquare then h0 ^^^ ZOBRIST_EN_PASSANT (newSquare.toNat &&& 7) else h0

/-! ## Move generation (movegen.ts)

Each generator appends to the shared `MoveList` in the source; here
each returns the list of moves it pushes, concatenated in the same
order. -/

/-- `generatePawnMoves` from movegen.ts, without its final call to
`generatePawnCaptures` (appended separately in `generateMoves` to match
the push order). -/
def generatePawnPushes (pos : Position) (isWhite : Bool) : List Nat :=
  let pawns := bbAt pos (if isWhite then 0 else 6)
  let empty := andNot MASK64 pos.allPieces
  let promotionRank := if isWhite then RANK_8 else RANK_1
  let startRank := if isWhite then RANK_2 else RANK_7
  let doublePushRank := if isWhite then RANK_4 else RANK_5
  let singlePush := if isWhite then shiftNorth pawns &&& empty else shiftSouth pawns &&& empty
  let nonPromo := (getSquares (andNot singlePush promotionRank)).map
    (fun (toSq : Nat) => createMoveI (if isWhite then (toSq : Int) - 8 else (toSq : Int) + 8) toSq 0)
  let promo := (getSquares (singlePush &&& promotionRank)).flatMap
    (fun (toSq : Nat) =>
      let fromSq : Int := if isWhite then (toSq : Int) - 8 else (toSq : Int) + 8
      [createMoveI fromSq toSq 8, createMoveI fromSq toSq 9,
       createMoveI fromSq toSq 10, createMoveI fromSq toSq 11])
  let eligible := pawns &&& startRank
  let doublePush :=
    if isWhite then shiftNorth (shiftNorth eligible &&& empty) &&& empty &&& doublePushRank
    else shiftSouth (shiftSouth eligible &&& empty) &&& empty &&& doublePushRank
  let doubles := (getSquares doublePush).map
    (fun (toSq : Nat) => createMoveI (if isWhite then (toSq : Int) - 16 else (toSq : Int) + 16) toSq 1)
  nonPromo ++ promo ++ doubles

/-- `generatePawnCaptures` from movegen.ts (ordinary and promotion
captures, then en passant). -/
def generatePawnCaptures (pos : Position) (isWhite : Bool) : List Nat :=
  let pawns := bbAt pos (if isWhite then 0 else 6)
  let enemies := if isWhite then pos.blackPieces else pos.whitePieces
  let promotionRank := if isWhite then RANK_8 else RANK_1
  let caps := (getSquares pawns).flatMap (fun fromSq =>
    (getSquares (getPawnAttacks fromSq isWhite &&& enemies)).flatMap (fun toSq =>
      if testBit promotionRank toSq then
        [createMove fromSq toSq 12, createMove fromSq toSq 13,
         createMove fromSq toSq 14, createMove fromSq toSq 15]
      else [createMove fromSq toSq 4]))
  let ep :=
    if 0 ≤ pos.enPassantSquare then
      let epSquare := pos.enPassantSquare.toNat
      ((getSquares pawns).filter
        (fun fromSq => getPawnAttacks fromSq isWhite &&& squareBB epSquare != 0)).map
        (fun fromSq => createMove fromSq epSquare 5)
    else []
  caps ++ ep

/-- Quiet-then-capture expansion shared by the knight, bishop, rook and
queen generators of movegen.ts. -/
def quietsAndCaptures (pos : Position) (isWhite : Bool) (fromSq attacksBB : Nat) : List Nat :=
  let enemies := if isWhite then pos.blackPieces else pos.whitePieces
  (getSquares (andNot attacksBB pos.allPieces)).map (fun toSq => createMove fromSq toSq 0) ++
  (getSquares (attacksBB &&& enemies)).map (fun toSq => createMove fromSq toSq 4)

/-- `generateKnightMoves` from movegen.ts. -/
def generateKnightMoves (pos : Position) (isWhite : Bool) : List Nat :=
  let knights := bbAt pos (if isWhite then 1 else 7)
  let friendly := if isWhite then pos.whitePieces else pos.blackPieces
  (getSquares knights).flatMap (fun fromSq =>
    quietsAndCaptures pos isWhite fromSq (andNot (getKnightAttacks fromSq) friendly))

/-- `generateBishopMoves` from movegen.ts. -/
def generateBishopMoves (pos : Position) (isWhite : Bool) : List Nat :=
  let bishops := bbAt pos (if isWhite then 2 else 8)
  let friendly := if isWhite then pos.whitePieces else pos.blackPieces
  (getSquares bishops).flatMap (fun fromSq =>
    quietsAndCaptures pos isWhite fromSq (andNot (getBishopAttacks fromSq pos.allPieces) friendly))

/-- `generateRookMoves` from movegen.ts. -/
def generateRookMoves (pos : Position) (isWhite : Bool) : List Nat :=
  let rooks := bbAt pos (if isWhite then 3 else 9)
  let friendly := if isWhite then pos.whitePieces else pos.blackPieces
  (getSquares rooks).flatMap (fun fromSq =>
    quietsAndCaptures pos isWhite fromSq (andNot (getRookAttacks fromSq pos.allPieces) friendly))

/-- `generateQueenMoves` from movegen.ts. -/
def generateQueenMoves (pos : Position) (isWhite : Bool) : List Nat :=
  let queens := bbAt pos (if isWhite then 4 else 10)
  let friendly := if isWhite then pos.whitePieces else pos.blackPieces
  (getSquares queens).flatMap (fun fromSq =>
    quietsAndCaptures pos isWhite fromSq (andNot (getQueenAttacks fromSq pos.allPieces) friendly))

/-- `generateCastlingMoves` from movegen.ts: requires the king on its
starting square, then for each side the right being held and the
squares between king and rook being empty (it never checks that the
rook itself is present, nor any check-safety — that is deferred to
`makeMove`). -/
def generateCastlingMoves (pos : Position) (isWhite : Bool) (kingSq : Nat) : List Nat :=
  let expectedKingSquare := if isWhite then 4 else 60
  if kingSq ≠ expectedKingSquare then [] else
    let kingsideRight := if isWhite then 1 else 4
    let fSq := if isWhite then 5 else 61
    let gSq := if isWhite then 6 else 62
    let kside :=
      if pos.castlingRights &&& kingsideRight ≠ 0 ∧
         testBit pos.allPieces fSq = false ∧ testBit pos.allPieces gSq = false then
        [createMove kingSq gSq 2]
      else []
    let queensideRight := if isWhite then 2 else 8
    let dSq := if isWhite then 3 else 59
    let cSq := if isWhite then 2 else 58
    let bSq := if isWhite then 1 else 57
    let qside :=
      if pos.castlingRights &&& queensideRight ≠ 0 ∧
         testBit pos.allPieces dSq = false ∧ testBit pos.allPieces cSq = false ∧
         testBit pos.allPieces bSq = false then
        [createMove kingSq cSq 3]
      else []
    kside ++ qside

/-- `generateKingMoves` from movegen.ts: ordinary moves from the FIRST
square `getSquares` lists for the king board, then castling. -/
def generateKingMoves (pos : Position) (isWhite : Bool) : List Nat :=
  let king := bbAt pos (if isWhite then 5 else 11)
  let friendly := if isWhite then pos.whitePieces else pos.blackPieces
  match getSquares king with
  | [] => []
  | fromSq :: _ =>
    quietsAndCaptures pos isWhite fromSq (andNot (getKingAttacks fromSq) friendly) ++
    generateCastlingMoves pos isWhite fromSq

/-- `generateMoves` from movegen.ts: all pseudo-legal moves for the
side to move, in generator order. -/
def generateMoves (pos : Position) : List Nat :=
  let isWhite := pos.sideToMove = Color.white
  generatePawnPushes pos isWhite ++ generatePawnCaptures pos isWhite ++
  generateKnightMoves pos isWhite ++ generateBishopMoves pos isWhite ++
  generateRookMoves pos isWhite ++ generateQueenMoves pos isWhite ++
  generateKingMoves pos isWhite

/-- `isSquareAttacked` from movegen.ts.  (The argument is a square
0–63; the source would fault on the out-of-range table access a −1
king square produces, which cannot happen with a king on the board.) -/
def isSquareAttacked (pos : Position) (square : Nat) (byWhite : Bool) : Bool :=
  let knights := bbAt pos (if byWhite then 1 else 7)
  if getKnightAttacks square &&& knights != 0 then true
  else
    let king := bbAt pos (if byWhite then 5 else 11)
    if getKingAttacks square &&& king != 0 then true
    else
      let pawns := bbAt pos (if byWhite then 0 else 6)
      if getPawnAttacks square (!byWhite) &&& pawns != 0 then true
      else
        let bishops := bbAt pos (if byWhite then 2 else 8)
        let queens := bbAt pos (if byWhite then 4 else 10)
        if getBishopAttacks square pos.allPieces &&& (bishops ||| queens) != 0 then true
        else
          let rooks := bbAt pos (if byWhite then 3 else 9)
          getRookAttacks square pos.allPieces &&& (rooks ||| queens) != 0

/-- `isInCheck` from movegen.ts. -/
def isInCheck (pos : Position) : Bool :=
  let isWhite := pos.sideToMove = Color.white
  isSquareAttacked pos (kingSquare pos pos.sideToMove).toNat (!isWhite)

/-! ## Make/unmake (makemove.ts) -/

/-- `updateCastlingRights` from makemove.ts. -/
def updateCastlingRights (rights fromSq toSq : Nat) : Nat :=
  let r1 := if fromSq = 4 then andNot rights 3 else rights
  let r2 := if fromSq = 60 then andNot r1 12 else r1
  let r3 := if fromSq = 0 ∨ toSq = 0 then andNot r2 2 else r2
  let r4 := if fromSq = 7 ∨ toSq = 7 then andNot r3 1 else r3
  let r5 := if fromSq = 56 ∨ toSq = 56 then andNot r4 8 else r4
  if fromSq = 63 ∨ toSq = 63 then andNot r5 4 else r5

/-- `unmakeMove` from makemove.ts: pop the undo record and reverse
every mutation of `makeMove`.  (With an empty history the source throws
"No state to unmake"; that is modelled as returning the position
unchanged and is unreachable from `makeMove`.) -/
def unmakeMove (pos0 : Position) (move : Nat) : Position :=
  match pos0.stateHistory with
  | [] => pos0
  | state :: restHistory =>
    let pos := { pos0 with stateHistory := restHistory,
                           positionHistory := pos0.positionHistory.tail }
    let fromSq := getFromSquare move
    let toSq := getToSquare move
    let wasWhite := pos.sideToMove = Color.black
    let pieceAtTo := pieceAt pos toSq
    let pos := { pos with
      sideToMove := if wasWhite then Color.white else Color.black
      castlingRights := state.castlingRights
      enPassantSquare := state.enPassantSquare
      halfmoveClock := state.halfmoveClock
      zobristHash := state.zobristHash
      fullmoveNumber := if !wasWhite then pos.fullmoveNumber - 1 else pos.fullmoveNumber }
    let pos :=
      if isPromotion move then
        let pos := removePiece pos pieceAtTo.toNat toSq
        addPiece pos (if wasWhite then 0 else 6) fromSq
      else movePiece pos pieceAtTo.toNat toSq fromSq
    let pos :=
      if isKingsideCastle move then
        let rookFrom := if wasWhite then 7 else 63
        let rookTo := if wasWhite then 5 else 61
        movePiece pos (if wasWhite then 3 else 9) rookTo rookFrom
      else if isQueensideCastle move then
        let rookFrom := if wasWhite then 0 else 56
        let rookTo := if wasWhite then 3 else 59
        movePiece pos (if wasWhite then 3 else 9) rookTo rookFrom
      else pos
    let pos :=
      if state.capturedPiece ≠ -1 then
        if isEnPassant move then
          let capturedSquare := if wasWhite then toSq - 8 else toSq + 8
          addPiece pos state.capturedPiece.toNat capturedSquare
        else addPiece pos state.capturedPiece.toNat toSq
      else pos
    updateAggregateBitboards pos

/-- `makeMove` from makemove.ts: apply the move, maintaining every
piece of derived state and the incremental hash, then reject (reverting
via `unmakeMove`) if the mover's king ends up attacked, or, for castle
moves, if the king starts from or passes through an attacked square.
Returns the legality verdict together with the resulting position. -/
def makeMove (pos : Position) (move : Nat) : Bool × Position :=
  let fromSq := getFromSquare move
  let toSq := getToSquare move
  let isWhite := pos.sideToMove = Color.white
  let state : PositionState :=
    { castlingRights := pos.castlingRights
      enPassantSquare := pos.enPassantSquare
      halfmoveClock := pos.halfmoveClock
      capturedPiece := -1
      zobristHash := pos.zobristHash }
  let movingPiece := pieceAt pos fromSq
  if movingPiece = -1 then (false, pos)
  else
    let mp := movingPiece.toNat
    let st := (pos, state, pos.zobristHash)
    let st :=
      if isCapture move ∧ ¬isEnPassant move then
        let capturedPiece := pieceAt st.1 toSq
        if capturedPiece ≠ -1 then
          (removePiece st.1 capturedPiece.toNat toSq,
           { st.2.1 with capturedPiece := capturedPiece },
           hashRemovePiece st.2.2 capturedPiece.toNat toSq)
        else st
      else st
    let st :=
      if isEnPassant move then
        let capturedSquare := if isWhite then toSq - 8 else toSq + 8
        let capturedPawn := if isWhite then 6 else 0
        (removePiece st.1 capturedPawn capturedSquare,
         { st.2.1 with capturedPiece := Int.ofNat capturedPawn },
         hashRemovePiece st.2.2 capturedPawn capturedSquare)
      else st
    let st :=
      if isPromotion move then
        let p1 := removePiece st.1 mp fromSq
        let h1 := hashRemovePiece st.2.2 mp fromSq
        let promoPiece := (if isWhite then 1 else 7) + getPromotionPiece move
        (addPiece p1 promoPiece toSq, st.2.1, hashAddPiece h1 promoPiece toSq)
      else
        (movePiece st.1 mp fromSq toSq, st.2.1, hashMovePiece st.2.2 mp fromSq toSq)
    let st :=
      if isKingsideCastle move then
        let rookFrom := if isWhite then 7 else 63
        let rookTo := if isWhite then 5 else 61
        let rook := if isWhite then 3 else 9
        (movePiece st.1 rook rookFrom rookTo, st.2.1, hashMovePiece st.2.2 rook rookFrom rookTo)
      else if isQueensideCastle move then
        let rookFrom := if isWhite then 0 else 56
        let rookTo := if isWhite then 3 else 59
        let rook := if isWhite then 3 else 9
        (movePiece st.1 rook rookFrom rookTo, st.2.1, hashMovePiece st.2.2 rook rookFrom rookTo)
      else st
    let oldCastling := st.1.castlingRights
    let newCastling := updateCastlingRights oldCastling fromSq toSq
    let st := ({ st.1 with castlingRights := newCastling }, st.2.1,
               hashCastling st.2.2 oldCastling newCastling)
    let oldEp := st.1.enPassantSquare
    let newEp : Int :=
      if isDoublePawnPush move then
        (if isWhite then (Int.ofNat toSq) - 8 else (Int.ofNat toSq) + 8)
      else -1
    let st := ({ st.1 with enPassantSquare := newEp }, st.2.1, hashEnPassant st.2.2 oldEp newEp)
    let isPawn := mp = 0 ∨ mp = 6
    let st := ({ st.1 with halfmoveClock :=
                  if isPawn ∨ isCapture move then 0 else st.1.halfmoveClock + 1 },
               st.2.1, st.2.2)
    let st := ({ st.1 with fullmoveNumber :=
                  if !isWhite then st.1.fullmoveNumber + 1 else st.1.fullmoveNumber },
               st.2.1, st.2.2)
    let st := ({ st.1 with sideToMove := if isWhite then Color.black else Color.white },
               st.2.1, hashSideToMove st.2.2)
    let newPos := { st.1 with
      zobristHash := st.2.2
      stateHistory := st.2.1 :: st.1.stateHistory
      positionHistory := st.2.2 :: st.1.positionHistory }
    let kingSq := kingSquare newPos (if isWhite then Color.white else Color.black)
    if isSquareAttacked newPos kingSq.toNat (!isWhite) then
      (false, unmakeMove newPos move)
    else if isKingsideCastle move ∨ isQueensideCastle move then
      let throughSquare :=
        if isKingsideCastle move then (if isWhite then 5 else 61)
        else (if isWhite then 3 else 59)
      if isSquareAttacked newPos fromSq (!isWhite) ∨
         isSquareAttacked newPos throughSquare (!isWhite) then
        (false, unmakeMove newPos move)
      else (true, newPos)
    else (true, newPos)

/-- The filter loop of `generateLegalMoves` from makemove.ts: try each
pseudo-legal move with `makeMove`, keep it when legal, and continue on
the reverted position either way. -/
def legalGo : Position → List Nat → List Nat
  | _, [] => []
  | p, m :: rest =>
    match makeMove p m with
    | (true, p2) => m :: legalGo (unmakeMove p2 m) rest
    | (false, p2) => legalGo p2 rest

/-- `generateLegalMoves` from makemove.ts. -/
def generateLegalMoves (pos : Position) : List Nat :=
  legalGo pos (generateMoves pos)

/-! ## Game state detection (gamestate.ts) -/

/-- `GameStatus` from gamestate.ts. -/
inductive GameStatus where
  | ongoing
  | checkmate
  | stalemate
  | drawFiftyMove
  | drawRepetition
  | drawInsufficientMaterial
deriving DecidableEq

/-- `GameState` from gamestate.ts. -/
structure GameState where
  status : GameStatus
  winner : Option Color
  inCheck : Bool
deriving DecidableEq

/-- The counting loop of `isThreefoldRepetition` from gamestate.ts:
walk the position history, counting entries equal to the current hash,
and stop at three. -/
def threefoldGo (current : Nat) : List Nat → Nat → Bool
  | [], _ => false
  | h :: t, count =>
    if h = current then
      if 3 ≤ count + 1 then true else threefoldGo current t (count + 1)
    else threefoldGo current t count

/-- `isThreefoldRepetition` from gamestate.ts. -/
def isThreefoldRepetition (pos : Position) : Bool :=
  threefoldGo pos.zobristHash pos.positionHistory 0

/-- The light-squares mask used by `isInsufficientMaterial`. -/
def lightSquares : Nat := 0x55AA55AA55AA55AA

/-- `isInsufficientMaterial` from gamestate.ts. -/
def isInsufficientMaterial (pos : Position) : Bool :=
  let whitePawns := popCount (bbAt pos 0)
  let blackPawns := popCount (bbAt pos 6)
  let whiteKnights := popCount (bbAt pos 1)
  let blackKnights := popCount (bbAt pos 7)
  let whiteBishops := popCount (bbAt pos 2)
  let blackBishops := popCount (bbAt pos 8)
  let whiteRooks := popCount (bbAt pos 3)
  let blackRooks := popCount (bbAt pos 9)
  let whiteQueens := popCount (bbAt pos 4)
  let blackQueens := popCount (bbAt pos 10)
  if 0 < whitePawns ∨ 0 < blackPawns then false
  else if 0 < whiteRooks ∨ 0 < blackRooks then false
  else if 0 < whiteQueens ∨ 0 < blackQueens then false
  else
    let whiteMinor := whiteKnights + whiteBishops
    let blackMinor := blackKnights + blackBishops
    if whiteMinor = 0 ∧ blackMinor = 0 then true
    else if whiteMinor = 0 ∧ blackMinor = 1 then true
    else if whiteMinor = 1 ∧ blackMinor = 0 then true
    else if whiteMinor = 1 ∧ blackMinor = 1 ∧ whiteBishops = 1 ∧ blackBishops = 1 then
      let whiteOnLight := bbAt pos 2 &&& lightSquares != 0
      let blackOnLight := bbAt pos 8 &&& lightSquares != 0
      whiteOnLight = blackOnLight
    else false

/-- `getGameState` from gamestate.ts. -/
def getGameState (pos : Position) : GameState :=
  let inCheck := isInCheck pos
  let legalMoves := generateLegalMoves pos
  if legalMoves.length = 0 then
    if inCheck then
      { status := GameStatus.checkmate
        winner := some (if pos.sideToMove = Color.white then Color.black else Color.white)
        inCheck := true }
    else { status := GameStatus.stalemate, winner := none, inCheck := false }
  else if 100 ≤ pos.halfmoveClock then
    { status := GameStatus.drawFiftyMove, winner := none, inCheck := inCheck }
  else if isThreefoldRepetition pos then
    { status := GameStatus.drawRepetition, winner := none, inCheck := inCheck }
  else if isInsufficientMaterial pos then
    { status := GameStatus.drawInsufficientMaterial, winner := none, inCheck := inCheck }
  else { status := GameStatus.ongoing, winner := none, inCheck := inCheck }

/-! ## Evaluation (evaluation.ts) -/

/-- `PIECE_VALUES` in index order pawn..king. -/
def pieceValuesList : List Int := [100, 320, 330, 500, 900, 20000]

/-- `PAWN_TABLE` from evaluation.ts. -/
def PAWN_TABLE : List Int :=
  [0, 0, 0, 0, 0, 0, 0, 0,
   50, 50, 50, 50, 50, 50, 50, 50,
   10, 10, 20, 30, 30, 20, 10, 10,
   5, 5, 10, 25, 25, 10, 5, 5,
   0, 0, 0, 20, 20, 0, 0, 0,
   5, -5, -10, 0, 0, -10, -5, 5,
   5, 10, 10, -20, -20, 10, 10, 5,
   0, 0, 0, 0, 0, 0, 0, 0]

/-- `KNIGHT_TABLE` from evaluation.ts. -/
def KNIGHT_TABLE : List Int :=
  [-50, -40, -30, -30, -30, -30, -40, -50,
   -40, -20, 0, 0, 0, 0, -20, -40,
   -30, 0, 10, 15, 15, 10, 0, -30,
   -30, 5, 15, 20, 20, 15, 5, -30,
   -30, 0, 15, 20, 20, 15, 0, -30,
   -30, 5, 10, 15, 15, 10, 5, -30,
   -40, -20, 0, 5, 5, 0, -20, -40,
   -50, -40, -30, -30, -30, -30, -40, -50]

/-- `BISHOP_TABLE` from evaluation.ts. -/
def BISHOP_TABLE : List Int :=
  [-20, -10, -10, -10, -10, -10, -10, -20,
   -10, 0, 0, 0, 0, 0, 0, -10,
   -10, 0, 5, 10, 10, 5, 0, -10,
   -10, 5, 5, 10, 10, 5, 5, -10,
   -10, 0, 10, 10, 10, 10, 0, -10,
   -10, 10, 10, 10, 10, 10, 10, -10,
   -10, 5, 0, 0, 0, 0, 5, -10,
   -20, -10, -10, -10, -10, -10, -10, -20]

/-- `ROOK_TABLE` from evaluation.ts. -/
def ROOK_TABLE : List Int :=
  [0, 0, 0, 0, 0, 0, 0, 0,
   5, 10, 10, 10, 10, 10, 10, 5,
   -5, 0, 0, 0, 0, 0, 0, -5,
   -5, 0, 0, 0, 0, 0, 0, -5,
   -5, 0, 0, 0, 0, 0, 0, -5,
   -5, 0, 0, 0, 0, 0, 0, -5,
   -5, 0, 0, 0, 0, 0, 0, -5,
   0, 0, 0, 5, 5, 0, 0, 0]

/-- `QUEEN_TABLE` from evaluation.ts. -/
def QUEEN_TABLE : List Int :=
  [-20, -10, -10, -5, -5, -10, -10, -20,
   -10, 0, 0, 0, 0, 0, 0, -10,
   -10, 0, 5, 5, 5, 5, 0, -10,
   -5, 0, 5, 5, 5, 5, 0, -5,
   0, 0, 5, 5, 5, 5, 0, -5,
   -10, 5, 5, 5, 5, 5, 0, -10,
   -10, 0, 5, 0, 0, 0, 0, -10,
   -20, -10, -10, -5, -5, -10, -10, -20]

/-- `KING_MIDDLE_GAME_TABLE` from evaluation.ts. -/
def KING_MIDDLE_GAME_TABLE : List Int :=
  [-30, -40, -40, -50, -50, -40, -40, -30,
   -30, -40, -40, -50, -50, -40, -40, -30,
   -30, -40, -40, -50, -50, -40, -40, -30,
   -30, -40, -40, -50, -50, -40, -40, -30,
   -20, -30, -30, -40, -40, -30, -30, -20,
   -10, -20, -20, -20, -20, -20, -20, -10,
   20, 20, 0, 0, 0, 0, 20, 20,
   20, 30, 10, 0, 0, 10, 30, 20]

/-- `KING_END_GAME_TABLE` from evaluation.ts. -/
def KING_END_GAME_TABLE : List Int :=
  [-50, -40, -30, -20, -20, -30, -40, -50,
   -30, -20, -10, 0, 0, -10, -20, -30,
   -30, -10, 20, 30, 30, 20, -10, -30,
   -30, -10, 30, 40, 40, 30, -10, -30,
   -30, -10, 30, 40, 40, 30, -10, -30,
   -30, -10, 20, 30, 30, 20, -10, -30,
   -30, -30, 0, 0, 0, 0, -30, -30,
   -50, -30, -30, -30, -30, -30, -30, -50]

/-- `mirrorSquare` from evaluation.ts: flip the rank, keep the file. -/
def mirrorSquare (square : Nat) : Nat :=
  (7 - rankOf square) * 8 + fileOf square

/-- `getPieceSquareValue` from evaluation.ts. -/
def getPieceSquareValue (pieceIndex square : Nat) (endgame : Bool) : Int :=
  let isWhite := pieceIndex < 6
  let pieceType := pieceIndex % 6
  let sq := if isWhite then square else mirrorSquare square
  if pieceType = 0 then PAWN_TABLE.getD sq 0
  else if pieceType = 1 then KNIGHT_TABLE.getD sq 0
  else if pieceType = 2 then BISHOP_TABLE.getD sq 0
  else if pieceType = 3 then ROOK_TABLE.getD sq 0
  else if pieceType = 4 then QUEEN_TABLE.getD sq 0
  else if endgame then KING_END_GAME_TABLE.getD sq 0
  else KING_MIDDLE_GAME_TABLE.getD sq 0

/-- `isEndgame` from evaluation.ts: no queens, or at most 6 non-pawn
non-king pieces in total. -/
def isEndgame (pos : Position) : Bool :=
  if bbAt pos 4 = 0 ∧ bbAt pos 10 = 0 then true
  else
    let material := (List.range' 1 4).foldl
      (fun acc i => acc + (getSquares (bbAt pos i)).length + (getSquares (bbAt pos (i + 6))).length) 0
    material ≤ 6

/-- `evaluate` from evaluation.ts: material plus piece-square bonuses,
positive favouring white, over the squares `getSquares` lists. -/
def evaluate (pos : Position) : Int :=
  let endgame := isEndgame pos
  let white := (List.range 6).foldl
    (fun acc i => (getSquares (bbAt pos i)).foldl
      (fun acc sq => acc + pieceValuesList.getD i 0 + getPieceSquareValue i sq endgame) acc) 0
  (List.range' 6 6).foldl
    (fun acc i => (getSquares (bbAt pos i)).foldl
      (fun acc sq => acc - pieceValuesList.getD (i - 6) 0 - getPieceSquareValue i sq endgame) acc)
    white

/-- `evaluateRelative` from evaluation.ts. -/
def evaluateRelative (pos : Position) : Int :=
  if pos.sideToMove = Color.white then evaluate pos else -evaluate pos

/-! ## Transposition table (transposition.ts)

The table is a `2^21`-slot array prefilled with `null` (64 MB at 32
bytes per entry, rounded down to a power of two); it is modelled
sparsely as the list of `(slot, entry)` writes, most recent first —
reading a slot sees the most recent write, or `null` if none. -/

/-- `TTEntryType` from transposition.ts. -/
inductive TTEntryType where
  | exactScore
  | lowerBound
  | upperBound
deriving DecidableEq

/-- `TTEntry` from transposition.ts. -/
structure TTEntry where
  zobristHash : Nat
  depth : Nat
  score : Int
  type : TTEntryType
  bestMove : Option Nat
  age : Nat
deriving DecidableEq

/-- The `TranspositionTable` class state. -/
structure TranspositionTable where
  table : List (Nat × TTEntry)
  age : Nat
deriving DecidableEq

/-- `this.size` for the default 64 MB table: `2^21`. -/
def ttSize : Nat := 2 ^ 21

/-- `getIndex` from transposition.ts (`Number(hash & BigInt(size-1))`,
exact since the result is below 2^53). -/
def ttIndex (hash : Nat) : Nat := hash &&& (ttSize - 1)

/-- Read `this.table[index]`. -/
def ttSlot (tt : TranspositionTable) (index : Nat) : Option TTEntry :=
  match tt.table.find? (fun e => e.1 = index) with
  | some e => some e.2
  | none => none

/-- `store` from transposition.ts. -/
def ttStore (tt : TranspositionTable) (hash : Nat) (depth : Nat) (score : Int)
    (type : TTEntryType) (bestMove : Option Nat) : TranspositionTable :=
  let index := ttIndex hash
  let willReplace :=
    match ttSlot tt index with
    | none => true
    | some existing =>
        existing.zobristHash = hash ∨ existing.depth ≤ depth ∨ existing.age < tt.age
  if willReplace then
    { tt with table := (index,
        { zobristHash := hash, depth := depth, score := score,
          type := type, bestMove := bestMove, age := tt.age }) :: tt.table }
  else tt

/-- `probe` from transposition.ts: return the slot entry only on an
exact hash match. -/
def ttProbe (tt : TranspositionTable) (hash : Nat) : Option TTEntry :=
  match ttSlot tt (ttIndex hash) with
  | some entry => if entry.zobristHash = hash then some entry else none
  | none => none

/-- `incrementAge` from transposition.ts. -/
def ttIncrementAge (tt : TranspositionTable) : TranspositionTable :=
  { tt with age := tt.age + 1 }

/-- The pristine `globalTT` (empty table, age 0). -/
def ttInitial : TranspositionTable := { table := [], age := 0 }

/-! ## Search (search.ts)

`negamax` recurses on the remaining depth (a natural number — the
source calls itself with `depth - 1` and treats `depth <= 0` as a
leaf); `quiescence` recurses on legal captures, each of which removes a
piece, so an explicit fuel of 33 (more captures than any position can
provide) makes it structural without changing its value.  The search
statistics' wall-clock `time` field is not modelled (always 0), and
`searchPosition`'s optional time budget — checked between deepening
iterations — is omitted: `getBestMove` never passes one, so the break
it guards is never taken on the paths the claims concern. -/

/-- `MATE_SCORE` from search.ts. -/
def MATE_SCORE : Int := 100000

/-- `INFINITY` from search.ts. -/
def INFINITY_SCORE : Int := 200000

/-- `SearchStats` from search.ts (minus the unmodelled wall clock). -/
structure SearchStats where
  nodes : Nat
  qnodes : Nat
  depth : Nat
  bestMove : Option Nat
  score : Int
deriving DecidableEq

/-- `getPieceValue` from search.ts (MVV-LVA values). -/
def searchPieceValue (pieceIndex : Nat) : Int :=
  ([100, 320, 330, 500, 900, 20000] : List Int).getD (pieceIndex % 6) 0

/-- `getMVVLVAScore` from search.ts. -/
def getMVVLVAScore (move : Nat) (pos : Position) : Int :=
  let attacker := pieceAt pos (getFromSquare move)
  let victim := pieceAt pos (getToSquare move)
  if attacker = -1 ∨ victim = -1 then 0
  else searchPieceValue victim.toNat * 10 - searchPieceValue attacker.toNat

/-- The comparator of `orderMoves` from search.ts (negative = `a`
first): captures before quiet moves, captures by MVV-LVA descending. -/
def moveComparator (pos : Position) (a b : Nat) : Int :=
  if isCapture a ∧ ¬isCapture b then -1
  else if ¬isCapture a ∧ isCapture b then 1
  else if isCapture a ∧ isCapture b then getMVVLVAScore b pos - getMVVLVAScore a pos
  else 0

/-- `orderMoves` from search.ts: a stable sort by the comparator (V8's
`Array.prototype.sort` is stable). -/
def orderMoves (moves : List Nat) (pos : Position) : List Nat :=
  moves.mergeSort (fun a b => moveComparator pos a b ≤ 0)

/-- Move the transposition-table move to the front when it appears at a
positive index (the `splice`/`unshift` block of `negamax`). -/
def frontTTMove (legalMoves : List Nat) (ttBest : Option Nat) : List Nat :=
  match ttBest with
  | none => legalMoves
  | some bm =>
    if bm = 0 then legalMoves else  -- move 0 is falsy in JS, like null
    match legalMoves.findIdx? (fun m => m = bm) with
    | some i =>
        if 0 < i then bm :: (legalMoves.take i ++ legalMoves.drop (i + 1))
        else legalMoves
    | none => legalMoves

/-- The capture loop of `quiescence`: try each capture, recursing with
one unit less fuel; returns `(alpha, stats, tt)` updated, with `none`
in the first slot replaced by the beta-cutoff result. -/
def quiescenceLoop
    (q : Position → Int → Int → SearchStats → TranspositionTable →
         Int × SearchStats × TranspositionTable) :
    Position → List Nat → Int → Int → SearchStats → TranspositionTable →
    Int × SearchStats × TranspositionTable
  | _, [], alpha, _, stats, tt => (alpha, stats, tt)
  | pos, move :: rest, alpha, beta, stats, tt =>
    match makeMove pos move with
    | (false, pos2) => quiescenceLoop q pos2 rest alpha beta stats tt
    | (true, pos2) =>
      let r := q pos2 (-beta) (-alpha) stats tt
      let score := -r.1
      let pos3 := unmakeMove pos2 move
      if beta ≤ score then (beta, r.2.1, r.2.2)
      else if alpha < score then quiescenceLoop q pos3 rest score beta r.2.1 r.2.2
      else quiescenceLoop q pos3 rest alpha beta r.2.1 r.2.2

/-- `quiescence` from search.ts: stand pat, then search legal captures
only, ordered by MVV-LVA. -/
def quiescence : Nat → Position → Int → Int → SearchStats → TranspositionTable →
    Int × SearchStats × TranspositionTable
  | 0, _, alpha, _, stats, tt => (alpha, stats, tt)
  | fuel + 1, pos, alpha, beta, stats, tt =>
    let stats := { stats with qnodes := stats.qnodes + 1 }
    let standPat := evaluateRelative pos
    if beta ≤ standPat then (beta, stats, tt)
    else
      let alpha := if alpha < standPat then standPat else alpha
      let captures := (generateLegalMoves pos).filter isCapture
      let ordered := orderMoves captures pos
      quiescenceLoop (quiescence fuel) pos ordered alpha beta stats tt

/-- The per-move loop of `negamax`: make, recurse, unmake, track the
best score and move, raise alpha, and stop at a beta cutoff (storing a
lower bound). -/
def negamaxLoop (nodeDepth : Nat)
    (rec : Position → Int → Int → SearchStats → TranspositionTable →
           Int × SearchStats × TranspositionTable) :
    Position → List Nat → Int → Int → Int → Option Nat → SearchStats → TranspositionTable →
    Int × Int × Option Nat × Bool × SearchStats × TranspositionTable
  | _, [], alpha, _, bestScore, bestMove, stats, tt =>
    (alpha, bestScore, bestMove, false, stats, tt)
  | pos, move :: rest, alpha, beta, bestScore, bestMove, stats, tt =>
    match makeMove pos move with
    | (false, pos2) => negamaxLoop nodeDepth rec pos2 rest alpha beta bestScore bestMove stats tt
    | (true, pos2) =>
      let r := rec pos2 (-beta) (-alpha) stats tt
      let score := -r.1
      let pos3 := unmakeMove pos2 move
      let bestScore2 := if bestScore < score then score else bestScore
      let bestMove2 := if bestScore < score then some move else bestMove
      let alpha2 := if alpha < score then score else alpha
      if beta ≤ alpha2 then
        let tt2 := ttStore r.2.2 pos3.zobristHash nodeDepth beta TTEntryType.lowerBound bestMove2
        (alpha2, beta, bestMove2, true, r.2.1, tt2)
      else negamaxLoop nodeDepth rec pos3 rest alpha2 beta bestScore2 bestMove2 r.2.1 r.2.2

/-- `negamax` from search.ts: probe the transposition table, handle
terminal positions, drop to quiescence at depth 0, otherwise search the
legal moves (cached best move first, the rest ordered) with alpha-beta,
and store the result.  Threads `(score, stats, transposition table)`. -/
def negamax : Nat → Position → Int → Int → SearchStats → TranspositionTable →
    Int × SearchStats × TranspositionTable
  | depth, pos, alpha0, beta0, stats0, tt =>
    let stats := { stats0 with nodes := stats0.nodes + 1 }
    let ttEntry := ttProbe tt pos.zobristHash
    let hit :=
      match ttEntry with
      | some e =>
        if depth ≤ e.depth then
          match e.type with
          | TTEntryType.exactScore => (some e.score, alpha0, beta0)
          | TTEntryType.lowerBound =>
            let a := if alpha0 < e.score then e.score else alpha0
            (if beta0 ≤ a then some e.score else none, a, beta0)
          | TTEntryType.upperBound =>
            let b := if e.score < beta0 then e.score else beta0
            (if b ≤ alpha0 then some e.score else none, alpha0, b)
        else (none, alpha0, beta0)
      | none => (none, alpha0, beta0)
    match hit.1 with
    | some s => (s, stats, tt)
    | none =>
      let alpha := hit.2.1
      let beta := hit.2.2
      let gameState := getGameState pos
      if gameState.status = GameStatus.checkmate then
        (-MATE_SCORE + ((stats.depth : Int) - (depth : Int)), stats, tt)
      else if gameState.status ≠ GameStatus.ongoing then (0, stats, tt)
      else
        match depth with
        | 0 => quiescence 33 pos alpha beta stats tt
        | depth' + 1 =>
          let legalMoves := generateLegalMoves pos
          if legalMoves.length = 0 then (0, stats, tt)
          else
            let fronted := frontTTMove legalMoves (ttEntry.bind (fun e => e.bestMove))
            let ordered := orderMoves fronted pos
            let r := negamaxLoop (depth' + 1) (negamax depth') pos ordered alpha beta
              (-INFINITY_SCORE) none stats tt
            match r with
            | (_, bestScore, bestMove, cutoff, stats2, tt2) =>
              if cutoff then (bestScore, stats2, tt2)
              else
                let ttType :=
                  if bestScore ≤ alpha then TTEntryType.upperBound else TTEntryType.exactScore
                let tt3 := ttStore tt2 pos.zobristHash (depth' + 1) bestScore ttType bestMove
                (bestScore, stats2, tt3)

/-- The root move loop of one iterative-deepening round in
`searchPosition`: alpha only rises, and the best move follows it. -/
def searchRootLoop (depth : Nat) :
    Position → List Nat → Int → Nat → Int → SearchStats → TranspositionTable →
    Int × Nat × Int × SearchStats × TranspositionTable
  | _, [], alpha, bestMove, bestScore, stats, tt => (alpha, bestMove, bestScore, stats, tt)
  | pos, move :: rest, alpha, bestMove, bestScore, stats, tt =>
    match makeMove pos move with
    | (false, pos2) => searchRootLoop depth pos2 rest alpha bestMove bestScore stats tt
    | (true, pos2) =>
      let r := negamax (depth - 1) pos2 (-INFINITY_SCORE) (-alpha) stats tt
      let score := -r.1
      let pos3 := unmakeMove pos2 move
      if alpha < score then searchRootLoop depth pos3 rest score move score r.2.1 r.2.2
      else searchRootLoop depth pos3 rest alpha bestMove bestScore r.2.1 r.2.2

/-- The iterative-deepening loop of `searchPosition` over depths
`1..maxDepth` (no time budget: see the section comment). -/
def searchDeepen :
    Position → List Nat → Nat → Nat → Nat → Int → SearchStats → TranspositionTable →
    SearchStats × TranspositionTable
  | _, _, 0, _, _, _, stats, tt => (stats, tt)
  | pos, legalMoves, remaining + 1, depth, bestMove, bestScore, stats, tt =>
    let stats := { stats with depth := depth }
    let r := searchRootLoop depth pos legalMoves (-INFINITY_SCORE) bestMove bestScore stats tt
    match r with
    | (_, bestMove2, bestScore2, stats2, tt2) =>
      let stats3 := { stats2 with bestMove := some bestMove2, score := bestScore2 }
      searchDeepen pos legalMoves remaining (depth + 1) bestMove2 bestScore2 stats3 tt2

/-- `searchPosition` from search.ts: age the (fresh, single-search)
transposition table, return an empty result with no legal moves, return
the only move immediately when it is forced, otherwise iteratively
deepen from 1 to `maxDepth`. -/
def searchPosition (pos : Position) (maxDepth : Nat) : SearchStats :=
  let stats : SearchStats := { nodes := 0, qnodes := 0, depth := 0, bestMove := none, score := 0 }
  let tt := ttIncrementAge ttInitial
  let legalMoves := generateLegalMoves pos
  if legalMoves.length = 0 then stats
  else if legalMoves.length = 1 then
    { stats with bestMove := some (legalMoves.getD 0 0), score := 0 }
  else
    match legalMoves with
    | [] => stats
    | first :: _ =>
      (searchDeepen pos legalMoves maxDepth 1 first (-INFINITY_SCORE) stats tt).1

/-- `getBestMove` from search.ts. -/
def getBestMove (pos : Position) (depth : Nat) : Option Nat :=
  (searchPosition pos depth).bestMove

/-! ## Specification-side definitions

These follow the wording of the specification, for comparison with the
code-derived definitions above. -/

/-- A position with an empty board and empty history. -/
def emptyPosition : Position :=
  { bitboards := List.replicate 12 0
    whitePieces := 0, blackPieces := 0, allPieces := 0
    sideToMove := Color.white, castlingRights := 0, enPassantSquare := -1
    halfmoveClock := 0, fullmoveNumber := 1, zobristHash := 0
    stateHistory := [], positionHistory := [] }

/-- The parsed standard starting position. -/
def startpos : Position :=
  match fromFEN STARTING_FEN with
  | Except.ok p => p
  | Except.error _ => emptyPosition

/-- Specification-side count of the set bits of a 64-bit board. -/
def bitCountSpec (bb : Nat) : Nat :=
  ((List.range 64).filter (fun s => testBit bb s)).length

/-- Specification-side test that a board has a piece on a light square
(file + rank odd). -/
def onLightSquare (bb : Nat) : Bool :=
  (List.range 64).any (fun s => testBit bb s && (fileOf s + rankOf s) % 2 = 1)

/-- Specification-side insufficient-material test, following the
claim's wording: no pawns, rooks or queens for either side, each side
at most one minor piece, and the lone-minor-each case counted as
insufficient exactly when both minors are bishops standing on squares
of the same colour. -/
def specInsufficientMaterial (pos : Position) : Bool :=
  let wMinor := bitCountSpec (bbAt pos 1) + bitCountSpec (bbAt pos 2)
  let bMinor := bitCountSpec (bbAt pos 7) + bitCountSpec (bbAt pos 8)
  bbAt pos 0 = 0 && bbAt pos 6 = 0 &&
  bbAt pos 3 = 0 && bbAt pos 9 = 0 &&
  bbAt pos 4 = 0 && bbAt pos 10 = 0 &&
  wMinor ≤ 1 && bMinor ≤ 1 &&
  (wMinor = 0 || bMinor = 0 ||
    (bitCountSpec (bbAt pos 2) = 1 && bitCountSpec (bbAt pos 8) = 1 &&
     onLightSquare (bbAt pos 2) = onLightSquare (bbAt pos 8)))

/-- Specification-side terminal-state classifier, following the claim's
wording: no legal moves and king attacked means checkmate for the other
side; no legal moves otherwise means stalemate; then, in order,
halfmove clock at least 100, current hash at least three times in the
hash history, and insufficient material; otherwise ongoing. -/
def specGameState (pos : Position) : GameState :=
  let inCheck := isInCheck pos
  if generateLegalMoves pos = [] then
    if inCheck then
      { status := GameStatus.checkmate, winner := some (oppositeColor pos.sideToMove)
        inCheck := true }
    else { status := GameStatus.stalemate, winner := none, inCheck := false }
  else if 100 ≤ pos.halfmoveClock then
    { status := GameStatus.drawFiftyMove, winner := none, inCheck := inCheck }
  else if 3 ≤ pos.positionHistory.count pos.zobristHash then
    { status := GameStatus.drawRepetition, winner := none, inCheck := inCheck }
  else if specInsufficientMaterial pos then
    { status := GameStatus.drawInsufficientMaterial, winner := none, inCheck := inCheck }
  else { status := GameStatus.ongoing, winner := none, inCheck := inCheck }

/-- Reflect a 64-bit board vertically (rank r to rank 7−r, same file;
square s maps to s XOR 56). -/
def colorMirrorBB (bb : Nat) : Nat :=
  (List.range 64).foldl (fun acc s => if testBit bb s then setBit acc (s ^^^ 56) else acc) 0

/-- The colour-mirroring transformation of the claim on `evaluate`:
every white piece on s becomes the corresponding black piece on the
vertically mirrored square, and vice versa (the side to move swaps,
which `evaluate` never reads). -/
def colorMirror (pos : Position) : Position :=
  updateAggregateBitboards
    { pos with
      bitboards := (List.range 12).map (fun i => colorMirrorBB (bbAt pos ((i + 6) % 12)))
      sideToMove := oppositeColor pos.sideToMove }

/-- Specification-side width of one decoded FEN rank: digits advance by
their value, any other character by one square. -/
def specRankWidth (row : String) : Nat :=
  row.toList.foldl (fun acc c => acc + (if '1' ≤ c ∧ c ≤ '8' then c.toNat - 48 else 1)) 0

/-! ## Concrete inputs used by the counterexamples and witnesses -/

/-- Kings on e1 and e8 only (the position of the FEN
`4k3/8/8/8/8/8/8/4K3 w - - 0 1`), which is its own colour mirror. -/
def kingsOnlyPos : Position :=
  updateAggregateBitboards
    { emptyPosition with
      bitboards := [0, 0, 0, 0, 0, squareBB 4, 0, 0, 0, 0, 0, squareBB 60] }

/-- Black king on e8, white king on h1, black still holding the black
kingside castling right, f8 and g8 empty; black to move (the position
of the FEN `4k3/8/8/8/8/8/8/7K b k - 0 1`). -/
def castlePos : Position :=
  updateAggregateBitboards
    { emptyPosition with
      bitboards := [0, 0, 0, 0, 0, squareBB 7, 0, 0, 0, 0, 0, squareBB 60]
      sideToMove := Color.black
      castlingRights := 4 }

/-- White knight b7, white king b2; white to move. -/
def promoCexPos : Position :=
  updateAggregateBitboards
    { emptyPosition with
      bitboards := [0, squareBB 49, 0, 0, 0, squareBB 9, 0, 0, 0, 0, 0, 0] }

/-- A promotion-flagged move of the KNIGHT from b7 to b8 (queen
promotion flag 11): a move no generator emits, but `makeMove` accepts. -/
def promoCexMove : Nat := createMove 49 57 11

/-- White pawn d4, white king e2; black knight f4, black king a8;
white to move. -/
def epCexPos : Position :=
  updateAggregateBitboards
    { emptyPosition with
      bitboards := [squareBB 27, 0, 0, 0, 0, squareBB 12,
                    0, squareBB 29, 0, 0, 0, squareBB 56] }

/-- An en-passant-flagged move d4-d5 (flag 5) with no capturable pawn
behind d5: a move no generator emits, but `makeMove` processes. -/
def epCexMove : Nat := createMove 27 35 5

/-- White king b2 alone; white to move. -/
def lonePos : Position :=
  updateAggregateBitboards
    { emptyPosition with bitboards := [0, 0, 0, 0, 0, squareBB 9, 0, 0, 0, 0, 0, 0] }

/-- The quiet king move b2-b3. -/
def loneMove : Nat := createMove 9 17 0

/-- White king e2, black knight c4, black king a8; white to move.  The
quiet king move e2-d2 walks into the knight's attack and is rejected. -/
def pinPos : Position :=
  updateAggregateBitboards
    { emptyPosition with
      bitboards := [0, 0, 0, 0, 0, squareBB 12, 0, squareBB 26, 0, 0, 0, squareBB 56] }

/-- The quiet king move e2-d2. -/
def pinMove : Nat := createMove 12 11 0

/-- Black king d7 and pawn g2 against white pawns b7, c7, b6, d6, f7,
knight b3 and king d5; black to move.  Every black king move is
illegal (each destination is covered by a white pawn, the knight, or
the white king; the three back-rank destinations, mislabelled as a1 by
the overflowing `bitScanForward`, land in the b3-knight's attack), so
exactly the four promotions g2-g1 are legal. -/
def searchCexPos : Position :=
  updateAggregateBitboards
    { emptyPosition with
      bitboards := [squareBB 49 ||| squareBB 50 ||| squareBB 41 ||| squareBB 43 ||| squareBB 53,
                    squareBB 17, 0, 0, 0, squareBB 35,
                    squareBB 14, 0, 0, 0, 0, squareBB 51]
      sideToMove := Color.black }

/-- White king d2 against black pawns b2, c2, b3, knight g2 and king
d4; white to move.  The lone legal move is Kd2-e2. -/
def oneMovePos : Position :=
  updateAggregateBitboards
    { emptyPosition with
      bitboards := [0, 0, 0, 0, 0, squareBB 11,
                    squareBB 9 ||| squareBB 10 ||| squareBB 17,
                    squareBB 14, 0, 0, 0, squareBB 27] }

/-- A FEN whose last rank decodes to one file, not eight. -/
def badWidthFEN : String := "8/8/8/8/8/8/8/p w - - 0 1"

/-- Well-formedness of a position: twelve boards, pairwise
disjoint, with consistent aggregate boards. -/
def wfPosition (pos : Position) : Prop :=
  pos.bitboards.length = 12 ∧
  (∀ i, i < 12 → ∀ j, j < 12 → i ≠ j → bbAt pos i &&& bbAt pos j = 0) ∧
  pos.whitePieces = bbAt pos 0 ||| bbAt pos 1 ||| bbAt pos 2 ||| bbAt pos 3 |||
    bbAt pos 4 ||| bbAt pos 5 ∧
  pos.blackPieces = bbAt pos 6 ||| bbAt pos 7 ||| bbAt pos 8 ||| bbAt pos 9 |||
    bbAt pos 10 ||| bbAt pos 11 ∧
  pos.allPieces = pos.whitePieces ||| pos.blackPieces

instance (pos : Position) : Decidable (wfPosition pos) := by
  unfold wfPosition
  infer_instance

/-- Well-formedness of a move for a position: the mover is present and
the squares involved are occupied as the flags promise; flags 6 and 7
(unused by the engine) are excluded. -/
def wfMove (pos : Position) (move : Nat) : Prop :=
  if getMoveFlags move = 0 ∨ getMoveFlags move = 1 then
    pieceAt pos (getFromSquare move) ≠ -1 ∧
    getFromSquare move ≠ getToSquare move ∧
    pieceAt pos (getToSquare move) = -1
  else if getMoveFlags move = 2 then
    pieceAt pos (getFromSquare move) =
      Int.ofNat (if pos.sideToMove = Color.white then 5 else 11) ∧
    pieceAt pos (getToSquare move) = -1 ∧
    getToSquare move = (if pos.sideToMove = Color.white then 6 else 62) ∧
    pieceAt pos (if pos.sideToMove = Color.white then 7 else 63) =
      Int.ofNat (if pos.sideToMove = Color.white then 3 else 9) ∧
    pieceAt pos (if pos.sideToMove = Color.white then 5 else 61) = -1
  else if getMoveFlags move = 3 then
    pieceAt pos (getFromSquare move) =
      Int.ofNat (if pos.sideToMove = Color.white then 5 else 11) ∧
    pieceAt pos (getToSquare move) = -1 ∧
    getToSquare move = (if pos.sideToMove = Color.white then 2 else 58) ∧
    pieceAt pos (if pos.sideToMove = Color.white then 0 else 56) =
      Int.ofNat (if pos.sideToMove = Color.white then 3 else 9) ∧
    pieceAt pos (if pos.sideToMove = Color.white then 3 else 59) = -1
  else if getMoveFlags move = 4 then
    pieceAt pos (getFromSquare move) ≠ -1 ∧
    pieceAt pos (getToSquare move) ≠ -1 ∧
    pieceAt pos (getToSquare move) ≠ pieceAt pos (getFromSquare move) ∧
    getFromSquare move ≠ getToSquare move
  else if getMoveFlags move = 5 then
    pieceAt pos (getFromSquare move) =
      Int.ofNat (if pos.sideToMove = Color.white then 0 else 6) ∧
    pieceAt pos (getToSquare move) = -1 ∧
    pieceAt pos (if pos.sideToMove = Color.white then getToSquare move - 8
      else getToSquare move + 8) =
      Int.ofNat (if pos.sideToMove = Color.white then 6 else 0) ∧
    getFromSquare move ≠ getToSquare move
  else if getMoveFlags move = 8 ∨ getMoveFlags move = 9 ∨
      getMoveFlags move = 10 ∨ getMoveFlags move = 11 then
    pieceAt pos (getFromSquare move) =
      Int.ofNat (if pos.sideToMove = Color.white then 0 else 6) ∧
    pieceAt pos (getToSquare move) = -1
  else if getMoveFlags move = 12 ∨ getMoveFlags move = 13 ∨
      getMoveFlags move = 14 ∨ getMoveFlags move = 15 then
    pieceAt pos (getFromSquare move) =
      Int.ofNat (if pos.sideToMove = Color.white then 0 else 6) ∧
    pieceAt pos (getToSquare move) ≠ -1 ∧
    (if pos.sideToMove = Color.white
      then 6 ≤ (pieceAt pos (getToSquare move)).toNat ∧
        (pieceAt pos (getToSquare move)).toNat < 12
      else (pieceAt pos (getToSquare move)).toNat < 6)
  else False

instance (pos : Position) (move : Nat) : Decidable (wfMove pos move) := by
  unfold wfMove
  infer_instance

/-! ## Claim theorems -/

/-- C1: refuted on the code.  `Position.fromFEN` parses the standard
starting layout successfully but leaves the incrementally maintained
`zobristHash` at the constructor's 0, while the from-scratch
`computeZobristHash` of the very same parsed state is nonzero — so the
claimed invariant already fails for the position produced by
Initialize, before any move is made. -/
theorem c1_fromFEN_hash_not_initialized :
    (fromFEN STARTING_FEN).toOption = some startpos ∧
    startpos.zobristHash = 0 ∧
    computeZobristHash startpos.bitboards startpos.sideToMove
      startpos.castlingRights startpos.enPassantSquare ≠ 0 ∧
    startpos.zobristHash ≠
      computeZobristHash startpos.bitboards startpos.sideToMove
        startpos.castlingRights startpos.enPassantSquare := by
  refine ⟨by decide, by decide, ?_, ?_⟩ <;> decide

/-- C7: refuted on the code.  In the position with the black king on
e8, the black kingside right held and f8/g8 empty, the generator emits
no castling move at all for black: `getSquares` (via the overflowing
`bitScanForward`) reports the king board's square 60 as square 0, so
`generateCastlingMoves` bails out on its king-on-home-square gate. -/
theorem c7_black_castle_never_generated :
    castlePos.sideToMove = Color.black ∧
    castlePos.castlingRights &&& 4 ≠ 0 ∧
    testBit (bbAt castlePos 11) 60 = true ∧
    testBit castlePos.allPieces 61 = false ∧
    testBit castlePos.allPieces 62 = false ∧
    (generateMoves castlePos).all
      (fun m => !(isKingsideCastle m || isQueensideCastle m)) = true ∧
    getSquares (bbAt castlePos 11) = [0] := by
  refine ⟨rfl, by decide, by decide, by decide, by decide, by decide, by decide⟩

/-- C10: refuted on the code.  The kings-only position (Ke1, ke8) has
the same piece boards as its own colour mirror, so antisymmetry would
force `evaluate` to return 0 there; the code returns 30 for both the
position and its mirror, because the broken `bitScanForward` lists the
black king's square 60 as square 0 and looks up the wrong king-table
entry. -/
theorem c10_evaluate_not_antisymmetric :
    (colorMirror kingsOnlyPos).bitboards = kingsOnlyPos.bitboards ∧
    evaluate kingsOnlyPos = 30 ∧
    evaluate (colorMirror kingsOnlyPos) = 30 ∧
    evaluate (colorMirror kingsOnlyPos) ≠ -(evaluate kingsOnlyPos) := by
  refine ⟨by decide, by decide, by decide, by decide⟩

/-- C3 counterexample: a move `makeMove` rejects yet does not revert.
The en-passant-flagged push d4-d5 in `epCexPos` is rejected (the white
king is in check from the knight on f4 afterwards), but the undo path
"restores" a black pawn that never existed on d4, so the position after
the failed call differs from the one before it. -/
theorem c3_counterexample_failed_make_mutates :
    (makeMove epCexPos epCexMove).1 = false ∧
    (makeMove epCexPos epCexMove).2 ≠ epCexPos ∧
    bbAt (makeMove epCexPos epCexMove).2 6 = squareBB 27 := by
  refine ⟨by decide, by decide, by decide⟩

/-- C6 counterexample: a layout string whose piece placement does not
decode to 8 files in every rank (its last rank decodes to width 1) is
accepted by `fromFEN` rather than rejected with a parse error. -/
theorem c6_counterexample_narrow_rank_accepted :
    (fromFEN badWidthFEN).isOk = true ∧
    specRankWidth ((splitSlash ((splitWs badWidthFEN).getD 0 "")).getD 7 "") = 1 ∧
    specRankWidth ((splitSlash ((splitWs badWidthFEN).getD 0 "")).getD 7 "") ≠ 8 := by
  refine ⟨by decide, by decide, by decide⟩

/-- C9: a move whose origin square holds no piece of either colour is
rejected by `makeMove` before any mutation: the result is `false`
paired with the untouched position. -/
theorem c9_empty_origin_rejected_unchanged (pos : Position) (move : Nat)
    (h : pieceAt pos (getFromSquare move) = -1) :
    makeMove pos move = (false, pos) := by
  unfold makeMove
  simp [h]

/-- C4: refuted on the code.  For the rook on h2 (square 15) and the
single blocker h7 (bit 55) the magic lookup returns the empty board 0,
while ray-casting to the first blocker gives the true attack set: the
occupancy enumeration used the overflowing `bitScanForward` (which
reports bit 55 as 62), so the subset `{h7}` was never written to the
table and the lookup falls back to `?? 0n`. -/
theorem c4_rook_magic_lookup_wrong :
    getRookAttacks 15 (squareBB 55) = 0 ∧
    generateRookAttacks 15 (squareBB 55) = 0x80808080807f80 ∧
    getRookAttacks 15 (squareBB 55) ≠ generateRookAttacks 15 (squareBB 55) := by
  decide

/-- C2 counterexample: a move `makeMove` accepts whose unmake does not
restore the position.  The promotion-flagged knight move b7-b8 in
`promoCexPos` is applied and reported legal, but `unmakeMove` replaces
the promoted piece with a PAWN on b7 — the knight is gone for good. -/
theorem c2_counterexample_unmake_corrupts :
    (makeMove promoCexPos promoCexMove).1 = true ∧
    unmakeMove (makeMove promoCexPos promoCexMove).2 promoCexMove ≠ promoCexPos ∧
    bbAt (unmakeMove (makeMove promoCexPos promoCexMove).2 promoCexMove) 0 = squareBB 49 ∧
    bbAt (unmakeMove (makeMove promoCexPos promoCexMove).2 promoCexMove) 1 = 0 := by
  decide

/-- C8 counterexample: with caller-supplied depth 0 and four legal
moves on the board, `searchPosition` (and so `getBestMove`) returns no
move at all: the iterative-deepening loop over depths `1..0` never
runs, so `stats.bestMove` keeps its initial `null`. -/
theorem c8_counterexample_depth_zero_none :
    (searchPosition searchCexPos 0).bestMove = none ∧
    getBestMove searchCexPos 0 = none ∧
    (generateLegalMoves searchCexPos).length = 4 := by
  decide

/-- The best move tracked by the root loop always stays inside the
fixed list `L` of legal moves it started from. -/
theorem searchRootLoop_mem (depth : Nat) (L : List Nat) :
    ∀ (moves : List Nat) (pos : Position) (alpha : Int) (bm : Nat) (bs : Int)
      (stats : SearchStats) (tt : TranspositionTable),
      bm ∈ L → (∀ m ∈ moves, m ∈ L) →
      (searchRootLoop depth pos moves alpha bm bs stats tt).2.1 ∈ L := by
  intro moves
  induction moves with
  | nil => intro pos alpha bm bs stats tt hbm _; simpa [searchRootLoop] using hbm
  | cons m rest ih =>
    intro pos alpha bm bs stats tt hbm hsub
    unfold searchRootLoop
    split
    · exact ih _ _ _ _ _ _ hbm (fun x hx => hsub x (List.mem_cons_of_mem m hx))
    · dsimp only
      split
      · exact ih _ _ _ _ _ _ (hsub m (List.mem_cons_self m rest))
          (fun x hx => hsub x (List.mem_cons_of_mem m hx))
      · exact ih _ _ _ _ _ _ hbm (fun x hx => hsub x (List.mem_cons_of_mem m hx))

/-- After at least one deepening round, the reported best move is one
of the legal moves the search started from. -/
theorem searchDeepen_mem (L : List Nat) :
    ∀ (remaining : Nat) (pos : Position) (depth bm : Nat) (bs : Int)
      (stats : SearchStats) (tt : TranspositionTable),
      bm ∈ L → 1 ≤ remaining →
      ∃ m ∈ L, (searchDeepen pos L remaining depth bm bs stats tt).1.bestMove = some m := by
  intro remaining
  induction remaining with
  | zero => intro _ _ _ _ _ _ _ h; omega
  | succ n ih =>
    intro pos depth bm bs stats tt hbm _
    unfold searchDeepen
    have hmem : (searchRootLoop depth pos L (-INFINITY_SCORE) bm bs
        { stats with depth := depth } tt).2.1 ∈ L :=
      searchRootLoop_mem depth L L pos _ bm bs _ tt hbm (fun _ hx => hx)
    rcases n.eq_zero_or_pos with h0 | hpos
    · subst h0
      exact ⟨_, hmem, rfl⟩
    · exact ih pos (depth + 1) _ _ _ _ hmem hpos

/-- C8 (amended): for every position and every search depth of at
least 1, `getBestMove` returns `none` exactly when the position has no
legal move, and otherwise returns one of the legal moves.  (At depth 0
with two or more legal moves it returns `none` — see the
counterexample — so the claim is amended to depths ≥ 1; the time-budget
variant only stops the deepening between rounds and cannot change
membership.) -/
theorem c8_bestmove_legal_for_positive_depth (pos : Position) (d : Nat) (hd : 1 ≤ d) :
    (generateLegalMoves pos = [] → getBestMove pos d = none) ∧
    (generateLegalMoves pos ≠ [] →
      ∃ m ∈ generateLegalMoves pos, getBestMove pos d = some m) := by
  constructor
  · intro hL
    simp [getBestMove, searchPosition, hL]
  · intro hL
    rcases hcons : generateLegalMoves pos with _ | ⟨first, rest⟩
    · exact absurd hcons hL
    rcases rest with _ | ⟨second, rest2⟩
    · refine ⟨first, List.mem_cons_self first [], ?_⟩
      unfold getBestMove searchPosition
      rw [hcons]
      simp
    · have hfirst : first ∈ first :: second :: rest2 :=
        List.mem_cons_self first (second :: rest2)
      obtain ⟨m, hmL, hbest⟩ :=
        searchDeepen_mem (first :: second :: rest2) d pos 1 first (-INFINITY_SCORE)
          { nodes := 0, qnodes := 0, depth := 0, bestMove := none, score := 0 }
          (ttIncrementAge ttInitial) hfirst hd
      refine ⟨m, hmL, ?_⟩
      unfold getBestMove searchPosition
      rw [hcons]
      rw [if_neg (by simp), if_neg (by simp [List.length_cons])]
      exact hbest

/-- C8 witness: in `oneMovePos` there is a legal move, and
`getBestMove` at depth 1 returns a legal move. -/
theorem c8_witness :
    (1 : Nat) ≤ 1 ∧ generateLegalMoves oneMovePos ≠ [] ∧
    ∃ m ∈ generateLegalMoves oneMovePos, getBestMove oneMovePos 1 = some m :=
  ⟨by decide, by decide,
    (c8_bestmove_legal_for_positive_depth oneMovePos 1 (by decide)).2 (by decide)⟩

/-- C9 witness: the quiet move a1-a2 on the empty board. -/
theorem c9_witness :
    pieceAt emptyPosition (getFromSquare (createMove 0 8 0)) = -1 ∧
    makeMove emptyPosition (createMove 0 8 0) = (false, emptyPosition) :=
  ⟨by decide, c9_empty_origin_rejected_unchanged emptyPosition (createMove 0 8 0) (by decide)⟩

/-! ## Bit-level facts about the embedded primitives -/

/-- The source's `testBit` agrees with `Nat.testBit`. -/
theorem testBit_eq (bb sq : Nat) : testBit bb sq = Nat.testBit bb sq := by
  unfold testBit squareBB
  rw [Nat.one_shiftLeft]
  cases h : Nat.testBit bb sq
  · have hz : bb &&& 2 ^ sq = 0 := by
      apply Nat.eq_of_testBit_eq
      intro i
      rw [Nat.testBit_and, Nat.zero_testBit, Nat.testBit_two_pow]
      rcases eq_or_ne sq i with rfl | hne
      · simp [h]
      · simp [hne]
    simp [hz]
  · have hpos : bb &&& 2 ^ sq ≠ 0 := by
      intro hz
      have := congrArg (fun x => Nat.testBit x sq) hz
      simp [Nat.testBit_and, h] at this
    simpa using hpos

/-- A board ANDed with a single-bit mask is that bit or nothing. -/
theorem and_two_pow_eq (bb s : Nat) :
    bb &&& 2 ^ s = if Nat.testBit bb s then 2 ^ s else 0 := by
  apply Nat.eq_of_testBit_eq
  intro i
  rw [Nat.testBit_and, Nat.testBit_two_pow]
  cases h : Nat.testBit bb s
  · rcases eq_or_ne s i with rfl | hne
    · simp [h]
    · simp [hne]
  · rcases eq_or_ne s i with rfl | hne
    · simp [h, Nat.testBit_two_pow]
    · simp [hne, Nat.testBit_two_pow]

/-- Subtracting a set bit flips exactly that bit. -/
theorem sub_two_pow_eq_xor {bb s : Nat} (h : Nat.testBit bb s = true) :
    bb - 2 ^ s = bb ^^^ 2 ^ s := by
  have hdecomp : bb = 2 ^ (s + 1) * (bb / 2 ^ (s + 1)) + bb % 2 ^ (s + 1) :=
    (Nat.div_add_mod bb (2 ^ (s + 1))).symm
  have hmod : bb % 2 ^ (s + 1) = 2 ^ s + bb % 2 ^ s := by
    have h2 : (2 : Nat) ^ (s + 1) = 2 ^ s * 2 := by ring
    rw [h2, Nat.mod_mul]
    have hbit : bb / 2 ^ s % 2 = 1 := by
      have := Nat.testBit_to_div_mod (x := bb) (i := s)
      rw [h] at this
      exact of_decide_eq_true this.symm
    rw [hbit]
    omega
  have hlow : bb - 2 ^ s = 2 ^ (s + 1) * (bb / 2 ^ (s + 1)) + bb % 2 ^ s := by
    omega
  apply Nat.eq_of_testBit_eq
  intro i
  rw [hlow, Nat.testBit_xor]
  have hmod0 : bb % 2 ^ s < 2 ^ s := Nat.mod_lt bb (Nat.two_pow_pos s)
  have hpow : (2 : Nat) ^ (s + 1) = 2 ^ s * 2 := pow_succ 2 s
  have hmodlt : bb % 2 ^ s < 2 ^ (s + 1) := by omega
  rw [Nat.testBit_mul_pow_two_add _ hmodlt]
  by_cases hi : i < s + 1
  · rcases eq_or_ne i s with rfl | hne
    · simp [h, Nat.testBit_two_pow, hi]
    · have hlt : i < s := by omega
      simp [hi, Nat.testBit_two_pow, (Ne.symm hne), hlt]
  · have hge : ¬ i < s + 1 := hi
    have hne : s ≠ i := by omega
    have hdiv : Nat.testBit bb i = Nat.testBit (bb / 2 ^ (s + 1)) (i - (s + 1)) := by
      rw [← Nat.shiftRight_eq_div_pow, Nat.testBit_shiftRight]
      congr 1
      omega
    rw [hdiv]
    simp [hge, Nat.testBit_two_pow, hne]

/-- Bits of `clearBit`. -/
theorem testBit_clearBit (bb s i : Nat) :
    Nat.testBit (clearBit bb s) i = (Nat.testBit bb i && !(decide (s = i))) := by
  unfold clearBit squareBB
  rw [Nat.one_shiftLeft, and_two_pow_eq]
  cases h : Nat.testBit bb s
  · rcases eq_or_ne s i with rfl | hne
    · simp [h]
    · simp [hne]
  · rw [if_pos rfl, sub_two_pow_eq_xor h, Nat.testBit_xor, Nat.testBit_two_pow]
    rcases eq_or_ne s i with rfl | hne
    · simp [h]
    · simp [hne]

/-- Bits of `setBit`. -/
theorem testBit_setBit (bb s i : Nat) :
    Nat.testBit (setBit bb s) i = (Nat.testBit bb i || decide (s = i)) := by
  unfold setBit squareBB
  rw [Nat.one_shiftLeft, Nat.testBit_or, Nat.testBit_two_pow]

/-- Clearing the lowest set bit: `bb &&& (bb - 1)` clears exactly the
least significant set bit of a nonzero board. -/
theorem and_pred_eq_clearBit (bb : Nat) (hne : bb ≠ 0) :
    ∃ s, Nat.testBit bb s = true ∧ (∀ j, j < s → Nat.testBit bb j = false) ∧
      bb &&& (bb - 1) = clearBit bb s := by
  obtain ⟨i0, hi0⟩ := Nat.ne_zero_implies_bit_true hne
  classical
  have hex : ∃ i, Nat.testBit bb i = true := ⟨i0, hi0⟩
  let s := Nat.find hex
  have hs : Nat.testBit bb s = true := Nat.find_spec hex
  have hmin : ∀ j, j < s → Nat.testBit bb j = false := by
    intro j hj
    have := Nat.find_min hex hj
    simpa using this
  refine ⟨s, hs, hmin, ?_⟩
  have hlow : bb % 2 ^ s = 0 := by
    apply Nat.eq_of_testBit_eq
    intro j
    rw [Nat.testBit_mod_two_pow, Nat.zero_testBit]
    by_cases hj : j < s
    · simp [hj, hmin j hj]
    · simp [hj]
  have hdecomp : bb = 2 ^ (s + 1) * (bb / 2 ^ (s + 1)) + 2 ^ s := by
    have h1 : bb % 2 ^ (s + 1) = 2 ^ s := by
      have h2 : (2 : Nat) ^ (s + 1) = 2 ^ s * 2 := pow_succ 2 s
      rw [h2, Nat.mod_mul, hlow]
      have hbit : bb / 2 ^ s % 2 = 1 := by
        have := Nat.testBit_to_div_mod (x := bb) (i := s)
        rw [hs] at this
        exact of_decide_eq_true this.symm
      rw [hbit]
      omega
    have := Nat.div_add_mod bb (2 ^ (s + 1))
    omega
  have hsub : bb - 1 = 2 ^ (s + 1) * (bb / 2 ^ (s + 1)) + (2 ^ s - 1) := by
    have : (0 : Nat) < 2 ^ s := Nat.two_pow_pos s
    omega
  apply Nat.eq_of_testBit_eq
  intro i
  rw [Nat.testBit_and, testBit_clearBit, hsub]
  have hlt : 2 ^ s - 1 < 2 ^ (s + 1) := by
    have : (0 : Nat) < 2 ^ s := Nat.two_pow_pos s
    have h2 : (2 : Nat) ^ (s + 1) = 2 ^ s * 2 := pow_succ 2 s
    omega
  rw [Nat.testBit_mul_pow_two_add _ hlt]
  by_cases hi : i < s + 1
  · rcases eq_or_ne i s with rfl | hne2
    · simp [hs, Nat.testBit_two_pow_sub_one]
    · have hlt2 : i < s := by omega
      simp [hi, Nat.testBit_two_pow_sub_one, hlt2, hmin i hlt2, Ne.symm hne2]
  · have hne2 : s ≠ i := by omega
    have hdiv : Nat.testBit bb i = Nat.testBit (bb / 2 ^ (s + 1)) (i - (s + 1)) := by
      conv =>
        lhs
        rw [hdecomp]
      rw [Nat.testBit_mul_pow_two_add _ (by
        have : (0 : Nat) < 2 ^ s := Nat.two_pow_pos s
        have h2 : (2 : Nat) ^ (s + 1) = 2 ^ s * 2 := pow_succ 2 s
        omega : (2 : Nat) ^ s < 2 ^ (s + 1))]
      simp [hi]
    rw [hdiv]
    simp [hi, hne2]

/-- Counting predicate satisfied once more. -/
theorem countP_drop_one {l : List Nat} {p q : Nat → Bool} {s : Nat}
    (hmem : s ∈ l) (hnd : l.Nodup)
    (hpq : ∀ x, p x = (q x || decide (x = s))) (hqs : q s = false) :
    l.countP p = l.countP q + 1 := by
  induction l with
  | nil => cases hmem
  | cons a t ih =>
    rcases List.mem_cons.mp hmem with heq | hmem2
    · have hst : s ∉ t := by
        rw [heq]
        exact (List.nodup_cons.mp hnd).1
      have hcong : t.countP p = t.countP q := by
        apply List.countP_congr
        intro x hx
        have hxs : x ≠ s := fun hxa => hst (hxa ▸ hx)
        rw [hpq x]
        simp [hxs]
      have hpa : p a = true := by
        rw [hpq a, ← heq]
        simp
      have hqa : q a = false := by
        rw [← heq]
        exact hqs
      rw [List.countP_cons, List.countP_cons, hcong, hpa, hqa]
      simp
    · have hnd2 : t.Nodup := (List.nodup_cons.mp hnd).2
      have has : a ≠ s := by
        rintro rfl
        exact (List.nodup_cons.mp hnd).1 hmem2
      rw [List.countP_cons, List.countP_cons, ih hmem2 hnd2]
      rw [hpq a]
      simp [has]
      omega

/-- `bitCountSpec` as a `countP`. -/
theorem bitCountSpec_eq_countP (bb : Nat) :
    bitCountSpec bb = (List.range 64).countP (fun s => Nat.testBit bb s) := by
  unfold bitCountSpec
  rw [List.countP_eq_length_filter]
  congr 1
  apply List.filter_congr
  intro x _
  rw [testBit_eq]

/-- The popcount loop counts the set bits, for boards of at most
`fuel` set bits below `2 ^ 64`. -/
theorem popCountGo_eq (fuel : Nat) :
    ∀ bb, bb < 2 ^ 64 → bitCountSpec bb ≤ fuel →
      popCountGo fuel bb = bitCountSpec bb := by
  induction fuel with
  | zero =>
    intro bb hlt hle
    have : bitCountSpec bb = 0 := Nat.le_zero.mp hle
    simp [popCountGo, this]
  | succ n ih =>
    intro bb hlt hle
    by_cases hz : bb = 0
    · subst hz
      have : bitCountSpec 0 = 0 := by
        rw [bitCountSpec_eq_countP]
        simp
      simp [popCountGo, this]
    · obtain ⟨s, hs, hmin, heq⟩ := and_pred_eq_clearBit bb hz
      have hslt : s < 64 := by
        by_contra hge
        have : bb < 2 ^ s :=
          lt_of_lt_of_le hlt (Nat.pow_le_pow_right (by norm_num) (by omega))
        rw [Nat.testBit_lt_two_pow this] at hs
        cases hs
      have hcount : bitCountSpec bb = bitCountSpec (clearBit bb s) + 1 := by
        rw [bitCountSpec_eq_countP, bitCountSpec_eq_countP]
        apply countP_drop_one (s := s)
        · exact List.mem_range.mpr hslt
        · exact List.nodup_range 64
        · intro x
          rw [testBit_clearBit]
          rcases eq_or_ne x s with rfl | hne
          · simp [hs]
          · simp [hne, Ne.symm hne]
        · rw [testBit_clearBit]
          simp
      have hclt : clearBit bb s < 2 ^ 64 := by
        unfold clearBit
        have := Nat.and_le_left (n := bb) (m := squareBB s)
        omega
      rw [popCountGo, if_neg hz, heq, ih (clearBit bb s) hclt (by omega), hcount]

/-- `popCount` counts the set bits of any 64-bit board. -/
theorem popCount_eq_bitCountSpec {bb : Nat} (h : bb < 2 ^ 64) :
    popCount bb = bitCountSpec bb := by
  have hle : bitCountSpec bb ≤ 64 := by
    rw [bitCountSpec_eq_countP]
    calc (List.range 64).countP _ ≤ (List.range 64).length := List.countP_le_length _
    _ = 64 := List.length_range 64
  exact popCountGo_eq 64 bb h hle

/-- A 64-bit board with no set bits is zero. -/
theorem bitCountSpec_eq_zero_iff {bb : Nat} (h : bb < 2 ^ 64) :
    bitCountSpec bb = 0 ↔ bb = 0 := by
  rw [bitCountSpec_eq_countP, List.countP_eq_zero]
  constructor
  · intro hall
    apply Nat.eq_of_testBit_eq
    intro i
    rw [Nat.zero_testBit]
    by_cases hi : i < 64
    · simpa using hall i (List.mem_range.mpr hi)
    · exact Nat.testBit_lt_two_pow
        (lt_of_lt_of_le h (Nat.pow_le_pow_right (by norm_num) (by omega)))
  · rintro rfl
    simp

/-- The light-square mask test agrees with the square-colour parity
test on 64-bit boards. -/
theorem lightMask_eq_onLightSquare (bb : Nat) :
    (bb &&& lightSquares != 0) = onLightSquare bb := by
  have hmask : ∀ s, s < 64 →
      Nat.testBit lightSquares s = decide ((fileOf s + rankOf s) % 2 = 1) := by
    decide
  rw [Bool.eq_iff_iff]
  unfold onLightSquare
  rw [List.any_eq_true]
  simp only [bne_iff_ne, ne_eq]
  constructor
  · intro hne
    obtain ⟨i, hi⟩ := Nat.ne_zero_implies_bit_true hne
    rw [Nat.testBit_and, Bool.and_eq_true] at hi
    have hb := hi.1
    have hl := hi.2
    have hi64 : i < 64 := by
      by_contra hge
      have : lightSquares < 2 ^ i := by
        calc lightSquares < 2 ^ 64 := by norm_num [lightSquares]
        _ ≤ 2 ^ i := Nat.pow_le_pow_right (by norm_num) (by omega)
      rw [Nat.testBit_lt_two_pow this] at hl
      cases hl
    refine ⟨i, List.mem_range.mpr hi64, ?_⟩
    rw [testBit_eq, hb, hmask i hi64] at *
    simpa using hl
  · rintro ⟨s, hs, hp⟩
    have hs64 : s < 64 := List.mem_range.mp hs
    rw [Bool.and_eq_true] at hp
    have hb := hp.1
    have hpar := hp.2
    intro hzero
    have : Nat.testBit (bb &&& lightSquares) s = false := by
      rw [hzero, Nat.zero_testBit]
    rw [Nat.testBit_and] at this
    rw [testBit_eq] at hb
    rw [hb, hmask s hs64] at this
    simp at this
    have hone := of_decide_eq_true hpar
    omega

/-- The repetition loop started at count `k ≤ 2` fires exactly when the
hash appears at least `3 - k` times. -/
theorem threefoldGo_iff (c : Nat) :
    ∀ (l : List Nat) (k : Nat), k ≤ 2 →
      (threefoldGo c l k = true ↔ 3 ≤ k + l.count c) := by
  intro l
  induction l with
  | nil =>
    intro k hk
    simp only [threefoldGo, List.count_nil]
    constructor
    · intro hfalse
      cases hfalse
    · intro habs
      omega
  | cons h t ih =>
    intro k hk
    by_cases hc : h = c
    · subst hc
      rw [threefoldGo]
      rw [if_pos rfl]
      have hcount : (h :: t).count h = t.count h + 1 := by
        simp [List.count_cons]
      rcases Nat.lt_or_ge k 2 with hk2 | hk2
      · rw [if_neg (by omega)]
        rw [ih (k + 1) (by omega), hcount]
        omega
      · have hkeq : k = 2 := by omega
        subst hkeq
        rw [if_pos (by omega)]
        simp only [hcount]
        constructor
        · intro _
          omega
        · intro _
          trivial
    · rw [threefoldGo, if_neg hc, ih k hk]
      have : (h :: t).count c = t.count c := by
        simp [List.count_cons, hc]
      rw [this]

/-- `isThreefoldRepetition` counts occurrences of the current hash. -/
theorem isThreefold_iff (pos : Position) :
    isThreefoldRepetition pos = true ↔
      3 ≤ pos.positionHistory.count pos.zobristHash := by
  unfold isThreefoldRepetition
  simpa using threefoldGo_iff pos.zobristHash pos.positionHistory 0 (by omega)

/-- The code's material test agrees with the claim's wording on
64-bit boards. -/
theorem insufficientMaterial_eq_spec (pos : Position)
    (h : ∀ i, i < 12 → bbAt pos i < 2 ^ 64) :
    isInsufficientMaterial pos = specInsufficientMaterial pos := by
  unfold isInsufficientMaterial specInsufficientMaterial
  rw [popCount_eq_bitCountSpec (h 0 (by omega)),
      popCount_eq_bitCountSpec (h 6 (by omega)),
      popCount_eq_bitCountSpec (h 1 (by omega)),
      popCount_eq_bitCountSpec (h 7 (by omega)),
      popCount_eq_bitCountSpec (h 2 (by omega)),
      popCount_eq_bitCountSpec (h 8 (by omega)),
      popCount_eq_bitCountSpec (h 3 (by omega)),
      popCount_eq_bitCountSpec (h 9 (by omega)),
      popCount_eq_bitCountSpec (h 4 (by omega)),
      popCount_eq_bitCountSpec (h 10 (by omega)),
      lightMask_eq_onLightSquare, lightMask_eq_onLightSquare]
  have e0 := bitCountSpec_eq_zero_iff (h 0 (by omega))
  have e6 := bitCountSpec_eq_zero_iff (h 6 (by omega))
  have e3 := bitCountSpec_eq_zero_iff (h 3 (by omega))
  have e9 := bitCountSpec_eq_zero_iff (h 9 (by omega))
  have e4 := bitCountSpec_eq_zero_iff (h 4 (by omega))
  have e10 := bitCountSpec_eq_zero_iff (h 10 (by omega))
  by_cases hp : 0 < bitCountSpec (bbAt pos 0) ∨ 0 < bitCountSpec (bbAt pos 6)
  · rw [if_pos hp]
    have : ¬ (bbAt pos 0 = 0 ∧ bbAt pos 6 = 0) := by
      rcases hp with hp | hp
      · intro hand
        rw [← e0] at hand
        omega
      · intro hand
        rw [← e6] at hand
        omega
    rcases Classical.em (bbAt pos 0 = 0) with h0 | h0 <;>
      rcases Classical.em (bbAt pos 6 = 0) with h6 | h6 <;>
        simp [h0, h6] <;> tauto
  · rw [if_neg hp]
    have h0 : bbAt pos 0 = 0 := e0.mp (by omega)
    have h6 : bbAt pos 6 = 0 := e6.mp (by omega)
    by_cases hr : 0 < bitCountSpec (bbAt pos 3) ∨ 0 < bitCountSpec (bbAt pos 9)
    · rw [if_pos hr]
      have : ¬ (bbAt pos 3 = 0 ∧ bbAt pos 9 = 0) := by
        rcases hr with hr | hr
        · intro hand
          rw [← e3] at hand
          omega
        · intro hand
          rw [← e9] at hand
          omega
      rcases Classical.em (bbAt pos 3 = 0) with h3 | h3 <;>
        rcases Classical.em (bbAt pos 9 = 0) with h9 | h9 <;>
          simp [h0, h6, h3, h9] <;> tauto
    · rw [if_neg hr]
      have h3 : bbAt pos 3 = 0 := e3.mp (by omega)
      have h9 : bbAt pos 9 = 0 := e9.mp (by omega)
      by_cases hq : 0 < bitCountSpec (bbAt pos 4) ∨ 0 < bitCountSpec (bbAt pos 10)
      · rw [if_pos hq]
        have : ¬ (bbAt pos 4 = 0 ∧ bbAt pos 10 = 0) := by
          rcases hq with hq | hq
          · intro hand
            rw [← e4] at hand
            omega
          · intro hand
            rw [← e10] at hand
            omega
        rcases Classical.em (bbAt pos 4 = 0) with h4 | h4 <;>
          rcases Classical.em (bbAt pos 10 = 0) with h10 | h10 <;>
            simp [h0, h6, h3, h9, h4, h10] <;> tauto
      · rw [if_neg hq]
        have h4 : bbAt pos 4 = 0 := e4.mp (by omega)
        have h10 : bbAt pos 10 = 0 := e10.mp (by omega)
        simp only [h0, h6, h3, h9, h4, h10]
        set wn := bitCountSpec (bbAt pos 1) with hwn
        set bn := bitCountSpec (bbAt pos 7) with hbn
        set wb := bitCountSpec (bbAt pos 2) with hwb
        set bbish := bitCountSpec (bbAt pos 8) with hbb
        by_cases hz : wn + wb = 0 ∧ bn + bbish = 0
        · rw [if_pos hz]
          obtain ⟨ha, hb2⟩ := hz
          simp [ha, hb2]
        · rw [if_neg hz]
          by_cases h01 : wn + wb = 0 ∧ bn + bbish = 1
          · rw [if_pos h01]
            obtain ⟨ha, hb2⟩ := h01
            simp [ha, hb2]
          · rw [if_neg h01]
            by_cases h10m : wn + wb = 1 ∧ bn + bbish = 0
            · rw [if_pos h10m]
              obtain ⟨ha, hb2⟩ := h10m
              simp [ha, hb2]
            · rw [if_neg h10m]
              by_cases h11 : wn + wb = 1 ∧ bn + bbish = 1 ∧ wb = 1 ∧ bbish = 1
              · rw [if_pos h11]
                obtain ⟨ha, hb2, hc, hd⟩ := h11
                have hwn0 : wn = 0 := by omega
                have hbn0 : bn = 0 := by omega
                simp [ha, hb2, hc, hd, hwn0, hbn0]
              · rw [if_neg h11]
                by_cases hl : onLightSquare (bbAt pos 2) = onLightSquare (bbAt pos 8) <;>
                  simp [hl] <;> omega

/-- The terminal-state detector matches the specification-level
computation on every position with 64-bit boards. -/
theorem gameState_eq_specGameState (pos : Position)
    (h : ∀ i, i < 12 → bbAt pos i < 2 ^ 64) :
    getGameState pos = specGameState pos := by
  unfold getGameState specGameState
  simp only []
  have hlen : ((generateLegalMoves pos).length = 0) ↔ (generateLegalMoves pos = []) :=
    List.length_eq_zero
  have hrep := isThreefold_iff pos
  have hins := insufficientMaterial_eq_spec pos h
  by_cases hl : generateLegalMoves pos = []
  · rw [if_pos (hlen.mpr hl), if_pos hl]
    by_cases hchk : isInCheck pos = true
    · rw [if_pos hchk, if_pos hchk]
      unfold oppositeColor
      rfl
    · rw [if_neg hchk, if_neg hchk]
  · rw [if_neg (fun hc => hl (hlen.mp hc)), if_neg hl]
    by_cases h50 : 100 ≤ pos.halfmoveClock
    · rw [if_pos h50, if_pos h50]
    · rw [if_neg h50, if_neg h50]
      by_cases hrep3 : isThreefoldRepetition pos = true
      · rw [if_pos hrep3, if_pos (hrep.mp hrep3)]
      · rw [if_neg hrep3, if_neg (fun hc => hrep3 (hrep.mpr hc))]
        by_cases hmat : isInsufficientMaterial pos = true
        · have hspec : specInsufficientMaterial pos = true := by
            rw [← hins]
            exact hmat
          rw [if_pos hmat, if_pos hspec]
        · have hspec : ¬ specInsufficientMaterial pos = true := by
            rw [← hins]
            exact hmat
          rw [if_neg hmat, if_neg hspec]

/-! ## Infrastructure for the make/unmake restoration theorems -/

/-- Setting a set bit back restores the board. -/
theorem setBit_clearBit_self {bb f : Nat} (h : Nat.testBit bb f = true) :
    setBit (clearBit bb f) f = bb := by
  apply Nat.eq_of_testBit_eq
  intro i
  rw [testBit_setBit, testBit_clearBit]
  rcases eq_or_ne f i with rfl | hne
  · simp [h]
  · simp [hne]

/-- Clearing a freshly set bit restores the board. -/
theorem clearBit_setBit_self {bb t : Nat} (h : Nat.testBit bb t = false) :
    clearBit (setBit bb t) t = bb := by
  apply Nat.eq_of_testBit_eq
  intro i
  rw [testBit_clearBit, testBit_setBit]
  rcases eq_or_ne t i with rfl | hne
  · simp [h]
  · simp [hne]

/-- `getD` after `set` at the same index. -/
theorem getD_set_self {l : List Nat} {n : Nat} (v : Nat) (h : n < l.length) :
    (l.set n v).getD n 0 = v := by
  rw [List.getD_eq_getElem?_getD, List.getElem?_set_self h]
  rfl

/-- `getD` after `set` at another index. -/
theorem getD_set_other {l : List Nat} {m n : Nat} (v : Nat) (h : m ≠ n) :
    (l.set m v).getD n 0 = l.getD n 0 := by
  rw [List.getD_eq_getElem?_getD, List.getElem?_set_ne h, ← List.getD_eq_getElem?_getD]

/-- Writing back the value already present is the identity. -/
theorem set_getD_self {l : List Nat} {n : Nat} (h : n < l.length) :
    l.set n (l.getD n 0) = l := by
  apply List.ext_getElem
  · simp
  · intro i h1 h2
    rcases eq_or_ne n i with rfl | hne
    · rw [List.getElem_set_self]
      rw [List.getD_eq_getElem?_getD, List.getElem?_eq_getElem h2]
      rfl
    · rw [List.getElem_set_ne hne]

/-- `find?` over a `range'` block locates the least index satisfying
the predicate. -/
theorem find?_range'_eq_some {f : Nat → Bool} {p : Nat} :
    ∀ (s len : Nat), s ≤ p → p < s + len → f p = true →
      (∀ q, s ≤ q → q < p → f q = false) →
      (List.range' s len).find? f = some p := by
  intro s len
  induction len generalizing s with
  | zero =>
    intro hsp hlt _ _
    omega
  | succ n ih =>
    intro hsp hlt hfp hmin
    rw [List.range'_succ, List.find?_cons]
    rcases eq_or_ne s p with rfl | hne
    · rw [hfp]
    · have hslt : s < p := by omega
      rw [hmin s (le_refl s) hslt]
      exact ih (s + 1) (by omega) (by omega) hfp (fun q hq hq2 => hmin q (by omega) hq2)

/-- `find?` over a `range'` block finds nothing when the predicate
fails throughout. -/
theorem find?_range'_eq_none {f : Nat → Bool} :
    ∀ (s len : Nat), (∀ q, s ≤ q → q < s + len → f q = false) →
      (List.range' s len).find? f = none := by
  intro s len
  induction len generalizing s with
  | zero =>
    intro _
    rfl
  | succ n ih =>
    intro hall
    rw [List.range'_succ, List.find?_cons, hall s (le_refl s) (by omega)]
    exact ih (s + 1) (fun q hq hq2 => hall q (by omega) (by omega))

/-- `pieceAt` returns the unique board holding the square. -/
theorem pieceAt_eq_of {pos : Position} {sq p : Nat} (hp : p < 12)
    (hbit : Nat.testBit (bbAt pos p) sq = true)
    (hothers : ∀ q, q < 12 → q ≠ p → Nat.testBit (bbAt pos q) sq = false) :
    pieceAt pos sq = Int.ofNat p := by
  unfold pieceAt
  rw [List.range_eq_range']
  have hfind := find?_range'_eq_some (f := fun q => testBit (bbAt pos q) sq) (p := p) 0 12
    (by omega) (by omega)
    (by simp only [testBit_eq]; exact hbit)
    (fun q hq hq2 => by simp only [testBit_eq]; exact hothers q (by omega) (by omega))
  rw [hfind]

/-- `pieceAt` reports an empty square when no board holds it. -/
theorem pieceAt_eq_neg {pos : Position} {sq : Nat}
    (hall : ∀ q, q < 12 → Nat.testBit (bbAt pos q) sq = false) :
    pieceAt pos sq = -1 := by
  unfold pieceAt
  rw [List.range_eq_range']
  have hfind := find?_range'_eq_none (f := fun q => testBit (bbAt pos q) sq) 0 12
    (fun q hq hq2 => by simp only [testBit_eq]; exact hall q (by omega))
  rw [hfind]

/-- Disjoint boards cannot share a set bit. -/
theorem disjoint_testBit {a b k : Nat} (h : a &&& b = 0)
    (ha : Nat.testBit a k = true) : Nat.testBit b k = false := by
  by_contra hb
  have hb2 : Nat.testBit b k = true := by
    cases hbv : Nat.testBit b k
    · exact absurd hbv hb
    · rfl
  have : Nat.testBit (a &&& b) k = true := by
    rw [Nat.testBit_and, ha, hb2]
    rfl
  rw [h, Nat.zero_testBit] at this
  cases this

/-- Core restoration fact for ordinary (non-capture, non-special)
moves: `unmakeMove` applied to the position `makeMove` builds by moving
board `mp`'s piece from the origin to the destination gives back the
original position, field for field. -/
theorem unmake_restores_move (pos : Position) (move : Nat) (mp : Nat)
    (state : PositionState) (N : Position) (hh : Nat)
    (hlen : pos.bitboards.length = 12)
    (hw : pos.whitePieces = bbAt pos 0 ||| bbAt pos 1 ||| bbAt pos 2 ||| bbAt pos 3 |||
      bbAt pos 4 ||| bbAt pos 5)
    (hbp : pos.blackPieces = bbAt pos 6 ||| bbAt pos 7 ||| bbAt pos 8 ||| bbAt pos 9 |||
      bbAt pos 10 ||| bbAt pos 11)
    (hap : pos.allPieces = pos.whitePieces ||| pos.blackPieces)
    (hmp12 : mp < 12)
    (hbitf : Nat.testBit (bbAt pos mp) (getFromSquare move) = true)
    (htall : ∀ q, q < 12 → Nat.testBit (bbAt pos q) (getToSquare move) = false)
    (hft : getFromSquare move ≠ getToSquare move)
    (hnp : isPromotion move = false)
    (hnk : isKingsideCastle move = false)
    (hnq : isQueensideCastle move = false)
    (hscr : state.castlingRights = pos.castlingRights)
    (hsep : state.enPassantSquare = pos.enPassantSquare)
    (hshm : state.halfmoveClock = pos.halfmoveClock)
    (hscap : state.capturedPiece = -1)
    (hsz : state.zobristHash = pos.zobristHash)
    (hNbb : N.bitboards = pos.bitboards.set mp
      (setBit (clearBit (bbAt pos mp) (getFromSquare move)) (getToSquare move)))
    (hNstm : N.sideToMove = (if pos.sideToMove = Color.white then Color.black else Color.white))
    (hNfull : N.fullmoveNumber =
      (if pos.sideToMove = Color.white then pos.fullmoveNumber else pos.fullmoveNumber + 1))
    (hNsh : N.stateHistory = state :: pos.stateHistory)
    (hNph : N.positionHistory = hh :: pos.positionHistory) :
    unmakeMove N move = pos := by
  unfold unmakeMove
  rw [hNsh]
  simp only []
  have hbbN : ∀ q, bbAt N q = (pos.bitboards.set mp
      (setBit (clearBit (bbAt pos mp) (getFromSquare move)) (getToSquare move))).getD q 0 := by
    intro q
    rw [bbAt, hNbb]
  have hbbNmp : bbAt N mp =
      setBit (clearBit (bbAt pos mp) (getFromSquare move)) (getToSquare move) := by
    rw [hbbN mp, getD_set_self _ (by omega)]
  have hbbNq : ∀ q, q ≠ mp → bbAt N q = bbAt pos q := by
    intro q hq
    rw [hbbN q, getD_set_other _ (fun he => hq he.symm), bbAt]
  have hpieceAtTo : pieceAt { N with stateHistory := pos.stateHistory, positionHistory := N.positionHistory.tail } (getToSquare move) = Int.ofNat mp := by
    apply pieceAt_eq_of hmp12
    · show Nat.testBit (bbAt N mp) (getToSquare move) = true
      rw [hbbNmp, testBit_setBit]
      simp
    · intro q hq hqmp
      show Nat.testBit (bbAt N q) (getToSquare move) = false
      rw [hbbNq q hqmp]
      exact htall q hq
  rw [hpieceAtTo]
  rw [hnp, hnk, hnq]
  simp only [Bool.false_eq_true, if_false, show (Int.ofNat mp).toNat = mp from rfl]
  rw [hscap]
  simp only [ne_eq, not_true_eq_false, if_false, ite_false]
  unfold movePiece updateAggregateBitboards
  simp only [bbAt]
  have hbb2 : (N.bitboards.set mp
      (setBit (clearBit (N.bitboards.getD mp 0) (getToSquare move)) (getFromSquare move))) =
      pos.bitboards := by
    have hv : N.bitboards.getD mp 0 = bbAt N mp := rfl
    rw [hv, hbbNmp, hNbb]
    rw [List.set_set]
    have hclr : clearBit (setBit (clearBit (bbAt pos mp) (getFromSquare move))
        (getToSquare move)) (getToSquare move) =
        clearBit (bbAt pos mp) (getFromSquare move) := by
      apply clearBit_setBit_self
      rw [testBit_clearBit, htall mp hmp12]
      simp
    rw [hclr, setBit_clearBit_self hbitf]
    exact set_getD_self (by omega)
  rw [hbb2]
  by_cases hstm0 : pos.sideToMove = Color.white
  · rw [hNstm, if_pos hstm0]
    simp only [reduceCtorEq, if_false, ite_false, if_true, ite_true]
    rcases pos with ⟨bbs, wp, bp, ap, stm, cr, ep, hm, fm, zh, sh, ph⟩
    simp only [] at *
    subst hstm0
    rw [hNph]
    simp only [List.tail_cons]
    rw [hscr, hsep, hshm, hsz, hNfull]
    simp only [bbAt] at hw hbp hap
    rw [← hw, ← hbp, ← hap]
    simp
  · rw [hNstm, if_neg hstm0]
    simp only [reduceCtorEq, if_false, ite_false, if_true, ite_true]
    have hstmb : pos.sideToMove = Color.black := by
      cases hstm : pos.sideToMove
      · exact absurd hstm hstm0
      · rfl
    rcases pos with ⟨bbs, wp, bp, ap, stm, cr, ep, hm, fm, zh, sh, ph⟩
    simp only [] at *
    subst hstmb
    rw [hNph]
    simp only [List.tail_cons]
    rw [hscr, hsep, hshm, hsz, hNfull]
    simp only [bbAt] at hw hbp hap
    rw [← hw, ← hbp, ← hap]
    simp

/-- Inverting a successful `pieceAt` lookup. -/
theorem pieceAt_inv {pos : Position} {sq : Nat} {p : Nat}
    (h : pieceAt pos sq = Int.ofNat p) :
    p < 12 ∧ Nat.testBit (bbAt pos p) sq = true := by
  unfold pieceAt at h
  cases hf : (List.range 12).find? (fun q => testBit (bbAt pos q) sq) with
  | none =>
    rw [hf] at h
    simp at h
  | some x =>
    rw [hf] at h
    have hx : x = p := Int.ofNat.inj h
    subst hx
    have hmem := List.mem_of_find?_eq_some hf
    have hpred := List.find?_some hf
    simp only [testBit_eq] at hpred
    exact ⟨List.mem_range.mp hmem, hpred⟩

/-- Inverting an empty `pieceAt` lookup. -/
theorem pieceAt_neg_inv {pos : Position} {sq : Nat}
    (h : pieceAt pos sq = -1) :
    ∀ q, q < 12 → Nat.testBit (bbAt pos q) sq = false := by
  intro q hq
  unfold pieceAt at h
  cases hf : (List.range 12).find? (fun q => testBit (bbAt pos q) sq) with
  | none =>
    have := List.find?_eq_none.mp hf q (List.mem_range.mpr hq)
    simpa [testBit_eq] using this
  | some x =>
    rw [hf] at h
    simp at h

/-- Merging two nested conditionals with the same then-branch. -/
theorem ite_ite_same {α : Type} (A B : Prop) [Decidable A] [Decidable B] (r t : α) :
    (if A then r else if B then r else t) = if A ∨ B then r else t := by
  by_cases hA : A
  · simp [hA]
  · by_cases hB : B <;> simp [hA, hB]

/-- A `makeMove` result of the single-revert-check shape is either the
new position with verdict true, or its own unmake with verdict false. -/
theorem exists_shape {A : Bool × Position} {N : Position} {move : Nat} {C : Prop}
    (inst : Decidable C)
    (hA : A = @ite _ C inst ((false : Bool), unmakeMove N move) ((true : Bool), N)) :
    A = (true, N) ∨ A = (false, unmakeMove N move) := by
  subst hA
  rcases inst with hC | hC
  · left
    rfl
  · right
    rfl

/-- Result analysis for the single-check exits of `makeMove`. -/
theorem make_shape_quietlike (pos : Position) (move : Nat) (mp : Nat)
    (hfl : getMoveFlags move = 0 ∨ getMoveFlags move = 1)
    (hmp : pieceAt pos (getFromSquare move) = Int.ofNat mp) :
    ∃ N : Position,
      (makeMove pos move = (true, N) ∨ makeMove pos move = (false, unmakeMove N move)) ∧
      N.bitboards = pos.bitboards.set mp
        (setBit (clearBit (bbAt pos mp) (getFromSquare move)) (getToSquare move)) ∧
      N.sideToMove = (if pos.sideToMove = Color.white then Color.black else Color.white) ∧
      N.fullmoveNumber =
        (if pos.sideToMove = Color.white then pos.fullmoveNumber else pos.fullmoveNumber + 1) ∧
      (∃ st : PositionState, N.stateHistory = st :: pos.stateHistory ∧
        st.castlingRights = pos.castlingRights ∧
        st.enPassantSquare = pos.enPassantSquare ∧
        st.halfmoveClock = pos.halfmoveClock ∧
        st.capturedPiece = -1 ∧
        st.zobristHash = pos.zobristHash) ∧
      (∃ hh : Nat, N.positionHistory = hh :: pos.positionHistory) := by
  have hCap : isCapture move = false := by
    rcases hfl with h | h <;> simp [isCapture, h]
  have hEp : isEnPassant move = false := by
    rcases hfl with h | h <;> simp [isEnPassant, h]
  have hProm : isPromotion move = false := by
    rcases hfl with h | h <;> simp [isPromotion, h]
  have hKC : isKingsideCastle move = false := by
    rcases hfl with h | h <;> simp [isKingsideCastle, h]
  have hQC : isQueensideCastle move = false := by
    rcases hfl with h | h <;> simp [isQueensideCastle, h]
  have hne1 : ¬ ((Int.ofNat mp) = -1) := by
    intro hcon
    have h0 : (0 : Int) ≤ Int.ofNat mp := Int.ofNat_nonneg mp
    rw [hcon] at h0
    omega
  have hfull : ∀ X : Position, X.fullmoveNumber = pos.fullmoveNumber →
      (if (!decide (pos.sideToMove = Color.white)) = true then X.fullmoveNumber + 1
        else X.fullmoveNumber) =
      (if pos.sideToMove = Color.white then pos.fullmoveNumber else pos.fullmoveNumber + 1) := by
    intro X hX
    by_cases hsw : pos.sideToMove = Color.white <;> simp [hsw, hX]
  unfold makeMove
  simp only [hmp, if_neg hne1, hCap, hEp, hProm, hKC, hQC,
    Bool.false_eq_true, false_and, if_false, or_self,
    show (Int.ofNat mp).toNat = mp from rfl]
  generalize hg2 : (if isDoublePawnPush move = true then
      (if pos.sideToMove = Color.white then Int.ofNat (getToSquare move) - 8
        else Int.ofNat (getToSquare move) + 8) else (-1 : Int)) = eVal
  generalize hg3 : (if (mp = 0 ∨ mp = 6) ∨ False then 0
      else (movePiece pos mp (getFromSquare move) (getToSquare move)).halfmoveClock + 1) = hVal
  generalize hg4 : (if (!decide (pos.sideToMove = Color.white)) = true then
      (movePiece pos mp (getFromSquare move) (getToSquare move)).fullmoveNumber + 1
      else (movePiece pos mp (getFromSquare move) (getToSquare move)).fullmoveNumber) = fVal
  generalize hg5 : (if pos.sideToMove = Color.white then Color.white else Color.black) = kcVal
  generalize hg1 : (if pos.sideToMove = Color.white then Color.black else Color.white) = sVal
  split
  · exact ⟨_, Or.inr rfl, rfl, rfl, by rw [← hg4]; exact hfull _ rfl,
      ⟨_, rfl, rfl, rfl, rfl, rfl, rfl⟩, ⟨_, rfl⟩⟩
  · exact ⟨_, Or.inl rfl, rfl, rfl, by rw [← hg4]; exact hfull _ rfl,
      ⟨_, rfl, rfl, rfl, rfl, rfl, rfl⟩, ⟨_, rfl⟩⟩

/-- Make-then-unmake analysis for ordinary moves (flags 0 and 1): a
successful make is exactly reverted by unmake, and a failed make
already returns the reverted position. -/
theorem makeUnmake_quietlike (pos : Position) (move : Nat) (mp : Nat)
    (hwf : wfPosition pos)
    (hfl : getMoveFlags move = 0 ∨ getMoveFlags move = 1)
    (hmp : pieceAt pos (getFromSquare move) = Int.ofNat mp)
    (hft : getFromSquare move ≠ getToSquare move)
    (hto : pieceAt pos (getToSquare move) = -1) :
    ((makeMove pos move).1 = true → unmakeMove (makeMove pos move).2 move = pos) ∧
    ((makeMove pos move).1 = false → (makeMove pos move).2 = pos) := by
  obtain ⟨hlen, hdisj, hw, hbp, hap⟩ := hwf
  obtain ⟨hmp12, hbitf⟩ := pieceAt_inv hmp
  have htall := pieceAt_neg_inv hto
  obtain ⟨N, hor, hbb, hstm, hfull2, ⟨st, hsh, hcr, hep2, hhm, hcap, hz⟩, ⟨hh, hph⟩⟩ :=
    make_shape_quietlike pos move mp hfl hmp
  have hnp : isPromotion move = false := by
    rcases hfl with h | h <;> simp [isPromotion, h]
  have hnk : isKingsideCastle move = false := by
    rcases hfl with h | h <;> simp [isKingsideCastle, h]
  have hnq : isQueensideCastle move = false := by
    rcases hfl with h | h <;> simp [isQueensideCastle, h]
  have key : unmakeMove N move = pos :=
    unmake_restores_move pos move mp st N hh hlen hw hbp hap hmp12 hbitf htall hft
      hnp hnk hnq hcr hep2 hhm hcap hz hbb hstm hfull2 hsh hph
  rcases hor with h | h
  · rw [h]
    constructor
    · intro _
      exact key
    · intro hcon
      simp at hcon
  · rw [h]
    constructor
    · intro hcon
      simp at hcon
    · intro _
      exact key

/-- Core restoration fact for plain captures (flag 4). -/
theorem unmake_restores_capture (pos : Position) (move : Nat) (mp cap : Nat)
    (state : PositionState) (N : Position) (hh : Nat)
    (hlen : pos.bitboards.length = 12)
    (hw : pos.whitePieces = bbAt pos 0 ||| bbAt pos 1 ||| bbAt pos 2 ||| bbAt pos 3 |||
      bbAt pos 4 ||| bbAt pos 5)
    (hbp : pos.blackPieces = bbAt pos 6 ||| bbAt pos 7 ||| bbAt pos 8 ||| bbAt pos 9 |||
      bbAt pos 10 ||| bbAt pos 11)
    (hap : pos.allPieces = pos.whitePieces ||| pos.blackPieces)
    (hmp12 : mp < 12) (hcap12 : cap < 12) (hcapne : cap ≠ mp)
    (hbitf : Nat.testBit (bbAt pos mp) (getFromSquare move) = true)
    (hbitcap : Nat.testBit (bbAt pos cap) (getToSquare move) = true)
    (htallex : ∀ q, q < 12 → q ≠ cap → Nat.testBit (bbAt pos q) (getToSquare move) = false)
    (hft : getFromSquare move ≠ getToSquare move)
    (hnp : isPromotion move = false)
    (hne : isEnPassant move = false)
    (hnk : isKingsideCastle move = false)
    (hnq : isQueensideCastle move = false)
    (hscr : state.castlingRights = pos.castlingRights)
    (hsep : state.enPassantSquare = pos.enPassantSquare)
    (hshm : state.halfmoveClock = pos.halfmoveClock)
    (hscap : state.capturedPiece = Int.ofNat cap)
    (hsz : state.zobristHash = pos.zobristHash)
    (hNbb : N.bitboards = (pos.bitboards.set cap
        (clearBit (bbAt pos cap) (getToSquare move))).set mp
      (setBit (clearBit ((pos.bitboards.set cap
          (clearBit (bbAt pos cap) (getToSquare move))).getD mp 0) (getFromSquare move))
        (getToSquare move)))
    (hNstm : N.sideToMove = (if pos.sideToMove = Color.white then Color.black else Color.white))
    (hNfull : N.fullmoveNumber =
      (if pos.sideToMove = Color.white then pos.fullmoveNumber else pos.fullmoveNumber + 1))
    (hNsh : N.stateHistory = state :: pos.stateHistory)
    (hNph : N.positionHistory = hh :: pos.positionHistory) :
    unmakeMove N move = pos := by
  have hl1mp : (pos.bitboards.set cap
      (clearBit (bbAt pos cap) (getToSquare move))).getD mp 0 = bbAt pos mp :=
    getD_set_other _ hcapne
  rw [hl1mp] at hNbb
  unfold unmakeMove
  rw [hNsh]
  simp only []
  have hbbNmp : bbAt N mp =
      setBit (clearBit (bbAt pos mp) (getFromSquare move)) (getToSquare move) := by
    rw [bbAt, hNbb, getD_set_self _ (by simp only [List.length_set, hlen]; omega)]
  have hbbNcap : bbAt N cap = clearBit (bbAt pos cap) (getToSquare move) := by
    rw [bbAt, hNbb, getD_set_other _ (fun he => hcapne he.symm),
      getD_set_self _ (by simp only [List.length_set, hlen]; omega)]
  have hbbNq : ∀ q, q ≠ mp → q ≠ cap → bbAt N q = bbAt pos q := by
    intro q hq hq2
    rw [bbAt, hNbb, getD_set_other _ (fun he => hq he.symm),
      getD_set_other _ (fun he => hq2 he.symm), bbAt]
  have hpieceAtTo : pieceAt { N with stateHistory := pos.stateHistory, positionHistory := N.positionHistory.tail } (getToSquare move) = Int.ofNat mp := by
    apply pieceAt_eq_of hmp12
    · show Nat.testBit (bbAt N mp) (getToSquare move) = true
      rw [hbbNmp, testBit_setBit]
      simp
    · intro q hq hqmp
      show Nat.testBit (bbAt N q) (getToSquare move) = false
      rcases eq_or_ne q cap with rfl | hqcap
      · rw [hbbNcap, testBit_clearBit]
        simp
      · rw [hbbNq q hqmp hqcap]
        exact htallex q hq hqcap
  rw [hpieceAtTo]
  rw [hnp, hnk, hnq, hscap, hne]
  simp only [Bool.false_eq_true, if_false, ite_false,
    show (Int.ofNat mp).toNat = mp from rfl,
    show (Int.ofNat cap).toNat = cap from rfl]
  have hcapne1 : (Int.ofNat cap ≠ (-1 : Int)) := by
    intro hcon
    have h0 : (0 : Int) ≤ Int.ofNat cap := Int.ofNat_nonneg cap
    rw [hcon] at h0
    omega
  rw [if_pos hcapne1]
  unfold movePiece addPiece updateAggregateBitboards
  simp only [bbAt]
  have hbb2 : (N.bitboards.set mp
      (setBit (clearBit (N.bitboards.getD mp 0) (getToSquare move)) (getFromSquare move))) =
      (pos.bitboards.set cap (clearBit (bbAt pos cap) (getToSquare move))) := by
    have hv : N.bitboards.getD mp 0 = bbAt N mp := rfl
    rw [hv, hbbNmp, hNbb, List.set_set]
    have hclr : clearBit (setBit (clearBit (bbAt pos mp) (getFromSquare move))
        (getToSquare move)) (getToSquare move) =
        clearBit (bbAt pos mp) (getFromSquare move) := by
      apply clearBit_setBit_self
      rw [testBit_clearBit, htallex mp hmp12 (fun he => hcapne he.symm)]
      simp
    rw [hclr, setBit_clearBit_self hbitf]
    apply List.ext_getElem
    · simp
    · intro i h1 h2
      rcases eq_or_ne mp i with rfl | hne2
      · rw [List.getElem_set_self, List.getElem_set_ne (fun he => hcapne he)]
        rw [bbAt, List.getD_eq_getElem?_getD, List.getElem?_eq_getElem (by simpa using h2)]
        rfl
      · rw [List.getElem_set_ne hne2]
  rw [hbb2]
  have hbb3 : ((pos.bitboards.set cap (clearBit (bbAt pos cap) (getToSquare move))).set cap
      (setBit ((pos.bitboards.set cap
        (clearBit (bbAt pos cap) (getToSquare move))).getD cap 0) (getToSquare move))) =
      pos.bitboards := by
    rw [getD_set_self _ (by simp only [List.length_set, hlen]; omega), List.set_set,
      setBit_clearBit_self hbitcap]
    exact set_getD_self (by simp only [List.length_set, hlen]; omega)
  rw [hbb3]
  by_cases hstm0 : pos.sideToMove = Color.white
  · rw [hNstm, if_pos hstm0]
    simp only [reduceCtorEq, if_false, ite_false, if_true, ite_true]
    rcases pos with ⟨bbs, wp, bp, ap, stm, cr, ep, hm, fm, zh, sh, ph⟩
    simp only [] at *
    subst hstm0
    rw [hNph]
    simp only [List.tail_cons]
    rw [hscr, hsep, hshm, hsz, hNfull]
    simp only [bbAt] at hw hbp hap
    rw [← hw, ← hbp, ← hap]
    simp
  · rw [hNstm, if_neg hstm0]
    simp only [reduceCtorEq, if_false, ite_false, if_true, ite_true]
    have hstmb : pos.sideToMove = Color.black := by
      cases hstm : pos.sideToMove
      · exact absurd hstm hstm0
      · rfl
    rcases pos with ⟨bbs, wp, bp, ap, stm, cr, ep, hm, fm, zh, sh, ph⟩
    simp only [] at *
    subst hstmb
    rw [hNph]
    simp only [List.tail_cons]
    rw [hscr, hsep, hshm, hsz, hNfull]
    simp only [bbAt] at hw hbp hap
    rw [← hw, ← hbp, ← hap]
    simp

/-- Shape of the `makeMove` result on a plain capture (flag 4). -/
theorem make_shape_capture (pos : Position) (move : Nat) (mp cap : Nat)
    (hfl : getMoveFlags move = 4)
    (hmp : pieceAt pos (getFromSquare move) = Int.ofNat mp)
    (hcap2 : pieceAt pos (getToSquare move) = Int.ofNat cap) :
    ∃ N : Position,
      (makeMove pos move = (true, N) ∨ makeMove pos move = (false, unmakeMove N move)) ∧
      N.bitboards = (pos.bitboards.set cap
          (clearBit (bbAt pos cap) (getToSquare move))).set mp
        (setBit (clearBit ((pos.bitboards.set cap
            (clearBit (bbAt pos cap) (getToSquare move))).getD mp 0) (getFromSquare move))
          (getToSquare move)) ∧
      N.sideToMove = (if pos.sideToMove = Color.white then Color.black else Color.white) ∧
      N.fullmoveNumber =
        (if pos.sideToMove = Color.white then pos.fullmoveNumber else pos.fullmoveNumber + 1) ∧
      (∃ st : PositionState, N.stateHistory = st :: pos.stateHistory ∧
        st.castlingRights = pos.castlingRights ∧
        st.enPassantSquare = pos.enPassantSquare ∧
        st.halfmoveClock = pos.halfmoveClock ∧
        st.capturedPiece = Int.ofNat cap ∧
        st.zobristHash = pos.zobristHash) ∧
      (∃ hh : Nat, N.positionHistory = hh :: pos.positionHistory) := by
  have hCapT : isCapture move = true := by simp only [isCapture, hfl]; decide
  have hEp : isEnPassant move = false := by simp only [isEnPassant, hfl]; decide
  have hProm : isPromotion move = false := by simp only [isPromotion, hfl]; decide
  have hKC : isKingsideCastle move = false := by simp only [isKingsideCastle, hfl]; decide
  have hQC : isQueensideCastle move = false := by simp only [isQueensideCastle, hfl]; decide
  have hDP : isDoublePawnPush move = false := by simp only [isDoublePawnPush, hfl]; decide
  have hne1 : ¬ ((Int.ofNat mp) = -1) := by
    intro hcon
    have h0 : (0 : Int) ≤ Int.ofNat mp := Int.ofNat_nonneg mp
    rw [hcon] at h0
    omega
  have hnecap : ((Int.ofNat cap) ≠ -1) := by
    intro hcon
    have h0 : (0 : Int) ≤ Int.ofNat cap := Int.ofNat_nonneg cap
    rw [hcon] at h0
    omega
  have hfull : ∀ X : Position, X.fullmoveNumber = pos.fullmoveNumber →
      (if (!decide (pos.sideToMove = Color.white)) = true then X.fullmoveNumber + 1
        else X.fullmoveNumber) =
      (if pos.sideToMove = Color.white then pos.fullmoveNumber else pos.fullmoveNumber + 1) := by
    intro X hX
    by_cases hsw : pos.sideToMove = Color.white <;> simp [hsw, hX]
  unfold makeMove
  simp only [hmp, if_neg hne1, hCapT, hEp, hProm, hKC, hQC, hDP, hcap2, if_pos hnecap,
    Bool.false_eq_true, false_and, if_false, or_self, eq_self_iff_true, or_true, if_true,
    true_and, not_false_eq_true, and_true, and_self, ite_true,
    show (Int.ofNat mp).toNat = mp from rfl,
    show (Int.ofNat cap).toNat = cap from rfl]
  generalize hg4 : (if (!decide (pos.sideToMove = Color.white)) = true then
      (movePiece (removePiece pos cap (getToSquare move)) mp (getFromSquare move)
        (getToSquare move)).fullmoveNumber + 1
      else (movePiece (removePiece pos cap (getToSquare move)) mp (getFromSquare move)
        (getToSquare move)).fullmoveNumber) = fVal
  generalize hg5 : (if pos.sideToMove = Color.white then Color.white else Color.black) = kcVal
  generalize hg1 : (if pos.sideToMove = Color.white then Color.black else Color.white) = sVal
  split
  · exact ⟨_, Or.inr rfl, rfl, rfl, by rw [← hg4]; exact hfull _ rfl,
      ⟨_, rfl, rfl, rfl, rfl, rfl, rfl⟩, ⟨_, rfl⟩⟩
  · exact ⟨_, Or.inl rfl, rfl, rfl, by rw [← hg4]; exact hfull _ rfl,
      ⟨_, rfl, rfl, rfl, rfl, rfl, rfl⟩, ⟨_, rfl⟩⟩

/-- Make-then-unmake analysis for plain captures (flag 4). -/
theorem makeUnmake_capture (pos : Position) (move : Nat) (mp cap : Nat)
    (hwf : wfPosition pos)
    (hfl : getMoveFlags move = 4)
    (hmp : pieceAt pos (getFromSquare move) = Int.ofNat mp)
    (hcap2 : pieceAt pos (getToSquare move) = Int.ofNat cap)
    (hcapne : cap ≠ mp)
    (hft : getFromSquare move ≠ getToSquare move) :
    ((makeMove pos move).1 = true → unmakeMove (makeMove pos move).2 move = pos) ∧
    ((makeMove pos move).1 = false → (makeMove pos move).2 = pos) := by
  obtain ⟨hlen, hdisj, hw, hbp, hap⟩ := hwf
  obtain ⟨hmp12, hbitf⟩ := pieceAt_inv hmp
  obtain ⟨hcap12, hbitcap⟩ := pieceAt_inv hcap2
  have htallex : ∀ q, q < 12 → q ≠ cap →
      Nat.testBit (bbAt pos q) (getToSquare move) = false := by
    intro q hq hqcap
    exact disjoint_testBit (hdisj cap hcap12 q hq (fun he => hqcap he.symm)) hbitcap
  obtain ⟨N, hor, hbb, hstm, hfull2, ⟨st, hsh, hcr, hep2, hhm, hcap, hz⟩, ⟨hh, hph⟩⟩ :=
    make_shape_capture pos move mp cap hfl hmp hcap2
  have hnp : isPromotion move = false := by
    simp only [isPromotion, hfl]
    decide
  have hne : isEnPassant move = false := by
    simp only [isEnPassant, hfl]
    decide
  have hnk : isKingsideCastle move = false := by
    simp only [isKingsideCastle, hfl]
    decide
  have hnq : isQueensideCastle move = false := by
    simp only [isQueensideCastle, hfl]
    decide
  have key : unmakeMove N move = pos :=
    unmake_restores_capture pos move mp cap st N hh hlen hw hbp hap hmp12 hcap12 hcapne
      hbitf hbitcap htallex hft hnp hne hnk hnq hcr hep2 hhm hcap hz hbb hstm hfull2 hsh hph
  rcases hor with h | h
  · rw [h]
    constructor
    · intro _
      exact key
    · intro hcon
      simp at hcon
  · rw [h]
    constructor
    · intro hcon
      simp at hcon
    · intro _
      exact key

/-- Core restoration fact for non-capturing promotions (flags 8-11). -/
theorem unmake_restores_promo (pos : Position) (move : Nat) (mp pp : Nat)
    (state : PositionState) (N : Position) (hh : Nat)
    (hlen : pos.bitboards.length = 12)
    (hw : pos.whitePieces = bbAt pos 0 ||| bbAt pos 1 ||| bbAt pos 2 ||| bbAt pos 3 |||
      bbAt pos 4 ||| bbAt pos 5)
    (hbp : pos.blackPieces = bbAt pos 6 ||| bbAt pos 7 ||| bbAt pos 8 ||| bbAt pos 9 |||
      bbAt pos 10 ||| bbAt pos 11)
    (hap : pos.allPieces = pos.whitePieces ||| pos.blackPieces)
    (hmp12 : mp < 12) (hpp12 : pp < 12) (hppmp : pp ≠ mp)
    (hmp0 : mp = (if pos.sideToMove = Color.white then 0 else 6))
    (hbitf : Nat.testBit (bbAt pos mp) (getFromSquare move) = true)
    (htall : ∀ q, q < 12 → Nat.testBit (bbAt pos q) (getToSquare move) = false)
    (hprom : isPromotion move = true)
    (hnk : isKingsideCastle move = false)
    (hnq : isQueensideCastle move = false)
    (hscr : state.castlingRights = pos.castlingRights)
    (hsep : state.enPassantSquare = pos.enPassantSquare)
    (hshm : state.halfmoveClock = pos.halfmoveClock)
    (hscap : state.capturedPiece = -1)
    (hsz : state.zobristHash = pos.zobristHash)
    (hNbb : N.bitboards = (pos.bitboards.set mp
        (clearBit (bbAt pos mp) (getFromSquare move))).set pp
      (setBit ((pos.bitboards.set mp
          (clearBit (bbAt pos mp) (getFromSquare move))).getD pp 0) (getToSquare move)))
    (hNstm : N.sideToMove = (if pos.sideToMove = Color.white then Color.black else Color.white))
    (hNfull : N.fullmoveNumber =
      (if pos.sideToMove = Color.white then pos.fullmoveNumber else pos.fullmoveNumber + 1))
    (hNsh : N.stateHistory = state :: pos.stateHistory)
    (hNph : N.positionHistory = hh :: pos.positionHistory) :
    unmakeMove N move = pos := by
  have hl1pp : (pos.bitboards.set mp
      (clearBit (bbAt pos mp) (getFromSquare move))).getD pp 0 = bbAt pos pp :=
    getD_set_other _ (fun he => hppmp he.symm)
  rw [hl1pp] at hNbb
  unfold unmakeMove
  rw [hNsh]
  simp only []
  have hbbNpp : bbAt N pp = setBit (bbAt pos pp) (getToSquare move) := by
    rw [bbAt, hNbb, getD_set_self _ (by simp only [List.length_set, hlen]; omega)]
  have hbbNmp : bbAt N mp = clearBit (bbAt pos mp) (getFromSquare move) := by
    rw [bbAt, hNbb, getD_set_other _ hppmp,
      getD_set_self _ (by simp only [List.length_set, hlen]; omega)]
  have hbbNq : ∀ q, q ≠ mp → q ≠ pp → bbAt N q = bbAt pos q := by
    intro q hq hq2
    rw [bbAt, hNbb, getD_set_other _ (fun he => hq2 he.symm),
      getD_set_other _ (fun he => hq he.symm), bbAt]
  have hpieceAtTo : pieceAt { N with stateHistory := pos.stateHistory, positionHistory := N.positionHistory.tail } (getToSquare move) = Int.ofNat pp := by
    apply pieceAt_eq_of hpp12
    · show Nat.testBit (bbAt N pp) (getToSquare move) = true
      rw [hbbNpp, testBit_setBit]
      simp
    · intro q hq hqpp
      show Nat.testBit (bbAt N q) (getToSquare move) = false
      rcases eq_or_ne q mp with rfl | hqmp
      · rw [hbbNmp, testBit_clearBit, htall q hq]
        simp
      · rw [hbbNq q hqmp hqpp]
        exact htall q hq
  rw [hpieceAtTo]
  rw [hprom, hnk, hnq, hscap]
  simp only [Bool.false_eq_true, if_false, ite_false, if_true, ite_true,
    ne_eq, not_true_eq_false,
    show (Int.ofNat pp).toNat = pp from rfl]
  unfold removePiece addPiece updateAggregateBitboards
  simp only [bbAt]
  have hbb2 : (N.bitboards.set pp
      (clearBit (N.bitboards.getD pp 0) (getToSquare move))) =
      pos.bitboards.set mp (clearBit (bbAt pos mp) (getFromSquare move)) := by
    have hv : N.bitboards.getD pp 0 = bbAt N pp := rfl
    rw [hv, hbbNpp, hNbb, List.set_set]
    have hclr : clearBit (setBit (bbAt pos pp) (getToSquare move)) (getToSquare move) =
        bbAt pos pp := clearBit_setBit_self (htall pp hpp12)
    rw [hclr]
    apply List.ext_getElem
    · simp
    · intro i h1 h2
      rcases eq_or_ne pp i with rfl | hne2
      · rw [List.getElem_set_self, List.getElem_set_ne (fun he => hppmp he.symm)]
        rw [bbAt, List.getD_eq_getElem?_getD, List.getElem?_eq_getElem (by simpa using h2)]
        rfl
      · rw [List.getElem_set_ne hne2]
  rw [hbb2]
  by_cases hstm0 : pos.sideToMove = Color.white
  · rw [hNstm, if_pos hstm0]
    have hmpv : mp = 0 := by
      rw [hmp0, if_pos hstm0]
    subst hmpv
    simp only [reduceCtorEq, if_false, ite_false, if_true, ite_true]
    have hbb3 : ((pos.bitboards.set 0 (clearBit (bbAt pos 0) (getFromSquare move))).set 0
        (setBit ((pos.bitboards.set 0
          (clearBit (bbAt pos 0) (getFromSquare move))).getD 0 0) (getFromSquare move))) =
        pos.bitboards := by
      rw [getD_set_self _ (by simp only [List.length_set, hlen]; omega), List.set_set,
        setBit_clearBit_self hbitf]
      exact set_getD_self (by simp only [List.length_set, hlen]; omega)
    rw [hbb3]
    rcases pos with ⟨bbs, wp, bp, ap, stm, cr, ep, hm, fm, zh, sh, ph⟩
    simp only [] at *
    subst hstm0
    rw [hNph]
    simp only [List.tail_cons]
    rw [hscr, hsep, hshm, hsz, hNfull]
    simp only [bbAt] at hw hbp hap
    rw [← hw, ← hbp, ← hap]
    simp
  · rw [hNstm, if_neg hstm0]
    have hmpv : mp = 6 := by
      rw [hmp0, if_neg hstm0]
    subst hmpv
    simp only [reduceCtorEq, if_false, ite_false, if_true, ite_true]
    have hbb3 : ((pos.bitboards.set 6 (clearBit (bbAt pos 6) (getFromSquare move))).set 6
        (setBit ((pos.bitboards.set 6
          (clearBit (bbAt pos 6) (getFromSquare move))).getD 6 0) (getFromSquare move))) =
        pos.bitboards := by
      rw [getD_set_self _ (by simp only [List.length_set, hlen]; omega), List.set_set,
        setBit_clearBit_self hbitf]
      exact set_getD_self (by simp only [List.length_set, hlen]; omega)
    rw [hbb3]
    have hstmb : pos.sideToMove = Color.black := by
      cases hstm : pos.sideToMove
      · exact absurd hstm hstm0
      · rfl
    rcases pos with ⟨bbs, wp, bp, ap, stm, cr, ep, hm, fm, zh, sh, ph⟩
    simp only [] at *
    subst hstmb
    rw [hNph]
    simp only [List.tail_cons]
    rw [hscr, hsep, hshm, hsz, hNfull]
    simp only [bbAt] at hw hbp hap
    rw [← hw, ← hbp, ← hap]
    simp

/-- Shape of the `makeMove` result on a non-capturing promotion. -/
theorem make_shape_promo (pos : Position) (move : Nat) (mp pp : Nat)
    (hProm : isPromotion move = true) (hCap : isCapture move = false)
    (hEp : isEnPassant move = false) (hKC : isKingsideCastle move = false)
    (hQC : isQueensideCastle move = false) (hDP : isDoublePawnPush move = false)
    (hmp : pieceAt pos (getFromSquare move) = Int.ofNat mp)
    (hmp0 : mp = (if pos.sideToMove = Color.white then 0 else 6))
    (hppv : pp = (if pos.sideToMove = Color.white then 1 else 7) + getPromotionPiece move) :
    ∃ N : Position,
      (makeMove pos move = (true, N) ∨ makeMove pos move = (false, unmakeMove N move)) ∧
      N.bitboards = (pos.bitboards.set mp
          (clearBit (bbAt pos mp) (getFromSquare move))).set pp
        (setBit ((pos.bitboards.set mp
            (clearBit (bbAt pos mp) (getFromSquare move))).getD pp 0) (getToSquare move)) ∧
      N.sideToMove = (if pos.sideToMove = Color.white then Color.black else Color.white) ∧
      N.fullmoveNumber =
        (if pos.sideToMove = Color.white then pos.fullmoveNumber else pos.fullmoveNumber + 1) ∧
      (∃ st : PositionState, N.stateHistory = st :: pos.stateHistory ∧
        st.castlingRights = pos.castlingRights ∧
        st.enPassantSquare = pos.enPassantSquare ∧
        st.halfmoveClock = pos.halfmoveClock ∧
        st.capturedPiece = -1 ∧
        st.zobristHash = pos.zobristHash) ∧
      (∃ hh : Nat, N.positionHistory = hh :: pos.positionHistory) := by
  have hne1 : ¬ ((Int.ofNat mp) = -1) := by
    intro hcon
    have h0 : (0 : Int) ≤ Int.ofNat mp := Int.ofNat_nonneg mp
    rw [hcon] at h0
    omega
  unfold makeMove
  simp only [hmp, if_neg hne1, hCap, hEp, hProm, hKC, hQC, hDP,
    Bool.false_eq_true, false_and, if_false, or_self, if_true, ite_true,
    show (Int.ofNat mp).toNat = mp from rfl]
  by_cases hsw : pos.sideToMove = Color.white
  · have hmpv : mp = 0 := by
      rw [hmp0, if_pos hsw]
    have hppv2 : pp = 1 + getPromotionPiece move := by
      rw [hppv, if_pos hsw]
    subst hmpv
    subst hppv2
    simp only [hsw, if_true, ite_true, eq_self_iff_true, or_true, true_or, or_false,
      decide_True, Bool.not_true, Bool.false_eq_true, if_false, ite_false, if_pos rfl]
    split
    · exact ⟨_, Or.inr rfl, rfl, rfl, rfl,
        ⟨_, rfl, rfl, rfl, rfl, rfl, rfl⟩, ⟨_, rfl⟩⟩
    · exact ⟨_, Or.inl rfl, rfl, rfl, rfl,
        ⟨_, rfl, rfl, rfl, rfl, rfl, rfl⟩, ⟨_, rfl⟩⟩
  · have hmpv : mp = 6 := by
      rw [hmp0, if_neg hsw]
    have hppv2 : pp = 7 + getPromotionPiece move := by
      rw [hppv, if_neg hsw]
    subst hmpv
    subst hppv2
    simp only [hsw, if_false, ite_false, eq_self_iff_true, or_true, true_or, or_false,
      decide_False, Bool.not_false, Bool.false_eq_true, if_true, ite_true,
      show ((6 : Nat) = 0 ∨ (6 : Nat) = 6) ∨ False from Or.inl (Or.inr rfl), if_pos]
    split
    · exact ⟨_, Or.inr rfl, rfl, rfl, rfl,
        ⟨_, rfl, rfl, rfl, rfl, rfl, rfl⟩, ⟨_, rfl⟩⟩
    · exact ⟨_, Or.inl rfl, rfl, rfl, rfl,
        ⟨_, rfl, rfl, rfl, rfl, rfl, rfl⟩, ⟨_, rfl⟩⟩

/-- Make-then-unmake analysis for non-capturing promotions (flags 8-11). -/
theorem makeUnmake_promo (pos : Position) (move : Nat) (mp : Nat)
    (hwf : wfPosition pos)
    (hfl : getMoveFlags move = 8 ∨ getMoveFlags move = 9 ∨
      getMoveFlags move = 10 ∨ getMoveFlags move = 11)
    (hmp : pieceAt pos (getFromSquare move) = Int.ofNat mp)
    (hmp0 : mp = (if pos.sideToMove = Color.white then 0 else 6))
    (hto : pieceAt pos (getToSquare move) = -1) :
    ((makeMove pos move).1 = true → unmakeMove (makeMove pos move).2 move = pos) ∧
    ((makeMove pos move).1 = false → (makeMove pos move).2 = pos) := by
  obtain ⟨hlen, hdisj, hw, hbp, hap⟩ := hwf
  obtain ⟨hmp12, hbitf⟩ := pieceAt_inv hmp
  have htall := pieceAt_neg_inv hto
  have hProm : isPromotion move = true := by
    rcases hfl with h | h | h | h <;> (simp only [isPromotion, h]; decide)
  have hCap : isCapture move = false := by
    rcases hfl with h | h | h | h <;> (simp only [isCapture, h]; decide)
  have hEp : isEnPassant move = false := by
    rcases hfl with h | h | h | h <;> (simp only [isEnPassant, h]; decide)
  have hKC : isKingsideCastle move = false := by
    rcases hfl with h | h | h | h <;> (simp only [isKingsideCastle, h]; decide)
  have hQC : isQueensideCastle move = false := by
    rcases hfl with h | h | h | h <;> (simp only [isQueensideCastle, h]; decide)
  have hDP : isDoublePawnPush move = false := by
    rcases hfl with h | h | h | h <;> (simp only [isDoublePawnPush, h]; decide)
  have hgp : getPromotionPiece move ≤ 3 := Nat.and_le_right
  set pp := (if pos.sideToMove = Color.white then 1 else 7) + getPromotionPiece move with hppv
  have hpp12 : pp < 12 := by
    rw [hppv]
    by_cases hsw : pos.sideToMove = Color.white
    · rw [if_pos hsw]
      omega
    · rw [if_neg hsw]
      omega
  have hppmp : pp ≠ mp := by
    rw [hppv, hmp0]
    by_cases hsw : pos.sideToMove = Color.white
    · rw [if_pos hsw, if_pos hsw]
      omega
    · rw [if_neg hsw, if_neg hsw]
      omega
  obtain ⟨N, hor, hbb, hstm, hfull2, ⟨st, hsh, hcr, hep2, hhm, hcap, hz⟩, ⟨hh, hph⟩⟩ :=
    make_shape_promo pos move mp pp hProm hCap hEp hKC hQC hDP hmp hmp0 hppv
  have key : unmakeMove N move = pos :=
    unmake_restores_promo pos move mp pp st N hh hlen hw hbp hap hmp12 hpp12 hppmp hmp0
      hbitf htall hProm hKC hQC hcr hep2 hhm hcap hz hbb hstm hfull2 hsh hph
  rcases hor with h | h
  · rw [h]
    constructor
    · intro _
      exact key
    · intro hcon
      simp at hcon
  · rw [h]
    constructor
    · intro hcon
      simp at hcon
    · intro _
      exact key

/-- Core restoration fact for capturing promotions (flags 12-15). -/
theorem unmake_restores_promoCapture (pos : Position) (move : Nat) (mp pp cap : Nat)
    (state : PositionState) (N : Position) (hh : Nat)
    (hlen : pos.bitboards.length = 12)
    (hw : pos.whitePieces = bbAt pos 0 ||| bbAt pos 1 ||| bbAt pos 2 ||| bbAt pos 3 |||
      bbAt pos 4 ||| bbAt pos 5)
    (hbp : pos.blackPieces = bbAt pos 6 ||| bbAt pos 7 ||| bbAt pos 8 ||| bbAt pos 9 |||
      bbAt pos 10 ||| bbAt pos 11)
    (hap : pos.allPieces = pos.whitePieces ||| pos.blackPieces)
    (hmp12 : mp < 12) (hpp12 : pp < 12) (hcap12 : cap < 12)
    (hppmp : pp ≠ mp) (hcapne : cap ≠ mp) (hcappp : cap ≠ pp)
    (hmp0 : mp = (if pos.sideToMove = Color.white then 0 else 6))
    (hbitf : Nat.testBit (bbAt pos mp) (getFromSquare move) = true)
    (hbitcap : Nat.testBit (bbAt pos cap) (getToSquare move) = true)
    (htallex : ∀ q, q < 12 → q ≠ cap → Nat.testBit (bbAt pos q) (getToSquare move) = false)
    (hprom : isPromotion move = true)
    (hne : isEnPassant move = false)
    (hnk : isKingsideCastle move = false)
    (hnq : isQueensideCastle move = false)
    (hscr : state.castlingRights = pos.castlingRights)
    (hsep : state.enPassantSquare = pos.enPassantSquare)
    (hshm : state.halfmoveClock = pos.halfmoveClock)
    (hscap : state.capturedPiece = Int.ofNat cap)
    (hsz : state.zobristHash = pos.zobristHash)
    (hNbb : N.bitboards = ((pos.bitboards.set cap
        (clearBit (bbAt pos cap) (getToSquare move))).set mp
        (clearBit ((pos.bitboards.set cap
          (clearBit (bbAt pos cap) (getToSquare move))).getD mp 0) (getFromSquare move))).set pp
      (setBit (((pos.bitboards.set cap
          (clearBit (bbAt pos cap) (getToSquare move))).set mp
          (clearBit ((pos.bitboards.set cap
            (clearBit (bbAt pos cap) (getToSquare move))).getD mp 0)
            (getFromSquare move))).getD pp 0) (getToSquare move)))
    (hNstm : N.sideToMove = (if pos.sideToMove = Color.white then Color.black else Color.white))
    (hNfull : N.fullmoveNumber =
      (if pos.sideToMove = Color.white then pos.fullmoveNumber else pos.fullmoveNumber + 1))
    (hNsh : N.stateHistory = state :: pos.stateHistory)
    (hNph : N.positionHistory = hh :: pos.positionHistory) :
    unmakeMove N move = pos := by
  have hgd1 : (pos.bitboards.set cap
      (clearBit (bbAt pos cap) (getToSquare move))).getD mp 0 = bbAt pos mp :=
    getD_set_other _ hcapne
  rw [hgd1] at hNbb
  have hgd2 : ((pos.bitboards.set cap
      (clearBit (bbAt pos cap) (getToSquare move))).set mp
      (clearBit (bbAt pos mp) (getFromSquare move))).getD pp 0 = bbAt pos pp := by
    rw [getD_set_other _ (fun he => hppmp he.symm), getD_set_other _ hcappp,
      bbAt]
  rw [hgd2] at hNbb
  unfold unmakeMove
  rw [hNsh]
  simp only []
  have hbbNpp : bbAt N pp = setBit (bbAt pos pp) (getToSquare move) := by
    rw [bbAt, hNbb, getD_set_self _ (by simp only [List.length_set, hlen]; omega)]
  have hbbNmp : bbAt N mp = clearBit (bbAt pos mp) (getFromSquare move) := by
    rw [bbAt, hNbb, getD_set_other _ hppmp,
      getD_set_self _ (by simp only [List.length_set, hlen]; omega)]
  have hbbNcap : bbAt N cap = clearBit (bbAt pos cap) (getToSquare move) := by
    rw [bbAt, hNbb, getD_set_other _ (fun he => hcappp he.symm),
      getD_set_other _ (fun he => hcapne he.symm),
      getD_set_self _ (by simp only [List.length_set, hlen]; omega)]
  have hbbNq : ∀ q, q ≠ mp → q ≠ pp → q ≠ cap → bbAt N q = bbAt pos q := by
    intro q hq hq2 hq3
    rw [bbAt, hNbb, getD_set_other _ (fun he => hq2 he.symm),
      getD_set_other _ (fun he => hq he.symm),
      getD_set_other _ (fun he => hq3 he.symm), bbAt]
  have hpieceAtTo : pieceAt { N with stateHistory := pos.stateHistory, positionHistory := N.positionHistory.tail } (getToSquare move) = Int.ofNat pp := by
    apply pieceAt_eq_of hpp12
    · show Nat.testBit (bbAt N pp) (getToSquare move) = true
      rw [hbbNpp, testBit_setBit]
      simp
    · intro q hq hqpp
      show Nat.testBit (bbAt N q) (getToSquare move) = false
      rcases eq_or_ne q mp with rfl | hqmp
      · rw [hbbNmp, testBit_clearBit,
          htallex q hq (fun he => hcapne he.symm)]
        simp
      · rcases eq_or_ne q cap with rfl | hqcap
        · rw [hbbNcap, testBit_clearBit]
          simp
        · rw [hbbNq q hqmp hqpp hqcap]
          exact htallex q hq hqcap
  rw [hpieceAtTo]
  rw [hprom, hnk, hnq, hscap, hne]
  simp only [Bool.false_eq_true, if_false, ite_false, if_true, ite_true,
    ne_eq, not_true_eq_false,
    show (Int.ofNat pp).toNat = pp from rfl,
    show (Int.ofNat cap).toNat = cap from rfl]
  have hcapne1 : (Int.ofNat cap ≠ (-1 : Int)) := by
    intro hcon
    have h0 : (0 : Int) ≤ Int.ofNat cap := Int.ofNat_nonneg cap
    rw [hcon] at h0
    omega
  rw [if_pos hcapne1]
  unfold removePiece addPiece updateAggregateBitboards
  simp only [bbAt]
  have hbb2 : (N.bitboards.set pp
      (clearBit (N.bitboards.getD pp 0) (getToSquare move))) =
      (pos.bitboards.set cap (clearBit (bbAt pos cap) (getToSquare move))).set mp
        (clearBit (bbAt pos mp) (getFromSquare move)) := by
    have hv : N.bitboards.getD pp 0 = bbAt N pp := rfl
    rw [hv, hbbNpp, hNbb, List.set_set,
      clearBit_setBit_self (htallex pp hpp12 (fun he => hcappp he.symm))]
    apply List.ext_getElem
    · simp
    · intro i h1 h2
      rcases eq_or_ne pp i with rfl | hne2
      · rw [List.getElem_set_self, List.getElem_set_ne (fun he => hppmp he.symm),
          List.getElem_set_ne hcappp]
        rw [bbAt, List.getD_eq_getElem?_getD, List.getElem?_eq_getElem (by simpa using h2)]
        rfl
      · rw [List.getElem_set_ne hne2]
  rw [hbb2]
  by_cases hstm0 : pos.sideToMove = Color.white
  · rw [hNstm, if_pos hstm0]
    have hmpv : mp = 0 := by
      rw [hmp0, if_pos hstm0]
    subst hmpv
    simp only [reduceCtorEq, if_false, ite_false, if_true, ite_true]
    have hbb3 : (((pos.bitboards.set cap
        (clearBit (bbAt pos cap) (getToSquare move))).set 0
          (clearBit (bbAt pos 0) (getFromSquare move))).set 0
        (setBit (((pos.bitboards.set cap
          (clearBit (bbAt pos cap) (getToSquare move))).set 0
            (clearBit (bbAt pos 0) (getFromSquare move))).getD 0 0) (getFromSquare move))) =
        pos.bitboards.set cap (clearBit (bbAt pos cap) (getToSquare move)) := by
      rw [getD_set_self _ (by simp only [List.length_set, hlen]; omega), List.set_set,
        setBit_clearBit_self hbitf]
      have hval : bbAt pos 0 = (pos.bitboards.set cap
          (clearBit (bbAt pos cap) (getToSquare move))).getD 0 0 :=
        (getD_set_other _ hcapne).symm
      rw [hval]
      exact set_getD_self (by simp only [List.length_set, hlen]; omega)
    rw [hbb3]
    have hbb4 : ((pos.bitboards.set cap (clearBit (bbAt pos cap) (getToSquare move))).set cap
        (setBit ((pos.bitboards.set cap
          (clearBit (bbAt pos cap) (getToSquare move))).getD cap 0) (getToSquare move))) =
        pos.bitboards := by
      rw [getD_set_self _ (by simp only [List.length_set, hlen]; omega), List.set_set,
        setBit_clearBit_self hbitcap]
      exact set_getD_self (by simp only [List.length_set, hlen]; omega)
    rw [hbb4]
    rcases pos with ⟨bbs, wp, bp, ap, stm, cr, ep, hm, fm, zh, sh, ph⟩
    simp only [] at *
    subst hstm0
    rw [hNph]
    simp only [List.tail_cons]
    rw [hscr, hsep, hshm, hsz, hNfull]
    simp only [bbAt] at hw hbp hap
    rw [← hw, ← hbp, ← hap]
    simp
  · rw [hNstm, if_neg hstm0]
    have hmpv : mp = 6 := by
      rw [hmp0, if_neg hstm0]
    subst hmpv
    simp only [reduceCtorEq, if_false, ite_false, if_true, ite_true]
    have hbb3 : (((pos.bitboards.set cap
        (clearBit (bbAt pos cap) (getToSquare move))).set 6
          (clearBit (bbAt pos 6) (getFromSquare move))).set 6
        (setBit (((pos.bitboards.set cap
          (clearBit (bbAt pos cap) (getToSquare move))).set 6
            (clearBit (bbAt pos 6) (getFromSquare move))).getD 6 0) (getFromSquare move))) =
        pos.bitboards.set cap (clearBit (bbAt pos cap) (getToSquare move)) := by
      rw [getD_set_self _ (by simp only [List.length_set, hlen]; omega), List.set_set,
        setBit_clearBit_self hbitf]
      have hval : bbAt pos 6 = (pos.bitboards.set cap
          (clearBit (bbAt pos cap) (getToSquare move))).getD 6 0 :=
        (getD_set_other _ hcapne).symm
      rw [hval]
      exact set_getD_self (by simp only [List.length_set, hlen]; omega)
    rw [hbb3]
    have hbb4 : ((pos.bitboards.set cap (clearBit (bbAt pos cap) (getToSquare move))).set cap
        (setBit ((pos.bitboards.set cap
          (clearBit (bbAt pos cap) (getToSquare move))).getD cap 0) (getToSquare move))) =
        pos.bitboards := by
      rw [getD_set_self _ (by simp only [List.length_set, hlen]; omega), List.set_set,
        setBit_clearBit_self hbitcap]
      exact set_getD_self (by simp only [List.length_set, hlen]; omega)
    rw [hbb4]
    have hstmb : pos.sideToMove = Color.black := by
      cases hstm : pos.sideToMove
      · exact absurd hstm hstm0
      · rfl
    rcases pos with ⟨bbs, wp, bp, ap, stm, cr, ep, hm, fm, zh, sh, ph⟩
    simp only [] at *
    subst hstmb
    rw [hNph]
    simp only [List.tail_cons]
    rw [hscr, hsep, hshm, hsz, hNfull]
    simp only [bbAt] at hw hbp hap
    rw [← hw, ← hbp, ← hap]
    simp

/-- Shape of the `makeMove` result on a capturing promotion. -/
theorem make_shape_promoCapture (pos : Position) (move : Nat) (mp pp cap : Nat)
    (hProm : isPromotion move = true) (hCap : isCapture move = true)
    (hEp : isEnPassant move = false) (hKC : isKingsideCastle move = false)
    (hQC : isQueensideCastle move = false) (hDP : isDoublePawnPush move = false)
    (hmp : pieceAt pos (getFromSquare move) = Int.ofNat mp)
    (hcap2 : pieceAt pos (getToSquare move) = Int.ofNat cap)
    (hmp0 : mp = (if pos.sideToMove = Color.white then 0 else 6))
    (hppv : pp = (if pos.sideToMove = Color.white then 1 else 7) + getPromotionPiece move) :
    ∃ N : Position,
      (makeMove pos move = (true, N) ∨ makeMove pos move = (false, unmakeMove N move)) ∧
      N.bitboards = ((pos.bitboards.set cap
          (clearBit (bbAt pos cap) (getToSquare move))).set mp
          (clearBit ((pos.bitboards.set cap
            (clearBit (bbAt pos cap) (getToSquare move))).getD mp 0) (getFromSquare move))).set pp
        (setBit (((pos.bitboards.set cap
            (clearBit (bbAt pos cap) (getToSquare move))).set mp
            (clearBit ((pos.bitboards.set cap
              (clearBit (bbAt pos cap) (getToSquare move))).getD mp 0)
              (getFromSquare move))).getD pp 0) (getToSquare move)) ∧
      N.sideToMove = (if pos.sideToMove = Color.white then Color.black else Color.white) ∧
      N.fullmoveNumber =
        (if pos.sideToMove = Color.white then pos.fullmoveNumber else pos.fullmoveNumber + 1) ∧
      (∃ st : PositionState, N.stateHistory = st :: pos.stateHistory ∧
        st.castlingRights = pos.castlingRights ∧
        st.enPassantSquare = pos.enPassantSquare ∧
        st.halfmoveClock = pos.halfmoveClock ∧
        st.capturedPiece = Int.ofNat cap ∧
        st.zobristHash = pos.zobristHash) ∧
      (∃ hh : Nat, N.positionHistory = hh :: pos.positionHistory) := by
  have hne1 : ¬ ((Int.ofNat mp) = -1) := by
    intro hcon
    have h0 : (0 : Int) ≤ Int.ofNat mp := Int.ofNat_nonneg mp
    rw [hcon] at h0
    omega
  have hnecap : ((Int.ofNat cap) ≠ -1) := by
    intro hcon
    have h0 : (0 : Int) ≤ Int.ofNat cap := Int.ofNat_nonneg cap
    rw [hcon] at h0
    omega
  unfold makeMove
  simp only [hmp, if_neg hne1, hCap, hEp, hProm, hKC, hQC, hDP, hcap2, if_pos hnecap,
    Bool.false_eq_true, false_and, if_false, or_self, if_true, ite_true,
    true_and, not_false_eq_true, and_true, and_self,
    show (Int.ofNat mp).toNat = mp from rfl,
    show (Int.ofNat cap).toNat = cap from rfl]
  by_cases hsw : pos.sideToMove = Color.white
  · have hmpv : mp = 0 := by
      rw [hmp0, if_pos hsw]
    have hppv2 : pp = 1 + getPromotionPiece move := by
      rw [hppv, if_pos hsw]
    subst hmpv
    subst hppv2
    simp only [hsw, if_true, ite_true, eq_self_iff_true, or_true, true_or, or_false,
      decide_True, Bool.not_true, Bool.false_eq_true, if_false, ite_false, if_pos rfl]
    split
    · exact ⟨_, Or.inr rfl, rfl, rfl, rfl,
        ⟨_, rfl, rfl, rfl, rfl, rfl, rfl⟩, ⟨_, rfl⟩⟩
    · exact ⟨_, Or.inl rfl, rfl, rfl, rfl,
        ⟨_, rfl, rfl, rfl, rfl, rfl, rfl⟩, ⟨_, rfl⟩⟩
  · have hmpv : mp = 6 := by
      rw [hmp0, if_neg hsw]
    have hppv2 : pp = 7 + getPromotionPiece move := by
      rw [hppv, if_neg hsw]
    subst hmpv
    subst hppv2
    simp only [hsw, if_false, ite_false, eq_self_iff_true, or_true, true_or, or_false,
      decide_False, Bool.not_false, Bool.false_eq_true, if_true, ite_true]
    split
    · exact ⟨_, Or.inr rfl, rfl, rfl, rfl,
        ⟨_, rfl, rfl, rfl, rfl, rfl, rfl⟩, ⟨_, rfl⟩⟩
    · exact ⟨_, Or.inl rfl, rfl, rfl, rfl,
        ⟨_, rfl, rfl, rfl, rfl, rfl, rfl⟩, ⟨_, rfl⟩⟩

/-- Make-then-unmake analysis for capturing promotions (flags 12-15). -/
theorem makeUnmake_promoCapture (pos : Position) (move : Nat) (mp cap : Nat)
    (hwf : wfPosition pos)
    (hfl : getMoveFlags move = 12 ∨ getMoveFlags move = 13 ∨
      getMoveFlags move = 14 ∨ getMoveFlags move = 15)
    (hmp : pieceAt pos (getFromSquare move) = Int.ofNat mp)
    (hmp0 : mp = (if pos.sideToMove = Color.white then 0 else 6))
    (hcap2 : pieceAt pos (getToSquare move) = Int.ofNat cap)
    (hcapne : cap ≠ mp)
    (hcaprange : (if pos.sideToMove = Color.white then 6 ≤ cap ∧ cap < 12 else cap < 6)) :
    ((makeMove pos move).1 = true → unmakeMove (makeMove pos move).2 move = pos) ∧
    ((makeMove pos move).1 = false → (makeMove pos move).2 = pos) := by
  obtain ⟨hlen, hdisj, hw, hbp, hap⟩ := hwf
  obtain ⟨hmp12, hbitf⟩ := pieceAt_inv hmp
  obtain ⟨hcap12, hbitcap⟩ := pieceAt_inv hcap2
  have htallex : ∀ q, q < 12 → q ≠ cap →
      Nat.testBit (bbAt pos q) (getToSquare move) = false := by
    intro q hq hqcap
    exact disjoint_testBit (hdisj cap hcap12 q hq (fun he => hqcap he.symm)) hbitcap
  have hProm : isPromotion move = true := by
    rcases hfl with h | h | h | h <;> (simp only [isPromotion, h]; decide)
  have hCap : isCapture move = true := by
    rcases hfl with h | h | h | h <;> (simp only [isCapture, h]; decide)
  have hEp : isEnPassant move = false := by
    rcases hfl with h | h | h | h <;> (simp only [isEnPassant, h]; decide)
  have hKC : isKingsideCastle move = false := by
    rcases hfl with h | h | h | h <;> (simp only [isKingsideCastle, h]; decide)
  have hQC : isQueensideCastle move = false := by
    rcases hfl with h | h | h | h <;> (simp only [isQueensideCastle, h]; decide)
  have hDP : isDoublePawnPush move = false := by
    rcases hfl with h | h | h | h <;> (simp only [isDoublePawnPush, h]; decide)
  have hgp : getPromotionPiece move ≤ 3 := Nat.and_le_right
  set pp := (if pos.sideToMove = Color.white then 1 else 7) + getPromotionPiece move with hppv
  have hpp12 : pp < 12 := by
    rw [hppv]
    by_cases hsw : pos.sideToMove = Color.white
    · rw [if_pos hsw]
      omega
    · rw [if_neg hsw]
      omega
  have hppmp : pp ≠ mp := by
    rw [hppv, hmp0]
    by_cases hsw : pos.sideToMove = Color.white
    · rw [if_pos hsw, if_pos hsw]
      omega
    · rw [if_neg hsw, if_neg hsw]
      omega
  have hcappp : cap ≠ pp := by
    rw [hppv]
    by_cases hsw : pos.sideToMove = Color.white
    · rw [if_pos hsw]
      rw [if_pos hsw] at hcaprange
      omega
    · rw [if_neg hsw]
      rw [if_neg hsw] at hcaprange
      omega
  obtain ⟨N, hor, hbb, hstm, hfull2, ⟨st, hsh, hcr, hep2, hhm, hcap, hz⟩, ⟨hh, hph⟩⟩ :=
    make_shape_promoCapture pos move mp pp cap hProm hCap hEp hKC hQC hDP hmp hcap2 hmp0 hppv
  have key : unmakeMove N move = pos :=
    unmake_restores_promoCapture pos move mp pp cap st N hh hlen hw hbp hap
      hmp12 hpp12 hcap12 hppmp hcapne hcappp hmp0 hbitf hbitcap htallex
      hProm hEp hKC hQC hcr hep2 hhm hcap hz hbb hstm hfull2 hsh hph
  rcases hor with h | h
  · rw [h]
    constructor
    · intro _
      exact key
    · intro hcon
      simp at hcon
  · rw [h]
    constructor
    · intro hcon
      simp at hcon
    · intro _
      exact key

/-- Core restoration fact for en-passant captures (flag 5). -/
theorem unmake_restores_ep (pos : Position) (move : Nat) (mp cp : Nat)
    (state : PositionState) (N : Position) (hh : Nat)
    (hlen : pos.bitboards.length = 12)
    (hw : pos.whitePieces = bbAt pos 0 ||| bbAt pos 1 ||| bbAt pos 2 ||| bbAt pos 3 |||
      bbAt pos 4 ||| bbAt pos 5)
    (hbp : pos.blackPieces = bbAt pos 6 ||| bbAt pos 7 ||| bbAt pos 8 ||| bbAt pos 9 |||
      bbAt pos 10 ||| bbAt pos 11)
    (hap : pos.allPieces = pos.whitePieces ||| pos.blackPieces)
    (hmp12 : mp < 12) (hcp12 : cp < 12) (hcpne : cp ≠ mp)
    (hcp0 : cp = (if pos.sideToMove = Color.white then 6 else 0))
    (hbitf : Nat.testBit (bbAt pos mp) (getFromSquare move) = true)
    (hbitcs : Nat.testBit (bbAt pos cp)
      (if pos.sideToMove = Color.white then getToSquare move - 8 else getToSquare move + 8) = true)
    (htall : ∀ q, q < 12 → Nat.testBit (bbAt pos q) (getToSquare move) = false)
    (hft : getFromSquare move ≠ getToSquare move)
    (hprom : isPromotion move = false)
    (hep : isEnPassant move = true)
    (hnk : isKingsideCastle move = false)
    (hnq : isQueensideCastle move = false)
    (hscr : state.castlingRights = pos.castlingRights)
    (hsep : state.enPassantSquare = pos.enPassantSquare)
    (hshm : state.halfmoveClock = pos.halfmoveClock)
    (hscap : state.capturedPiece = Int.ofNat cp)
    (hsz : state.zobristHash = pos.zobristHash)
    (hNbb : N.bitboards = (pos.bitboards.set cp
        (clearBit (bbAt pos cp)
          (if pos.sideToMove = Color.white then getToSquare move - 8
            else getToSquare move + 8))).set mp
      (setBit (clearBit ((pos.bitboards.set cp
          (clearBit (bbAt pos cp)
            (if pos.sideToMove = Color.white then getToSquare move - 8
              else getToSquare move + 8))).getD mp 0) (getFromSquare move))
        (getToSquare move)))
    (hNstm : N.sideToMove = (if pos.sideToMove = Color.white then Color.black else Color.white))
    (hNfull : N.fullmoveNumber =
      (if pos.sideToMove = Color.white then pos.fullmoveNumber else pos.fullmoveNumber + 1))
    (hNsh : N.stateHistory = state :: pos.stateHistory)
    (hNph : N.positionHistory = hh :: pos.positionHistory) :
    unmakeMove N move = pos := by
  have hgd1 : (pos.bitboards.set cp
      (clearBit (bbAt pos cp)
        (if pos.sideToMove = Color.white then getToSquare move - 8
          else getToSquare move + 8))).getD mp 0 = bbAt pos mp :=
    getD_set_other _ hcpne
  rw [hgd1] at hNbb
  unfold unmakeMove
  rw [hNsh]
  simp only []
  have hbbNmp : bbAt N mp =
      setBit (clearBit (bbAt pos mp) (getFromSquare move)) (getToSquare move) := by
    rw [bbAt, hNbb, getD_set_self _ (by simp only [List.length_set, hlen]; omega)]
  have hbbNcp : bbAt N cp = clearBit (bbAt pos cp)
      (if pos.sideToMove = Color.white then getToSquare move - 8
        else getToSquare move + 8) := by
    rw [bbAt, hNbb, getD_set_other _ (fun he => hcpne he.symm),
      getD_set_self _ (by simp only [List.length_set, hlen]; omega)]
  have hbbNq : ∀ q, q ≠ mp → q ≠ cp → bbAt N q = bbAt pos q := by
    intro q hq hq2
    rw [bbAt, hNbb, getD_set_other _ (fun he => hq he.symm),
      getD_set_other _ (fun he => hq2 he.symm), bbAt]
  have hpieceAtTo : pieceAt { N with stateHistory := pos.stateHistory, positionHistory := N.positionHistory.tail } (getToSquare move) = Int.ofNat mp := by
    apply pieceAt_eq_of hmp12
    · show Nat.testBit (bbAt N mp) (getToSquare move) = true
      rw [hbbNmp, testBit_setBit]
      simp
    · intro q hq hqmp
      show Nat.testBit (bbAt N q) (getToSquare move) = false
      rcases eq_or_ne q cp with rfl | hqcp
      · rw [hbbNcp, testBit_clearBit, htall q hq]
        simp
      · rw [hbbNq q hqmp hqcp]
        exact htall q hq
  rw [hpieceAtTo]
  rw [hprom, hnk, hnq, hscap, hep]
  simp only [Bool.false_eq_true, if_false, ite_false, if_true, ite_true,
    ne_eq, not_true_eq_false,
    show (Int.ofNat mp).toNat = mp from rfl,
    show (Int.ofNat cp).toNat = cp from rfl]
  have hcpne1 : (Int.ofNat cp ≠ (-1 : Int)) := by
    intro hcon
    have h0 : (0 : Int) ≤ Int.ofNat cp := Int.ofNat_nonneg cp
    rw [hcon] at h0
    omega
  rw [if_pos hcpne1]
  unfold movePiece addPiece updateAggregateBitboards
  simp only [bbAt]
  have hbb2 : (N.bitboards.set mp
      (setBit (clearBit (N.bitboards.getD mp 0) (getToSquare move)) (getFromSquare move))) =
      (pos.bitboards.set cp
        (clearBit (bbAt pos cp)
          (if pos.sideToMove = Color.white then getToSquare move - 8
            else getToSquare move + 8))) := by
    have hv : N.bitboards.getD mp 0 = bbAt N mp := rfl
    rw [hv, hbbNmp, hNbb, List.set_set]
    have hclr : clearBit (setBit (clearBit (bbAt pos mp) (getFromSquare move))
        (getToSquare move)) (getToSquare move) =
        clearBit (bbAt pos mp) (getFromSquare move) := by
      apply clearBit_setBit_self
      rw [testBit_clearBit, htall mp hmp12]
      simp
    rw [hclr, setBit_clearBit_self hbitf]
    apply List.ext_getElem
    · simp
    · intro i h1 h2
      rcases eq_or_ne mp i with rfl | hne2
      · rw [List.getElem_set_self, List.getElem_set_ne (fun he => hcpne he)]
        rw [bbAt, List.getD_eq_getElem?_getD, List.getElem?_eq_getElem (by simpa using h2)]
        rfl
      · rw [List.getElem_set_ne hne2]
  rw [hbb2]
  by_cases hstm0 : pos.sideToMove = Color.white
  · rw [hNstm, if_pos hstm0]
    rw [if_pos hstm0] at hbitcs
    simp only [reduceCtorEq, if_false, ite_false, if_true, ite_true, hstm0]
    have hbb3 : ((pos.bitboards.set cp
        (clearBit (bbAt pos cp) (getToSquare move - 8))).set cp
        (setBit ((pos.bitboards.set cp
          (clearBit (bbAt pos cp) (getToSquare move - 8))).getD cp 0)
          (getToSquare move - 8))) = pos.bitboards := by
      rw [getD_set_self _ (by simp only [List.length_set, hlen]; omega), List.set_set,
        setBit_clearBit_self hbitcs]
      exact set_getD_self (by simp only [List.length_set, hlen]; omega)
    rw [hbb3]
    rcases pos with ⟨bbs, wp, bp, ap, stm, cr, ep, hm, fm, zh, sh, ph⟩
    simp only [] at *
    subst hstm0
    rw [hNph]
    simp only [List.tail_cons]
    rw [hscr, hsep, hshm, hsz, hNfull]
    simp only [bbAt] at hw hbp hap
    rw [← hw, ← hbp, ← hap]
    simp
  · rw [hNstm, if_neg hstm0]
    rw [if_neg hstm0] at hbitcs
    simp only [reduceCtorEq, if_false, ite_false, if_true, ite_true, if_neg hstm0]
    have hbb3 : ((pos.bitboards.set cp
        (clearBit (bbAt pos cp) (getToSquare move + 8))).set cp
        (setBit ((pos.bitboards.set cp
          (clearBit (bbAt pos cp) (getToSquare move + 8))).getD cp 0)
          (getToSquare move + 8))) = pos.bitboards := by
      rw [getD_set_self _ (by simp only [List.length_set, hlen]; omega), List.set_set,
        setBit_clearBit_self hbitcs]
      exact set_getD_self (by simp only [List.length_set, hlen]; omega)
    rw [hbb3]
    have hstmb : pos.sideToMove = Color.black := by
      cases hstm : pos.sideToMove
      · exact absurd hstm hstm0
      · rfl
    rcases pos with ⟨bbs, wp, bp, ap, stm, cr, ep, hm, fm, zh, sh, ph⟩
    simp only [] at *
    subst hstmb
    rw [hNph]
    simp only [List.tail_cons]
    rw [hscr, hsep, hshm, hsz, hNfull]
    simp only [bbAt] at hw hbp hap
    rw [← hw, ← hbp, ← hap]
    simp

/-- Shape of the `makeMove` result on an en-passant capture (flag 5). -/
theorem make_shape_ep (pos : Position) (move : Nat) (mp cp : Nat)
    (hmp : pieceAt pos (getFromSquare move) = Int.ofNat mp)
    (hfl : getMoveFlags move = 5)
    (hcp0 : cp = (if pos.sideToMove = Color.white then 6 else 0)) :
    ∃ N : Position,
      (makeMove pos move = (true, N) ∨ makeMove pos move = (false, unmakeMove N move)) ∧
      N.bitboards = (pos.bitboards.set cp
          (clearBit (bbAt pos cp)
            (if pos.sideToMove = Color.white then getToSquare move - 8
              else getToSquare move + 8))).set mp
        (setBit (clearBit ((pos.bitboards.set cp
            (clearBit (bbAt pos cp)
              (if pos.sideToMove = Color.white then getToSquare move - 8
                else getToSquare move + 8))).getD mp 0) (getFromSquare move))
          (getToSquare move)) ∧
      N.sideToMove = (if pos.sideToMove = Color.white then Color.black else Color.white) ∧
      N.fullmoveNumber =
        (if pos.sideToMove = Color.white then pos.fullmoveNumber else pos.fullmoveNumber + 1) ∧
      (∃ st : PositionState, N.stateHistory = st :: pos.stateHistory ∧
        st.castlingRights = pos.castlingRights ∧
        st.enPassantSquare = pos.enPassantSquare ∧
        st.halfmoveClock = pos.halfmoveClock ∧
        st.capturedPiece = Int.ofNat cp ∧
        st.zobristHash = pos.zobristHash) ∧
      (∃ hh : Nat, N.positionHistory = hh :: pos.positionHistory) := by
  have hCap : isCapture move = true := by
    simp only [isCapture, hfl]
    decide
  have hEp : isEnPassant move = true := by
    simp only [isEnPassant, hfl]
    decide
  have hProm : isPromotion move = false := by
    simp only [isPromotion, hfl]
    decide
  have hKC : isKingsideCastle move = false := by
    simp only [isKingsideCastle, hfl]
    decide
  have hQC : isQueensideCastle move = false := by
    simp only [isQueensideCastle, hfl]
    decide
  have hDP : isDoublePawnPush move = false := by
    simp only [isDoublePawnPush, hfl]
    decide
  have hne1 : ¬ ((Int.ofNat mp) = -1) := by
    intro hcon
    have h0 : (0 : Int) ≤ Int.ofNat mp := Int.ofNat_nonneg mp
    rw [hcon] at h0
    omega
  unfold makeMove
  simp only [hmp, if_neg hne1, hCap, hEp, hProm, hKC, hQC, hDP,
    Bool.false_eq_true, false_and, if_false, or_self, if_true, ite_true,
    eq_self_iff_true, not_true, and_false, or_true, true_and, and_true,
    show (Int.ofNat mp).toNat = mp from rfl]
  by_cases hsw : pos.sideToMove = Color.white
  · have hcpv : cp = 6 := by
      rw [hcp0, if_pos hsw]
    subst hcpv
    simp only [hsw, if_true, ite_true, eq_self_iff_true, or_true, true_or, or_false,
      decide_True, Bool.not_true, Bool.false_eq_true, if_false, ite_false]
    split
    · exact ⟨_, Or.inr rfl, rfl, rfl, rfl,
        ⟨_, rfl, rfl, rfl, rfl, rfl, rfl⟩, ⟨_, rfl⟩⟩
    · exact ⟨_, Or.inl rfl, rfl, rfl, rfl,
        ⟨_, rfl, rfl, rfl, rfl, rfl, rfl⟩, ⟨_, rfl⟩⟩
  · have hcpv : cp = 0 := by
      rw [hcp0, if_neg hsw]
    subst hcpv
    simp only [hsw, if_false, ite_false, eq_self_iff_true, or_true, true_or, or_false,
      decide_False, Bool.not_false, Bool.false_eq_true, if_true, ite_true]
    split
    · exact ⟨_, Or.inr rfl, rfl, rfl, rfl,
        ⟨_, rfl, rfl, rfl, rfl, rfl, rfl⟩, ⟨_, rfl⟩⟩
    · exact ⟨_, Or.inl rfl, rfl, rfl, rfl,
        ⟨_, rfl, rfl, rfl, rfl, rfl, rfl⟩, ⟨_, rfl⟩⟩

/-- Make-then-unmake analysis for en-passant captures (flag 5). -/
theorem makeUnmake_ep (pos : Position) (move : Nat) (mp : Nat)
    (hwf : wfPosition pos)
    (hfl : getMoveFlags move = 5)
    (hmp : pieceAt pos (getFromSquare move) = Int.ofNat mp)
    (hmp0 : mp = (if pos.sideToMove = Color.white then 0 else 6))
    (hto : pieceAt pos (getToSquare move) = -1)
    (hcs : pieceAt pos (if pos.sideToMove = Color.white then getToSquare move - 8
      else getToSquare move + 8) =
      Int.ofNat (if pos.sideToMove = Color.white then 6 else 0))
    (hft : getFromSquare move ≠ getToSquare move) :
    ((makeMove pos move).1 = true → unmakeMove (makeMove pos move).2 move = pos) ∧
    ((makeMove pos move).1 = false → (makeMove pos move).2 = pos) := by
  obtain ⟨hlen, hdisj, hw, hbp, hap⟩ := hwf
  obtain ⟨hmp12, hbitf⟩ := pieceAt_inv hmp
  have htall := pieceAt_neg_inv hto
  obtain ⟨hcp12, hbitcs⟩ := pieceAt_inv hcs
  have hProm : isPromotion move = false := by
    simp only [isPromotion, hfl]
    decide
  have hEp : isEnPassant move = true := by
    simp only [isEnPassant, hfl]
    decide
  have hKC : isKingsideCastle move = false := by
    simp only [isKingsideCastle, hfl]
    decide
  have hQC : isQueensideCastle move = false := by
    simp only [isQueensideCastle, hfl]
    decide
  have hcpne : (if pos.sideToMove = Color.white then 6 else 0) ≠ mp := by
    rw [hmp0]
    by_cases hsw : pos.sideToMove = Color.white
    · rw [if_pos hsw, if_pos hsw]
      omega
    · rw [if_neg hsw, if_neg hsw]
      omega
  obtain ⟨N, hor, hbb, hstm, hfull2, ⟨st, hsh, hcr, hep2, hhm, hcap, hz⟩, ⟨hh, hph⟩⟩ :=
    make_shape_ep pos move mp (if pos.sideToMove = Color.white then 6 else 0) hmp hfl rfl
  have key : unmakeMove N move = pos :=
    unmake_restores_ep pos move mp (if pos.sideToMove = Color.white then 6 else 0) st N hh
      hlen hw hbp hap hmp12 hcp12 hcpne rfl hbitf hbitcs htall hft
      hProm hEp hKC hQC hcr hep2 hhm hcap hz hbb hstm hfull2 hsh hph
  rcases hor with h | h
  · rw [h]
    constructor
    · intro _
      exact key
    · intro hcon
      simp at hcon
  · rw [h]
    constructor
    · intro hcon
      simp at hcon
    · intro _
      exact key

/-- Core restoration fact for kingside castling (flag 2). -/
theorem unmake_restores_castleK (pos : Position) (move : Nat) (mp : Nat)
    (state : PositionState) (N : Position) (hh : Nat)
    (hlen : pos.bitboards.length = 12)
    (hw : pos.whitePieces = bbAt pos 0 ||| bbAt pos 1 ||| bbAt pos 2 ||| bbAt pos 3 |||
      bbAt pos 4 ||| bbAt pos 5)
    (hbp : pos.blackPieces = bbAt pos 6 ||| bbAt pos 7 ||| bbAt pos 8 ||| bbAt pos 9 |||
      bbAt pos 10 ||| bbAt pos 11)
    (hap : pos.allPieces = pos.whitePieces ||| pos.blackPieces)
    (hmp12 : mp < 12)
    (hrkne : (if pos.sideToMove = Color.white then 3 else 9) ≠ mp)
    (hbitf : Nat.testBit (bbAt pos mp) (getFromSquare move) = true)
    (htall : ∀ q, q < 12 → Nat.testBit (bbAt pos q) (getToSquare move) = false)
    (hbitrf : Nat.testBit (bbAt pos (if pos.sideToMove = Color.white then 3 else 9))
      (if pos.sideToMove = Color.white then 7 else 63) = true)
    (hrtall : ∀ q, q < 12 → Nat.testBit (bbAt pos q)
      (if pos.sideToMove = Color.white then 5 else 61) = false)
    (hrtt : (if pos.sideToMove = Color.white then 5 else 61) ≠ getToSquare move)
    (hprom : isPromotion move = false)
    (hkc : isKingsideCastle move = true)
    (hscr : state.castlingRights = pos.castlingRights)
    (hsep : state.enPassantSquare = pos.enPassantSquare)
    (hshm : state.halfmoveClock = pos.halfmoveClock)
    (hscap : state.capturedPiece = -1)
    (hsz : state.zobristHash = pos.zobristHash)
    (hNbb : N.bitboards = (pos.bitboards.set mp
        (setBit (clearBit (bbAt pos mp) (getFromSquare move)) (getToSquare move))).set
      (if pos.sideToMove = Color.white then 3 else 9)
      (setBit (clearBit ((pos.bitboards.set mp
          (setBit (clearBit (bbAt pos mp) (getFromSquare move)) (getToSquare move))).getD
          (if pos.sideToMove = Color.white then 3 else 9) 0)
        (if pos.sideToMove = Color.white then 7 else 63))
        (if pos.sideToMove = Color.white then 5 else 61)))
    (hNstm : N.sideToMove = (if pos.sideToMove = Color.white then Color.black else Color.white))
    (hNfull : N.fullmoveNumber =
      (if pos.sideToMove = Color.white then pos.fullmoveNumber else pos.fullmoveNumber + 1))
    (hNsh : N.stateHistory = state :: pos.stateHistory)
    (hNph : N.positionHistory = hh :: pos.positionHistory) :
    unmakeMove N move = pos := by
  have hgd1 : (pos.bitboards.set mp
      (setBit (clearBit (bbAt pos mp) (getFromSquare move)) (getToSquare move))).getD
      (if pos.sideToMove = Color.white then 3 else 9) 0 =
      bbAt pos (if pos.sideToMove = Color.white then 3 else 9) :=
    getD_set_other _ (fun he => hrkne he.symm)
  rw [hgd1] at hNbb
  unfold unmakeMove
  rw [hNsh]
  simp only []
  have hrk12 : (if pos.sideToMove = Color.white then 3 else 9) < 12 := by
    by_cases hsw : pos.sideToMove = Color.white
    · rw [if_pos hsw]
      omega
    · rw [if_neg hsw]
      omega
  have hbbNmp : bbAt N mp =
      setBit (clearBit (bbAt pos mp) (getFromSquare move)) (getToSquare move) := by
    rw [bbAt, hNbb, getD_set_other _ hrkne,
      getD_set_self _ (by simp only [List.length_set, hlen]; omega)]
  have hbbNrk : bbAt N (if pos.sideToMove = Color.white then 3 else 9) =
      setBit (clearBit (bbAt pos (if pos.sideToMove = Color.white then 3 else 9))
        (if pos.sideToMove = Color.white then 7 else 63))
        (if pos.sideToMove = Color.white then 5 else 61) := by
    rw [bbAt, hNbb, getD_set_self _ (by simp only [List.length_set, hlen]; exact hrk12)]
  have hbbNq : ∀ q, q ≠ mp → q ≠ (if pos.sideToMove = Color.white then 3 else 9) →
      bbAt N q = bbAt pos q := by
    intro q hq hq2
    rw [bbAt, hNbb, getD_set_other _ (fun he => hq2 he.symm),
      getD_set_other _ (fun he => hq he.symm), bbAt]
  have hpieceAtTo : pieceAt { N with stateHistory := pos.stateHistory, positionHistory := N.positionHistory.tail } (getToSquare move) = Int.ofNat mp := by
    apply pieceAt_eq_of hmp12
    · show Nat.testBit (bbAt N mp) (getToSquare move) = true
      rw [hbbNmp, testBit_setBit]
      simp
    · intro q hq hqmp
      show Nat.testBit (bbAt N q) (getToSquare move) = false
      rcases eq_or_ne q (if pos.sideToMove = Color.white then 3 else 9) with rfl | hqrk
      · rw [hbbNrk, testBit_setBit, testBit_clearBit, htall _ hq]
        simp only [Bool.false_and, Bool.false_or]
        exact decide_eq_false hrtt
      · rw [hbbNq q hqmp hqrk]
        exact htall q hq
  rw [hpieceAtTo]
  rw [hprom, hkc, hscap]
  simp only [Bool.false_eq_true, if_false, ite_false, if_true, ite_true,
    ne_eq, not_true_eq_false,
    show (Int.ofNat mp).toNat = mp from rfl]
  unfold movePiece updateAggregateBitboards
  simp only [bbAt]
  have hbb2 : (N.bitboards.set mp
      (setBit (clearBit (N.bitboards.getD mp 0) (getToSquare move)) (getFromSquare move))) =
      ((pos.bitboards.set mp
        (setBit (clearBit (bbAt pos mp) (getFromSquare move)) (getToSquare move))).set
        (if pos.sideToMove = Color.white then 3 else 9)
        (setBit (clearBit (bbAt pos (if pos.sideToMove = Color.white then 3 else 9))
          (if pos.sideToMove = Color.white then 7 else 63))
          (if pos.sideToMove = Color.white then 5 else 61))).set mp (bbAt pos mp) := by
    have hv : N.bitboards.getD mp 0 = bbAt N mp := rfl
    rw [hv, hbbNmp, hNbb]
    have hclr : clearBit (setBit (clearBit (bbAt pos mp) (getFromSquare move))
        (getToSquare move)) (getToSquare move) =
        clearBit (bbAt pos mp) (getFromSquare move) := by
      apply clearBit_setBit_self
      rw [testBit_clearBit, htall mp hmp12]
      simp
    rw [hclr, setBit_clearBit_self hbitf]
  rw [hbb2]
  by_cases hstm0 : pos.sideToMove = Color.white
  · rw [hNstm, if_pos hstm0]
    simp only [if_pos hstm0] at hbitrf hrtall hbb2 ⊢
    simp only [hstm0, if_true, ite_true, reduceCtorEq, if_false, ite_false]
    have hbb3 : ((((pos.bitboards.set mp
        (setBit (clearBit (bbAt pos mp) (getFromSquare move)) (getToSquare move))).set 3
        (setBit (clearBit (bbAt pos 3) 7) 5)).set mp (bbAt pos mp)).set 3
        (setBit (clearBit (((((pos.bitboards.set mp
          (setBit (clearBit (bbAt pos mp) (getFromSquare move)) (getToSquare move))).set 3
          (setBit (clearBit (bbAt pos 3) 7) 5)).set mp (bbAt pos mp))).getD 3 0) 5) 7)) =
        pos.bitboards := by
      have hrkne3 : (3 : Nat) ≠ mp := by
        rw [if_pos hstm0] at hrkne
        exact hrkne
      have hgd : ((((pos.bitboards.set mp
          (setBit (clearBit (bbAt pos mp) (getFromSquare move)) (getToSquare move))).set 3
          (setBit (clearBit (bbAt pos 3) 7) 5)).set mp (bbAt pos mp))).getD 3 0 =
          setBit (clearBit (bbAt pos 3) 7) 5 := by
        rw [getD_set_other _ (fun he => hrkne3 he.symm),
          getD_set_self _ (by simp only [List.length_set, hlen]; omega)]
      rw [hgd]
      have hclr2 : clearBit (setBit (clearBit (bbAt pos 3) 7) 5) 5 =
          clearBit (bbAt pos 3) 7 := by
        apply clearBit_setBit_self
        rw [testBit_clearBit, hrtall 3 (by omega)]
        simp
      rw [hclr2, setBit_clearBit_self hbitrf]
      apply List.ext_getElem
      · simp
      · intro i h1 h2
        rcases eq_or_ne i 3 with rfl | hne3
        · rw [List.getElem_set_self]
          rw [bbAt, List.getD_eq_getElem?_getD, List.getElem?_eq_getElem (by simpa using h2)]
          rfl
        · rw [List.getElem_set_ne (fun he => hne3 he.symm)]
          rcases eq_or_ne i mp with rfl | hnemp
          · rw [List.getElem_set_self]
            rw [bbAt, List.getD_eq_getElem?_getD, List.getElem?_eq_getElem (by simpa using h2)]
            rfl
          · rw [List.getElem_set_ne (fun he => hnemp he.symm),
              List.getElem_set_ne (fun he => hne3 he.symm),
              List.getElem_set_ne (fun he => hnemp he.symm)]
    rw [hbb3]
    rcases pos with ⟨bbs, wp, bp, ap, stm, cr, ep, hm, fm, zh, sh, ph⟩
    simp only [] at *
    subst hstm0
    rw [hNph]
    simp only [List.tail_cons]
    rw [hscr, hsep, hshm, hsz, hNfull]
    simp only [bbAt] at hw hbp hap
    rw [← hw, ← hbp, ← hap]
    simp
  · rw [hNstm, if_neg hstm0]
    simp only [if_neg hstm0] at hbitrf hrtall hbb2 ⊢
    simp only [if_neg hstm0, reduceCtorEq, if_false, ite_false, if_true, ite_true]
    have hbb3 : ((((pos.bitboards.set mp
        (setBit (clearBit (bbAt pos mp) (getFromSquare move)) (getToSquare move))).set 9
        (setBit (clearBit (bbAt pos 9) 63) 61)).set mp (bbAt pos mp)).set 9
        (setBit (clearBit (((((pos.bitboards.set mp
          (setBit (clearBit (bbAt pos mp) (getFromSquare move)) (getToSquare move))).set 9
          (setBit (clearBit (bbAt pos 9) 63) 61)).set mp (bbAt pos mp))).getD 9 0) 61) 63)) =
        pos.bitboards := by
      have hrkne9 : (9 : Nat) ≠ mp := by
        rw [if_neg hstm0] at hrkne
        exact hrkne
      have hgd : ((((pos.bitboards.set mp
          (setBit (clearBit (bbAt pos mp) (getFromSquare move)) (getToSquare move))).set 9
          (setBit (clearBit (bbAt pos 9) 63) 61)).set mp (bbAt pos mp))).getD 9 0 =
          setBit (clearBit (bbAt pos 9) 63) 61 := by
        rw [getD_set_other _ (fun he => hrkne9 he.symm),
          getD_set_self _ (by simp only [List.length_set, hlen]; omega)]
      rw [hgd]
      have hclr2 : clearBit (setBit (clearBit (bbAt pos 9) 63) 61) 61 =
          clearBit (bbAt pos 9) 63 := by
        apply clearBit_setBit_self
        rw [testBit_clearBit, hrtall 9 (by omega)]
        simp
      rw [hclr2, setBit_clearBit_self hbitrf]
      apply List.ext_getElem
      · simp
      · intro i h1 h2
        rcases eq_or_ne i 9 with rfl | hne3
        · rw [List.getElem_set_self]
          rw [bbAt, List.getD_eq_getElem?_getD, List.getElem?_eq_getElem (by simpa using h2)]
          rfl
        · rw [List.getElem_set_ne (fun he => hne3 he.symm)]
          rcases eq_or_ne i mp with rfl | hnemp
          · rw [List.getElem_set_self]
            rw [bbAt, List.getD_eq_getElem?_getD, List.getElem?_eq_getElem (by simpa using h2)]
            rfl
          · rw [List.getElem_set_ne (fun he => hnemp he.symm),
              List.getElem_set_ne (fun he => hne3 he.symm),
              List.getElem_set_ne (fun he => hnemp he.symm)]
    rw [hbb3]
    have hstmb : pos.sideToMove = Color.black := by
      cases hstm : pos.sideToMove
      · exact absurd hstm hstm0
      · rfl
    rcases pos with ⟨bbs, wp, bp, ap, stm, cr, ep, hm, fm, zh, sh, ph⟩
    simp only [] at *
    subst hstmb
    rw [hNph]
    simp only [List.tail_cons]
    rw [hscr, hsep, hshm, hsz, hNfull]
    simp only [bbAt] at hw hbp hap
    rw [← hw, ← hbp, ← hap]
    simp

/-- Shape of the `makeMove` result on kingside castling (flag 2). -/
theorem make_shape_castleK (pos : Position) (move : Nat) (mp : Nat)
    (hfl : getMoveFlags move = 2)
    (hmp : pieceAt pos (getFromSquare move) = Int.ofNat mp)
    (hmp0 : mp = (if pos.sideToMove = Color.white then 5 else 11)) :
    ∃ N : Position,
      (makeMove pos move = (true, N) ∨ makeMove pos move = (false, unmakeMove N move)) ∧
      N.bitboards = (pos.bitboards.set mp
          (setBit (clearBit (bbAt pos mp) (getFromSquare move)) (getToSquare move))).set
        (if pos.sideToMove = Color.white then 3 else 9)
        (setBit (clearBit ((pos.bitboards.set mp
            (setBit (clearBit (bbAt pos mp) (getFromSquare move)) (getToSquare move))).getD
            (if pos.sideToMove = Color.white then 3 else 9) 0)
          (if pos.sideToMove = Color.white then 7 else 63))
          (if pos.sideToMove = Color.white then 5 else 61)) ∧
      N.sideToMove = (if pos.sideToMove = Color.white then Color.black else Color.white) ∧
      N.fullmoveNumber =
        (if pos.sideToMove = Color.white then pos.fullmoveNumber else pos.fullmoveNumber + 1) ∧
      (∃ st : PositionState, N.stateHistory = st :: pos.stateHistory ∧
        st.castlingRights = pos.castlingRights ∧
        st.enPassantSquare = pos.enPassantSquare ∧
        st.halfmoveClock = pos.halfmoveClock ∧
        st.capturedPiece = -1 ∧
        st.zobristHash = pos.zobristHash) ∧
      (∃ hh : Nat, N.positionHistory = hh :: pos.positionHistory) := by
  have hCap : isCapture move = false := by
    simp only [isCapture, hfl]
    decide
  have hEp : isEnPassant move = false := by
    simp only [isEnPassant, hfl]
    decide
  have hProm : isPromotion move = false := by
    simp only [isPromotion, hfl]
    decide
  have hKC : isKingsideCastle move = true := by
    simp only [isKingsideCastle, hfl]
    decide
  have hQC : isQueensideCastle move = false := by
    simp only [isQueensideCastle, hfl]
    decide
  have hDP : isDoublePawnPush move = false := by
    simp only [isDoublePawnPush, hfl]
    decide
  have hne1 : ¬ ((Int.ofNat mp) = -1) := by
    intro hcon
    have h0 : (0 : Int) ≤ Int.ofNat mp := Int.ofNat_nonneg mp
    rw [hcon] at h0
    omega
  unfold makeMove
  simp only [hmp, if_neg hne1, hCap, hEp, hProm, hKC, hQC, hDP,
    Bool.false_eq_true, false_and, if_false, or_self, if_true, ite_true,
    eq_self_iff_true, true_or, or_false, or_true,
    show (Int.ofNat mp).toNat = mp from rfl]
  by_cases hsw : pos.sideToMove = Color.white
  · have hmpv : mp = 5 := by
      rw [hmp0, if_pos hsw]
    subst hmpv
    simp only [hsw, if_true, ite_true, eq_self_iff_true, or_true, true_or, or_false,
      decide_True, Bool.not_true, Bool.false_eq_true, if_false, ite_false,
      if_neg (show ¬ ((5 : Nat) = 0 ∨ (5 : Nat) = 6) from by decide)]
    rw [ite_ite_same]
    split
    · exact ⟨_, Or.inr rfl, rfl, rfl, rfl,
        ⟨_, rfl, rfl, rfl, rfl, rfl, rfl⟩, ⟨_, rfl⟩⟩
    · exact ⟨_, Or.inl rfl, rfl, rfl, rfl,
        ⟨_, rfl, rfl, rfl, rfl, rfl, rfl⟩, ⟨_, rfl⟩⟩
  · have hmpv : mp = 11 := by
      rw [hmp0, if_neg hsw]
    subst hmpv
    simp only [hsw, if_false, ite_false, eq_self_iff_true, or_true, true_or, or_false,
      decide_False, Bool.not_false, Bool.false_eq_true, if_true, ite_true,
      if_neg (show ¬ ((11 : Nat) = 0 ∨ (11 : Nat) = 6) from by decide)]
    rw [ite_ite_same]
    split
    · exact ⟨_, Or.inr rfl, rfl, rfl, rfl,
        ⟨_, rfl, rfl, rfl, rfl, rfl, rfl⟩, ⟨_, rfl⟩⟩
    · exact ⟨_, Or.inl rfl, rfl, rfl, rfl,
        ⟨_, rfl, rfl, rfl, rfl, rfl, rfl⟩, ⟨_, rfl⟩⟩

/-- Make-then-unmake analysis for kingside castling (flag 2). -/
theorem makeUnmake_castleK (pos : Position) (move : Nat) (mp : Nat)
    (hwf : wfPosition pos)
    (hfl : getMoveFlags move = 2)
    (hmp : pieceAt pos (getFromSquare move) = Int.ofNat mp)
    (hmp0 : mp = (if pos.sideToMove = Color.white then 5 else 11))
    (hto : pieceAt pos (getToSquare move) = -1)
    (htosq : getToSquare move = (if pos.sideToMove = Color.white then 6 else 62))
    (hrook : pieceAt pos (if pos.sideToMove = Color.white then 7 else 63) =
      Int.ofNat (if pos.sideToMove = Color.white then 3 else 9))
    (hrto : pieceAt pos (if pos.sideToMove = Color.white then 5 else 61) = -1) :
    ((makeMove pos move).1 = true → unmakeMove (makeMove pos move).2 move = pos) ∧
    ((makeMove pos move).1 = false → (makeMove pos move).2 = pos) := by
  obtain ⟨hlen, hdisj, hw, hbp, hap⟩ := hwf
  obtain ⟨hmp12, hbitf⟩ := pieceAt_inv hmp
  have htall := pieceAt_neg_inv hto
  obtain ⟨hrk12, hbitrf⟩ := pieceAt_inv hrook
  have hrtall := pieceAt_neg_inv hrto
  have hProm : isPromotion move = false := by
    simp only [isPromotion, hfl]
    decide
  have hKC : isKingsideCastle move = true := by
    simp only [isKingsideCastle, hfl]
    decide
  have hrkne : (if pos.sideToMove = Color.white then 3 else 9) ≠ mp := by
    rw [hmp0]
    by_cases hsw : pos.sideToMove = Color.white
    · rw [if_pos hsw, if_pos hsw]
      omega
    · rw [if_neg hsw, if_neg hsw]
      omega
  have hrtt : (if pos.sideToMove = Color.white then 5 else 61) ≠ getToSquare move := by
    rw [htosq]
    by_cases hsw : pos.sideToMove = Color.white
    · rw [if_pos hsw, if_pos hsw]
      omega
    · rw [if_neg hsw, if_neg hsw]
      omega
  obtain ⟨N, hor, hbb, hstm, hfull2, ⟨st, hsh, hcr, hep2, hhm, hcap, hz⟩, ⟨hh, hph⟩⟩ :=
    make_shape_castleK pos move mp hfl hmp hmp0
  have key : unmakeMove N move = pos :=
    unmake_restores_castleK pos move mp st N hh hlen hw hbp hap hmp12 hrkne
      hbitf htall hbitrf hrtall hrtt hProm hKC hcr hep2 hhm hcap hz hbb hstm hfull2 hsh hph
  rcases hor with h | h
  · rw [h]
    constructor
    · intro _
      exact key
    · intro hcon
      simp at hcon
  · rw [h]
    constructor
    · intro hcon
      simp at hcon
    · intro _
      exact key

/-- Core restoration fact for queenside castling (flag 3). -/
theorem unmake_restores_castleQ (pos : Position) (move : Nat) (mp : Nat)
    (state : PositionState) (N : Position) (hh : Nat)
    (hlen : pos.bitboards.length = 12)
    (hw : pos.whitePieces = bbAt pos 0 ||| bbAt pos 1 ||| bbAt pos 2 ||| bbAt pos 3 |||
      bbAt pos 4 ||| bbAt pos 5)
    (hbp : pos.blackPieces = bbAt pos 6 ||| bbAt pos 7 ||| bbAt pos 8 ||| bbAt pos 9 |||
      bbAt pos 10 ||| bbAt pos 11)
    (hap : pos.allPieces = pos.whitePieces ||| pos.blackPieces)
    (hmp12 : mp < 12)
    (hrkne : (if pos.sideToMove = Color.white then 3 else 9) ≠ mp)
    (hbitf : Nat.testBit (bbAt pos mp) (getFromSquare move) = true)
    (htall : ∀ q, q < 12 → Nat.testBit (bbAt pos q) (getToSquare move) = false)
    (hbitrf : Nat.testBit (bbAt pos (if pos.sideToMove = Color.white then 3 else 9))
      (if pos.sideToMove = Color.white then 0 else 56) = true)
    (hrtall : ∀ q, q < 12 → Nat.testBit (bbAt pos q)
      (if pos.sideToMove = Color.white then 3 else 59) = false)
    (hrtt : (if pos.sideToMove = Color.white then 3 else 59) ≠ getToSquare move)
    (hprom : isPromotion move = false)
    (hkc : isKingsideCastle move = false)
    (hqc : isQueensideCastle move = true)
    (hscr : state.castlingRights = pos.castlingRights)
    (hsep : state.enPassantSquare = pos.enPassantSquare)
    (hshm : state.halfmoveClock = pos.halfmoveClock)
    (hscap : state.capturedPiece = -1)
    (hsz : state.zobristHash = pos.zobristHash)
    (hNbb : N.bitboards = (pos.bitboards.set mp
        (setBit (clearBit (bbAt pos mp) (getFromSquare move)) (getToSquare move))).set
      (if pos.sideToMove = Color.white then 3 else 9)
      (setBit (clearBit ((pos.bitboards.set mp
          (setBit (clearBit (bbAt pos mp) (getFromSquare move)) (getToSquare move))).getD
          (if pos.sideToMove = Color.white then 3 else 9) 0)
        (if pos.sideToMove = Color.white then 0 else 56))
        (if pos.sideToMove = Color.white then 3 else 59)))
    (hNstm : N.sideToMove = (if pos.sideToMove = Color.white then Color.black else Color.white))
    (hNfull : N.fullmoveNumber =
      (if pos.sideToMove = Color.white then pos.fullmoveNumber else pos.fullmoveNumber + 1))
    (hNsh : N.stateHistory = state :: pos.stateHistory)
    (hNph : N.positionHistory = hh :: pos.positionHistory) :
    unmakeMove N move = pos := by
  have hgd1 : (pos.bitboards.set mp
      (setBit (clearBit (bbAt pos mp) (getFromSquare move)) (getToSquare move))).getD
      (if pos.sideToMove = Color.white then 3 else 9) 0 =
      bbAt pos (if pos.sideToMove = Color.white then 3 else 9) :=
    getD_set_other _ (fun he => hrkne he.symm)
  rw [hgd1] at hNbb
  unfold unmakeMove
  rw [hNsh]
  simp only []
  have hrk12 : (if pos.sideToMove = Color.white then 3 else 9) < 12 := by
    by_cases hsw : pos.sideToMove = Color.white
    · rw [if_pos hsw]
      omega
    · rw [if_neg hsw]
      omega
  have hbbNmp : bbAt N mp =
      setBit (clearBit (bbAt pos mp) (getFromSquare move)) (getToSquare move) := by
    rw [bbAt, hNbb, getD_set_other _ hrkne,
      getD_set_self _ (by simp only [List.length_set, hlen]; omega)]
  have hbbNrk : bbAt N (if pos.sideToMove = Color.white then 3 else 9) =
      setBit (clearBit (bbAt pos (if pos.sideToMove = Color.white then 3 else 9))
        (if pos.sideToMove = Color.white then 0 else 56))
        (if pos.sideToMove = Color.white then 3 else 59) := by
    rw [bbAt, hNbb, getD_set_self _ (by simp only [List.length_set, hlen]; exact hrk12)]
  have hbbNq : ∀ q, q ≠ mp → q ≠ (if pos.sideToMove = Color.white then 3 else 9) →
      bbAt N q = bbAt pos q := by
    intro q hq hq2
    rw [bbAt, hNbb, getD_set_other _ (fun he => hq2 he.symm),
      getD_set_other _ (fun he => hq he.symm), bbAt]
  have hpieceAtTo : pieceAt { N with stateHistory := pos.stateHistory, positionHistory := N.positionHistory.tail } (getToSquare move) = Int.ofNat mp := by
    apply pieceAt_eq_of hmp12
    · show Nat.testBit (bbAt N mp) (getToSquare move) = true
      rw [hbbNmp, testBit_setBit]
      simp
    · intro q hq hqmp
      show Nat.testBit (bbAt N q) (getToSquare move) = false
      rcases eq_or_ne q (if pos.sideToMove = Color.white then 3 else 9) with rfl | hqrk
      · rw [hbbNrk, testBit_setBit, testBit_clearBit, htall _ hq]
        simp only [Bool.false_and, Bool.false_or]
        exact decide_eq_false hrtt
      · rw [hbbNq q hqmp hqrk]
        exact htall q hq
  rw [hpieceAtTo]
  rw [hprom, hkc, hqc, hscap]
  simp only [Bool.false_eq_true, if_false, ite_false, if_true, ite_true,
    ne_eq, not_true_eq_false,
    show (Int.ofNat mp).toNat = mp from rfl]
  unfold movePiece updateAggregateBitboards
  simp only [bbAt]
  have hbb2 : (N.bitboards.set mp
      (setBit (clearBit (N.bitboards.getD mp 0) (getToSquare move)) (getFromSquare move))) =
      ((pos.bitboards.set mp
        (setBit (clearBit (bbAt pos mp) (getFromSquare move)) (getToSquare move))).set
        (if pos.sideToMove = Color.white then 3 else 9)
        (setBit (clearBit (bbAt pos (if pos.sideToMove = Color.white then 3 else 9))
          (if pos.sideToMove = Color.white then 0 else 56))
          (if pos.sideToMove = Color.white then 3 else 59))).set mp (bbAt pos mp) := by
    have hv : N.bitboards.getD mp 0 = bbAt N mp := rfl
    rw [hv, hbbNmp, hNbb]
    have hclr : clearBit (setBit (clearBit (bbAt pos mp) (getFromSquare move))
        (getToSquare move)) (getToSquare move) =
        clearBit (bbAt pos mp) (getFromSquare move) := by
      apply clearBit_setBit_self
      rw [testBit_clearBit, htall mp hmp12]
      simp
    rw [hclr, setBit_clearBit_self hbitf]
  rw [hbb2]
  by_cases hstm0 : pos.sideToMove = Color.white
  · rw [hNstm, if_pos hstm0]
    simp only [if_pos hstm0] at hbitrf hrtall hbb2 ⊢
    simp only [hstm0, if_true, ite_true, reduceCtorEq, if_false, ite_false]
    have hbb3 : ((((pos.bitboards.set mp
        (setBit (clearBit (bbAt pos mp) (getFromSquare move)) (getToSquare move))).set 3
        (setBit (clearBit (bbAt pos 3) 0) 3)).set mp (bbAt pos mp)).set 3
        (setBit (clearBit (((((pos.bitboards.set mp
          (setBit (clearBit (bbAt pos mp) (getFromSquare move)) (getToSquare move))).set 3
          (setBit (clearBit (bbAt pos 3) 0) 3)).set mp (bbAt pos mp))).getD 3 0) 3) 0)) =
        pos.bitboards := by
      have hrkne3 : (3 : Nat) ≠ mp := by
        rw [if_pos hstm0] at hrkne
        exact hrkne
      have hgd : ((((pos.bitboards.set mp
          (setBit (clearBit (bbAt pos mp) (getFromSquare move)) (getToSquare move))).set 3
          (setBit (clearBit (bbAt pos 3) 0) 3)).set mp (bbAt pos mp))).getD 3 0 =
          setBit (clearBit (bbAt pos 3) 0) 3 := by
        rw [getD_set_other _ (fun he => hrkne3 he.symm),
          getD_set_self _ (by simp only [List.length_set, hlen]; omega)]
      rw [hgd]
      have hclr2 : clearBit (setBit (clearBit (bbAt pos 3) 0) 3) 3 =
          clearBit (bbAt pos 3) 0 := by
        apply clearBit_setBit_self
        rw [testBit_clearBit, hrtall 3 (by omega)]
        simp
      rw [hclr2, setBit_clearBit_self hbitrf]
      apply List.ext_getElem
      · simp
      · intro i h1 h2
        rcases eq_or_ne i 3 with rfl | hne3
        · rw [List.getElem_set_self]
          rw [bbAt, List.getD_eq_getElem?_getD, List.getElem?_eq_getElem (by simpa using h2)]
          rfl
        · rw [List.getElem_set_ne (fun he => hne3 he.symm)]
          rcases eq_or_ne i mp with rfl | hnemp
          · rw [List.getElem_set_self]
            rw [bbAt, List.getD_eq_getElem?_getD, List.getElem?_eq_getElem (by simpa using h2)]
            rfl
          · rw [List.getElem_set_ne (fun he => hnemp he.symm),
              List.getElem_set_ne (fun he => hne3 he.symm),
              List.getElem_set_ne (fun he => hnemp he.symm)]
    rw [hbb3]
    rcases pos with ⟨bbs, wp, bp, ap, stm, cr, ep, hm, fm, zh, sh, ph⟩
    simp only [] at *
    subst hstm0
    rw [hNph]
    simp only [List.tail_cons]
    rw [hscr, hsep, hshm, hsz, hNfull]
    simp only [bbAt] at hw hbp hap
    rw [← hw, ← hbp, ← hap]
    simp
  · rw [hNstm, if_neg hstm0]
    simp only [if_neg hstm0] at hbitrf hrtall hbb2 ⊢
    simp only [if_neg hstm0, reduceCtorEq, if_false, ite_false, if_true, ite_true]
    have hbb3 : ((((pos.bitboards.set mp
        (setBit (clearBit (bbAt pos mp) (getFromSquare move)) (getToSquare move))).set 9
        (setBit (clearBit (bbAt pos 9) 56) 59)).set mp (bbAt pos mp)).set 9
        (setBit (clearBit (((((pos.bitboards.set mp
          (setBit (clearBit (bbAt pos mp) (getFromSquare move)) (getToSquare move))).set 9
          (setBit (clearBit (bbAt pos 9) 56) 59)).set mp (bbAt pos mp))).getD 9 0) 59) 56)) =
        pos.bitboards := by
      have hrkne9 : (9 : Nat) ≠ mp := by
        rw [if_neg hstm0] at hrkne
        exact hrkne
      have hgd : ((((pos.bitboards.set mp
          (setBit (clearBit (bbAt pos mp) (getFromSquare move)) (getToSquare move))).set 9
          (setBit (clearBit (bbAt pos 9) 56) 59)).set mp (bbAt pos mp))).getD 9 0 =
          setBit (clearBit (bbAt pos 9) 56) 59 := by
        rw [getD_set_other _ (fun he => hrkne9 he.symm),
          getD_set_self _ (by simp only [List.length_set, hlen]; omega)]
      rw [hgd]
      have hclr2 : clearBit (setBit (clearBit (bbAt pos 9) 56) 59) 59 =
          clearBit (bbAt pos 9) 56 := by
        apply clearBit_setBit_self
        rw [testBit_clearBit, hrtall 9 (by omega)]
        simp
      rw [hclr2, setBit_clearBit_self hbitrf]
      apply List.ext_getElem
      · simp
      · intro i h1 h2
        rcases eq_or_ne i 9 with rfl | hne3
        · rw [List.getElem_set_self]
          rw [bbAt, List.getD_eq_getElem?_getD, List.getElem?_eq_getElem (by simpa using h2)]
          rfl
        · rw [List.getElem_set_ne (fun he => hne3 he.symm)]
          rcases eq_or_ne i mp with rfl | hnemp
          · rw [List.getElem_set_self]
            rw [bbAt, List.getD_eq_getElem?_getD, List.getElem?_eq_getElem (by simpa using h2)]
            rfl
          · rw [List.getElem_set_ne (fun he => hnemp he.symm),
              List.getElem_set_ne (fun he => hne3 he.symm),
              List.getElem_set_ne (fun he => hnemp he.symm)]
    rw [hbb3]
    have hstmb : pos.sideToMove = Color.black := by
      cases hstm : pos.sideToMove
      · exact absurd hstm hstm0
      · rfl
    rcases pos with ⟨bbs, wp, bp, ap, stm, cr, ep, hm, fm, zh, sh, ph⟩
    simp only [] at *
    subst hstmb
    rw [hNph]
    simp only [List.tail_cons]
    rw [hscr, hsep, hshm, hsz, hNfull]
    simp only [bbAt] at hw hbp hap
    rw [← hw, ← hbp, ← hap]
    simp

/-- Shape of the `makeMove` result on queenside castling (flag 3). -/
theorem make_shape_castleQ (pos : Position) (move : Nat) (mp : Nat)
    (hfl : getMoveFlags move = 3)
    (hmp : pieceAt pos (getFromSquare move) = Int.ofNat mp)
    (hmp0 : mp = (if pos.sideToMove = Color.white then 5 else 11)) :
    ∃ N : Position,
      (makeMove pos move = (true, N) ∨ makeMove pos move = (false, unmakeMove N move)) ∧
      N.bitboards = (pos.bitboards.set mp
          (setBit (clearBit (bbAt pos mp) (getFromSquare move)) (getToSquare move))).set
        (if pos.sideToMove = Color.white then 3 else 9)
        (setBit (clearBit ((pos.bitboards.set mp
            (setBit (clearBit (bbAt pos mp) (getFromSquare move)) (getToSquare move))).getD
            (if pos.sideToMove = Color.white then 3 else 9) 0)
          (if pos.sideToMove = Color.white then 0 else 56))
          (if pos.sideToMove = Color.white then 3 else 59)) ∧
      N.sideToMove = (if pos.sideToMove = Color.white then Color.black else Color.white) ∧
      N.fullmoveNumber =
        (if pos.sideToMove = Color.white then pos.fullmoveNumber else pos.fullmoveNumber + 1) ∧
      (∃ st : PositionState, N.stateHistory = st :: pos.stateHistory ∧
        st.castlingRights = pos.castlingRights ∧
        st.enPassantSquare = pos.enPassantSquare ∧
        st.halfmoveClock = pos.halfmoveClock ∧
        st.capturedPiece = -1 ∧
        st.zobristHash = pos.zobristHash) ∧
      (∃ hh : Nat, N.positionHistory = hh :: pos.positionHistory) := by
  have hCap : isCapture move = false := by
    simp only [isCapture, hfl]
    decide
  have hEp : isEnPassant move = false := by
    simp only [isEnPassant, hfl]
    decide
  have hProm : isPromotion move = false := by
    simp only [isPromotion, hfl]
    decide
  have hKC : isKingsideCastle move = false := by
    simp only [isKingsideCastle, hfl]
    decide
  have hQC : isQueensideCastle move = true := by
    simp only [isQueensideCastle, hfl]
    decide
  have hDP : isDoublePawnPush move = false := by
    simp only [isDoublePawnPush, hfl]
    decide
  have hne1 : ¬ ((Int.ofNat mp) = -1) := by
    intro hcon
    have h0 : (0 : Int) ≤ Int.ofNat mp := Int.ofNat_nonneg mp
    rw [hcon] at h0
    omega
  unfold makeMove
  simp only [hmp, if_neg hne1, hCap, hEp, hProm, hKC, hQC, hDP,
    Bool.false_eq_true, false_and, if_false, or_self, if_true, ite_true,
    eq_self_iff_true, true_or, or_false, or_true,
    show (Int.ofNat mp).toNat = mp from rfl]
  by_cases hsw : pos.sideToMove = Color.white
  · have hmpv : mp = 5 := by
      rw [hmp0, if_pos hsw]
    subst hmpv
    simp only [hsw, if_true, ite_true, eq_self_iff_true, or_true, true_or, or_false,
      decide_True, Bool.not_true, Bool.false_eq_true, if_false, ite_false,
      if_neg (show ¬ ((5 : Nat) = 0 ∨ (5 : Nat) = 6) from by decide)]
    rw [ite_ite_same]
    split
    · exact ⟨_, Or.inr rfl, rfl, rfl, rfl,
        ⟨_, rfl, rfl, rfl, rfl, rfl, rfl⟩, ⟨_, rfl⟩⟩
    · exact ⟨_, Or.inl rfl, rfl, rfl, rfl,
        ⟨_, rfl, rfl, rfl, rfl, rfl, rfl⟩, ⟨_, rfl⟩⟩
  · have hmpv : mp = 11 := by
      rw [hmp0, if_neg hsw]
    subst hmpv
    simp only [hsw, if_false, ite_false, eq_self_iff_true, or_true, true_or, or_false,
      decide_False, Bool.not_false, Bool.false_eq_true, if_true, ite_true,
      if_neg (show ¬ ((11 : Nat) = 0 ∨ (11 : Nat) = 6) from by decide)]
    rw [ite_ite_same]
    split
    · exact ⟨_, Or.inr rfl, rfl, rfl, rfl,
        ⟨_, rfl, rfl, rfl, rfl, rfl, rfl⟩, ⟨_, rfl⟩⟩
    · exact ⟨_, Or.inl rfl, rfl, rfl, rfl,
        ⟨_, rfl, rfl, rfl, rfl, rfl, rfl⟩, ⟨_, rfl⟩⟩

/-- Make-then-unmake analysis for queenside castling (flag 3). -/
theorem makeUnmake_castleQ (pos : Position) (move : Nat) (mp : Nat)
    (hwf : wfPosition pos)
    (hfl : getMoveFlags move = 3)
    (hmp : pieceAt pos (getFromSquare move) = Int.ofNat mp)
    (hmp0 : mp = (if pos.sideToMove = Color.white then 5 else 11))
    (hto : pieceAt pos (getToSquare move) = -1)
    (htosq : getToSquare move = (if pos.sideToMove = Color.white then 2 else 58))
    (hrook : pieceAt pos (if pos.sideToMove = Color.white then 0 else 56) =
      Int.ofNat (if pos.sideToMove = Color.white then 3 else 9))
    (hrto : pieceAt pos (if pos.sideToMove = Color.white then 3 else 59) = -1) :
    ((makeMove pos move).1 = true → unmakeMove (makeMove pos move).2 move = pos) ∧
    ((makeMove pos move).1 = false → (makeMove pos move).2 = pos) := by
  obtain ⟨hlen, hdisj, hw, hbp, hap⟩ := hwf
  obtain ⟨hmp12, hbitf⟩ := pieceAt_inv hmp
  have htall := pieceAt_neg_inv hto
  obtain ⟨hrk12, hbitrf⟩ := pieceAt_inv hrook
  have hrtall := pieceAt_neg_inv hrto
  have hProm : isPromotion move = false := by
    simp only [isPromotion, hfl]
    decide
  have hKC : isKingsideCastle move = false := by
    simp only [isKingsideCastle, hfl]
    decide
  have hQC : isQueensideCastle move = true := by
    simp only [isQueensideCastle, hfl]
    decide
  have hrkne : (if pos.sideToMove = Color.white then 3 else 9) ≠ mp := by
    rw [hmp0]
    by_cases hsw : pos.sideToMove = Color.white
    · rw [if_pos hsw, if_pos hsw]
      omega
    · rw [if_neg hsw, if_neg hsw]
      omega
  have hrtt : (if pos.sideToMove = Color.white then 3 else 59) ≠ getToSquare move := by
    rw [htosq]
    by_cases hsw : pos.sideToMove = Color.white
    · rw [if_pos hsw, if_pos hsw]
      omega
    · rw [if_neg hsw, if_neg hsw]
      omega
  obtain ⟨N, hor, hbb, hstm, hfull2, ⟨st, hsh, hcr, hep2, hhm, hcap, hz⟩, ⟨hh, hph⟩⟩ :=
    make_shape_castleQ pos move mp hfl hmp hmp0
  have key : unmakeMove N move = pos :=
    unmake_restores_castleQ pos move mp st N hh hlen hw hbp hap hmp12 hrkne
      hbitf htall hbitrf hrtall hrtt hProm hKC hQC hcr hep2 hhm hcap hz hbb hstm hfull2 hsh hph
  rcases hor with h | h
  · rw [h]
    constructor
    · intro _
      exact key
    · intro hcon
      simp at hcon
  · rw [h]
    constructor
    · intro hcon
      simp at hcon
    · intro _
      exact key


/-- `pieceAt` returns either `-1` or the index of some board. -/
theorem pieceAt_cases (pos : Position) (sq : Nat) :
    pieceAt pos sq = -1 ∨ ∃ m, pieceAt pos sq = Int.ofNat m := by
  unfold pieceAt
  rcases h : (List.range 12).find? (fun p => testBit (bbAt pos p) sq) with _ | p
  · exact Or.inl rfl
  · exact Or.inr ⟨p, rfl⟩

/-- Dispatcher: on any well-formed position and move, a successful
`makeMove` is undone exactly by `unmakeMove`, and a failed `makeMove`
returns the original position unchanged. -/
theorem makeUnmake_wf (pos : Position) (move : Nat)
    (hwf : wfPosition pos) (hm : wfMove pos move) :
    ((makeMove pos move).1 = true → unmakeMove (makeMove pos move).2 move = pos) ∧
    ((makeMove pos move).1 = false → (makeMove pos move).2 = pos) := by
  obtain ⟨fl, hfleq⟩ : ∃ fl, getMoveFlags move = fl := ⟨_, rfl⟩
  have hfl15 : fl ≤ 15 := by
    rw [← hfleq]
    unfold getMoveFlags
    rw [Nat.shiftRight_eq_div_pow]
    calc (move &&& 0xF000) / 2 ^ 12 ≤ 0xF000 / 2 ^ 12 :=
          Nat.div_le_div_right Nat.and_le_right
    _ = 15 := by norm_num
  unfold wfMove at hm
  rw [hfleq] at hm
  interval_cases fl
  · rw [if_pos (Or.inl rfl)] at hm
    obtain ⟨hne, hft, hto⟩ := hm
    rcases pieceAt_cases pos (getFromSquare move) with h | ⟨m, hm2⟩
    · exact absurd h hne
    · exact makeUnmake_quietlike pos move m hwf (Or.inl hfleq) hm2 hft hto
  · rw [if_pos (Or.inr rfl)] at hm
    obtain ⟨hne, hft, hto⟩ := hm
    rcases pieceAt_cases pos (getFromSquare move) with h | ⟨m, hm2⟩
    · exact absurd h hne
    · exact makeUnmake_quietlike pos move m hwf (Or.inr hfleq) hm2 hft hto
  · rw [if_neg (by decide), if_pos rfl] at hm
    obtain ⟨hmp, hto, htosq, hrook, hrto⟩ := hm
    exact makeUnmake_castleK pos move _ hwf hfleq hmp rfl hto htosq hrook hrto
  · rw [if_neg (by decide), if_neg (by decide), if_pos rfl] at hm
    obtain ⟨hmp, hto, htosq, hrook, hrto⟩ := hm
    exact makeUnmake_castleQ pos move _ hwf hfleq hmp rfl hto htosq hrook hrto
  · rw [if_neg (by decide), if_neg (by decide), if_neg (by decide), if_pos rfl] at hm
    obtain ⟨hf, ht, hne, hft⟩ := hm
    rcases pieceAt_cases pos (getFromSquare move) with h | ⟨m, hm2⟩
    · exact absurd h hf
    rcases pieceAt_cases pos (getToSquare move) with h | ⟨cap, hcap2⟩
    · exact absurd h ht
    have hcapne : cap ≠ m := by
      intro he
      apply hne
      rw [hcap2, hm2, he]
    exact makeUnmake_capture pos move m cap hwf hfleq hm2 hcap2 hcapne hft
  · rw [if_neg (by decide), if_neg (by decide), if_neg (by decide),
      if_neg (by decide), if_pos rfl] at hm
    obtain ⟨hmp, hto, hcs, hft⟩ := hm
    exact makeUnmake_ep pos move _ hwf hfleq hmp rfl hto hcs hft
  · rw [if_neg (by decide), if_neg (by decide), if_neg (by decide), if_neg (by decide),
      if_neg (by decide), if_neg (by decide), if_neg (by decide)] at hm
    exact hm.elim
  · rw [if_neg (by decide), if_neg (by decide), if_neg (by decide), if_neg (by decide),
      if_neg (by decide), if_neg (by decide), if_neg (by decide)] at hm
    exact hm.elim
  · rw [if_neg (by decide), if_neg (by decide), if_neg (by decide), if_neg (by decide),
      if_neg (by decide), if_pos (by decide)] at hm
    obtain ⟨hmp, hto⟩ := hm
    exact makeUnmake_promo pos move _ hwf (Or.inl hfleq) hmp rfl hto
  · rw [if_neg (by decide), if_neg (by decide), if_neg (by decide), if_neg (by decide),
      if_neg (by decide), if_pos (by decide)] at hm
    obtain ⟨hmp, hto⟩ := hm
    exact makeUnmake_promo pos move _ hwf (Or.inr (Or.inl hfleq)) hmp rfl hto
  · rw [if_neg (by decide), if_neg (by decide), if_neg (by decide), if_neg (by decide),
      if_neg (by decide), if_pos (by decide)] at hm
    obtain ⟨hmp, hto⟩ := hm
    exact makeUnmake_promo pos move _ hwf (Or.inr (Or.inr (Or.inl hfleq))) hmp rfl hto
  · rw [if_neg (by decide), if_neg (by decide), if_neg (by decide), if_neg (by decide),
      if_neg (by decide), if_pos (by decide)] at hm
    obtain ⟨hmp, hto⟩ := hm
    exact makeUnmake_promo pos move _ hwf (Or.inr (Or.inr (Or.inr hfleq))) hmp rfl hto
  · rw [if_neg (by decide), if_neg (by decide), if_neg (by decide), if_neg (by decide),
      if_neg (by decide), if_neg (by decide), if_pos (by decide)] at hm
    obtain ⟨hmp, htne, hrange⟩ := hm
    rcases pieceAt_cases pos (getToSquare move) with h | ⟨cap, hcap2⟩
    · exact absurd h htne
    have htoNat : (pieceAt pos (getToSquare move)).toNat = cap := by
      rw [hcap2]
      rfl
    rw [htoNat] at hrange
    have hcapne : cap ≠ (if pos.sideToMove = Color.white then 0 else 6) := by
      by_cases hsw : pos.sideToMove = Color.white
      · rw [if_pos hsw] at hrange ⊢
        omega
      · rw [if_neg hsw] at hrange ⊢
        omega
    exact makeUnmake_promoCapture pos move _ cap hwf (Or.inl hfleq) hmp rfl
      hcap2 hcapne hrange
  · rw [if_neg (by decide), if_neg (by decide), if_neg (by decide), if_neg (by decide),
      if_neg (by decide), if_neg (by decide), if_pos (by decide)] at hm
    obtain ⟨hmp, htne, hrange⟩ := hm
    rcases pieceAt_cases pos (getToSquare move) with h | ⟨cap, hcap2⟩
    · exact absurd h htne
    have htoNat : (pieceAt pos (getToSquare move)).toNat = cap := by
      rw [hcap2]
      rfl
    rw [htoNat] at hrange
    have hcapne : cap ≠ (if pos.sideToMove = Color.white then 0 else 6) := by
      by_cases hsw : pos.sideToMove = Color.white
      · rw [if_pos hsw] at hrange ⊢
        omega
      · rw [if_neg hsw] at hrange ⊢
        omega
    exact makeUnmake_promoCapture pos move _ cap hwf (Or.inr (Or.inl hfleq)) hmp rfl
      hcap2 hcapne hrange
  · rw [if_neg (by decide), if_neg (by decide), if_neg (by decide), if_neg (by decide),
      if_neg (by decide), if_neg (by decide), if_pos (by decide)] at hm
    obtain ⟨hmp, htne, hrange⟩ := hm
    rcases pieceAt_cases pos (getToSquare move) with h | ⟨cap, hcap2⟩
    · exact absurd h htne
    have htoNat : (pieceAt pos (getToSquare move)).toNat = cap := by
      rw [hcap2]
      rfl
    rw [htoNat] at hrange
    have hcapne : cap ≠ (if pos.sideToMove = Color.white then 0 else 6) := by
      by_cases hsw : pos.sideToMove = Color.white
      · rw [if_pos hsw] at hrange ⊢
        omega
      · rw [if_neg hsw] at hrange ⊢
        omega
    exact makeUnmake_promoCapture pos move _ cap hwf (Or.inr (Or.inr (Or.inl hfleq)))
      hmp rfl hcap2 hcapne hrange
  · rw [if_neg (by decide), if_neg (by decide), if_neg (by decide), if_neg (by decide),
      if_neg (by decide), if_neg (by decide), if_pos (by decide)] at hm
    obtain ⟨hmp, htne, hrange⟩ := hm
    rcases pieceAt_cases pos (getToSquare move) with h | ⟨cap, hcap2⟩
    · exact absurd h htne
    have htoNat : (pieceAt pos (getToSquare move)).toNat = cap := by
      rw [hcap2]
      rfl
    rw [htoNat] at hrange
    have hcapne : cap ≠ (if pos.sideToMove = Color.white then 0 else 6) := by
      by_cases hsw : pos.sideToMove = Color.white
      · rw [if_pos hsw] at hrange ⊢
        omega
      · rw [if_neg hsw] at hrange ⊢
        omega
    exact makeUnmake_promoCapture pos move _ cap hwf (Or.inr (Or.inr (Or.inr hfleq)))
      hmp rfl hcap2 hcapne hrange


/-- C2 (amended): on a well-formed position (twelve pairwise-disjoint
boards with consistent aggregates) and a well-formed move (mover
present, flag-appropriate occupancy of the squares involved, flags 6
and 7 excluded), a successful `makeMove` is undone exactly by
`unmakeMove`: the original position, all derived state included, is
restored. -/
theorem c2_unmake_restores (pos : Position) (move : Nat)
    (hwf : wfPosition pos) (hm : wfMove pos move)
    (hok : (makeMove pos move).1 = true) :
    unmakeMove (makeMove pos move).2 move = pos :=
  (makeUnmake_wf pos move hwf hm).1 hok

theorem c2_witness : unmakeMove (makeMove lonePos loneMove).2 loneMove = lonePos :=
  c2_unmake_restores lonePos loneMove (by decide) (by decide) (by decide)

/-- C3 (amended): on a well-formed position and a well-formed move, a
`makeMove` that reports failure hands back the original position
unchanged. -/
theorem c3_failed_make_unchanged (pos : Position) (move : Nat)
    (hwf : wfPosition pos) (hm : wfMove pos move)
    (hfail : (makeMove pos move).1 = false) :
    (makeMove pos move).2 = pos :=
  (makeUnmake_wf pos move hwf hm).2 hfail

theorem c3_witness : (makeMove pinPos pinMove).2 = pinPos :=
  c3_failed_make_unchanged pinPos pinMove (by decide) (by decide) (by decide)

/-- C5: `getGameState` agrees with the specification-level game-state
computation (checkmate, stalemate, the three draw rules, or ongoing)
on every position whose boards fit in 64 bits. -/
theorem c5_gameState_follows_spec (pos : Position)
    (h : ∀ i, i < 12 → bbAt pos i < 2 ^ 64) :
    getGameState pos = specGameState pos :=
  gameState_eq_specGameState pos h

theorem c5_witness : getGameState kingsOnlyPos = specGameState kingsOnlyPos :=
  c5_gameState_follows_spec kingsOnlyPos (by decide)


/-- C6 (amended): `fromFEN` reports a parse error exactly when the FEN
has fewer than four whitespace-separated fields or its placement field
does not split into eight slash-separated ranks; the width of each
rank is never validated. -/
theorem c6_fromFEN_error_iff (fen : String) :
    (fromFEN fen).isOk = false ↔
      (splitWs fen).length < 4 ∨
      (splitSlash ((splitWs fen).getD 0 "")).length ≠ 8 := by
  unfold fromFEN
  simp only []
  by_cases h1 : (splitWs fen).length < 4
  · rw [if_pos h1]
    exact iff_of_true rfl (Or.inl h1)
  · rw [if_neg h1]
    by_cases h2 : (splitSlash ((splitWs fen).getD 0 "")).length ≠ 8
    · rw [if_pos h2]
      exact iff_of_true rfl (Or.inr h2)
    · rw [if_neg h2]
      refine iff_of_false ?_ ?_
      · simp [Except.isOk, Except.toBool]
      · tauto

end Chess
